import Mathlib

/-!
# nema-traders: invoice / credit ledger core of `swapnil.js`

A shallow embedding of the record store (`InvoiceDB`) and of the invoice
lifecycle, payment allocation, quotation conversion and statement generation
methods of `InvoiceApp`, followed by theorems about them.

Modelling conventions

* Record ids are the strings produced by `generateId` (clock plus
  `Math.random`).  They are modelled as natural numbers drawn from a counter
  `Store.nextId`, so that every generated id is new.  An absent / empty id is
  `none`.
* Timestamps (`new Date().toISOString()`, form dates) are natural numbers
  (milliseconds); the clock reading is an argument `now` of each operation.
* Money and quantities are JavaScript numbers, that is doubles.  The
  operations of the invoice lifecycle (`saveInvoice`, `savePayment`, ...) are
  given on whole numbers, the integer `n` standing for the number `n`, with
  exact sums, differences and products; these are the results of the code as
  long as the numbers stay below `2 ^ 53` in size.  The stock loops, the payment
  loop and the statement are also given with the arithmetic as an argument
  (`Arith`): with `Arith.doubles` every sum and difference is rounded to the
  nearest double as the code's are, a number `x` being kept as the integer
  `x * 2 ^ 100`; `Arith.exact` does not round.
* A document number `${p}-${n}` is kept as the pair of `p` and `n`.
* DOM access, notifications and re-rendering are not modelled; the form
  contents are an argument of the operation and a `confirm` dialog is a
  Boolean argument.
* A `Date` is its time value in milliseconds, `none` for an `Invalid Date`.
  Local time is the time of the clock plus an offset in milliseconds, which
  is an argument of the statement; a change of the offset between the dates
  at hand (daylight saving) is not modelled.
* `importData` works on the stored texts themselves: for it `localStorage` is
  a list of keys with the JSON values whose text they hold, and whether the
  browser takes a write is an argument.
-/

namespace NemaTraders

/-! ## Data model -/

/-- Status of an invoice or of a credit entry. -/
inductive Status where
  | pending
  | paid
deriving DecidableEq, Repr

/-- Status of a quotation. -/
inductive QuotationStatus where
  | pending
  | converted
deriving DecidableEq, Repr

/-- A stored record: the fields every collection shares (`id`, `createdAt`,
`updatedAt`, each absent until `save` sets it) around the record's own
fields. -/
structure Rec (α : Type) where
  id : Option Nat
  createdAt : Option Nat
  updatedAt : Option Nat
  val : α
deriving DecidableEq, Repr

/-- A document number, the template string made of a settings text and a
counter value. -/
structure DocNumber where
  pfx : String
  number : Nat
deriving DecidableEq, Repr

/-- Rendering of a document number inside a notes text. -/
def DocNumber.render (d : DocNumber) : String :=
  d.pfx ++ "-" ++ toString d.number

/-- One line of an invoice or quotation. -/
structure Item where
  productId : Option Nat
  quantity : Int
  rate : Int
  amount : Int
deriving DecidableEq, Repr

/-- One row of the item editor, as read by `calculateInvoiceTotal`. -/
structure ItemRow where
  productId : Option Nat
  quantity : Int
  rate : Int
deriving DecidableEq, Repr

/-- One entry of a credit entry's payment history. -/
structure Payment where
  amount : Int
  date : Option Nat
  method : String
deriving DecidableEq, Repr

structure CustomerData where
  name : String
  phone : String
deriving DecidableEq, Repr

structure ProductData where
  name : String
  currentStock : Int
  minStock : Int
  purchasePrice : Int
  sellingPrice : Int
deriving DecidableEq, Repr

/-- Fields of an invoice.  `invoiceDate`, `subtotal`, `tax` and
`remainingAmount` are absent on an invoice written by `convertToInvoice`. -/
structure InvoiceData where
  invoiceNumber : DocNumber
  customerId : Nat
  invoiceDate : Option Nat
  dueDate : Option Nat
  paymentDate : Option Nat
  paymentMethod : Option String
  items : List Item
  subtotal : Option Int
  tax : Option Int
  total : Int
  status : Status
  notes : String
  remainingAmount : Option Int
  convertedFrom : Option Nat
deriving DecidableEq, Repr

structure QuotationData where
  quotationNumber : DocNumber
  customerId : Nat
  validUntil : Option Nat
  items : List Item
  total : Int
  status : QuotationStatus
  notes : String
deriving DecidableEq, Repr

structure CreditData where
  customerId : Nat
  invoiceId : Option Nat
  amount : Int
  remainingAmount : Int
  dueDate : Option Nat
  status : Status
  notes : String
  payments : List Payment
deriving DecidableEq, Repr

/-- The part of `business-settings` the core reads. -/
structure Settings where
  invoicePrefix : String
  quotationPrefix : String
deriving DecidableEq, Repr

structure Counters where
  invoice : Nat
  quotation : Nat
deriving DecidableEq, Repr

/-- The whole of `localStorage` as used by `InvoiceDB`, with the id supply. -/
structure Store where
  customers : List (Rec CustomerData)
  products : List (Rec ProductData)
  invoices : List (Rec InvoiceData)
  quotations : List (Rec QuotationData)
  credits : List (Rec CreditData)
  settings : Settings
  counters : Counters
  nextId : Nat
deriving DecidableEq, Repr

/-- Result of an operation, next to the store it leaves. -/
inductive Outcome where
  | ok
  | rejected (msg : String)
  | notFound
  | cancelled
  | threw
deriving DecidableEq, Repr

/-! ## `InvoiceDB` -/

namespace InvoiceDB

/-- The store after `init` on an empty `localStorage`. -/
def init : Store :=
  { customers := [], products := [], invoices := [], quotations := [], credits := [],
    settings := { invoicePrefix := "INV", quotationPrefix := "QUO" },
    counters := { invoice := 1000, quotation := 2000 },
    nextId := 1 }

/-- `getById`: the first record of the collection with the given id. -/
def getById {α : Type} (items : List (Rec α)) (id : Nat) : Option (Rec α) :=
  items.find? (fun r => r.id == some id)

/-- Assignment `items[index] = x` at `index = items.findIndex p`, nothing
when no element satisfies `p`. -/
def replaceFirst {α : Type} (p : α → Bool) (x : α) : List α → List α
  | [] => []
  | y :: ys => if p y then x :: ys else y :: replaceFirst p x ys

/-- `save(collection, item)`: the collection written back, the returned
`item`, and the id supply.  With an id the first record of that id is
replaced by the item stamped `updatedAt` (nothing is stored when there is
none) and the item itself is returned; without an id the item gets a new id
and `createdAt` and is pushed. -/
def save {α : Type} (items : List (Rec α)) (item : Rec α) (now nextId : Nat) :
    List (Rec α) × Rec α × Nat :=
  match item.id with
  | some i =>
    (replaceFirst (fun r => r.id == some i) { item with updatedAt := some now } items,
      item, nextId)
  | none =>
    let item1 : Rec α := { item with id := some nextId, createdAt := some now }
    (items ++ [item1], item1, nextId + 1)

/-- `delete(collection, id)`: keeps the records whose id differs. -/
def delete {α : Type} (items : List (Rec α)) (id : Option Nat) : List (Rec α) :=
  items.filter (fun r => r.id != id)

end InvoiceDB

/-! ## `InvoiceApp` -/

namespace InvoiceApp

open InvoiceDB

/-- The invoice form together with the item editor rows. -/
structure InvoiceForm where
  customerId : Option Nat
  status : Status
  partialPayment : Int
  newPayment : Int
  invoiceDate : Option Nat
  dueDate : Option Nat
  paymentDate : Option Nat
  paymentMethod : Option String
  notes : String
  rows : List ItemRow
deriving DecidableEq, Repr

/-- `calculateInvoiceTotal`: rebuilds the item list from the editor rows
(`amount = quantity * rate`) and returns it with the sum of the amounts. -/
def calculateInvoiceTotal (rows : List ItemRow) : List Item × Int :=
  rows.foldl
    (fun acc row =>
      let amount := row.quantity * row.rate
      (acc.1 ++ [{ productId := row.productId, quantity := row.quantity,
                   rate := row.rate, amount := amount }], acc.2 + amount))
    ([], 0)

/-- One pass of the stock loops of `saveInvoice`: for every item with a
product id whose product exists, `currentStock` moves by `sign * quantity`
and the product is saved.  Stock levels and quantities are whole numbers
here; `adjustStockWith` is the same pass on doubles. -/
def adjustStock (sign : Int) (now : Nat) (products : List (Rec ProductData))
    (items : List Item) : List (Rec ProductData) :=
  items.foldl
    (fun ps item =>
      match item.productId with
      | none => ps
      | some pid =>
        match getById ps pid with
        | none => ps
        | some product =>
          (save ps { product with
              val := { product.val with
                currentStock := product.val.currentStock + sign * item.quantity } }
            now 0).1)
    products

/-- The text `savedInvoice.paymentMethod || 'invoice_payment'`. -/
def settlingMethod (m : Option String) : String :=
  match m with
  | some s => if s = "" then "invoice_payment" else s
  | none => "invoice_payment"

/-- The credit reconciliation at the end of `saveInvoice`, after the invoice
has been saved: the credits collection and the id supply it leaves. -/
def reconcileCredit (credits : List (Rec CreditData)) (savedInvoice : Rec InvoiceData)
    (partialPayment newPayment : Int) (now nextId : Nat) : List (Rec CreditData) × Nat :=
  let linkedCredit := credits.find? (fun c => c.val.invoiceId == savedInvoice.id)
  match savedInvoice.val.status with
  | .pending =>
    match linkedCredit with
    | some linked =>
      let payments1 :=
        if newPayment > 0 then
          linked.val.payments ++ [{ amount := newPayment, date := some now, method := "partial" }]
        else linked.val.payments
      let remaining := savedInvoice.val.total - (partialPayment + newPayment)
      let status1 := if remaining ≤ 0 then Status.paid else linked.val.status
      let r := save credits
        { linked with val := { linked.val with
            payments := payments1, remainingAmount := remaining, status := status1 } }
        now nextId
      (r.1, r.2.2)
    | none =>
      let creditData : CreditData :=
        { customerId := savedInvoice.val.customerId
          invoiceId := savedInvoice.id
          amount := savedInvoice.val.total
          remainingAmount := savedInvoice.val.total
          dueDate := savedInvoice.val.dueDate
          status := .pending
          notes := "From invoice #" ++ savedInvoice.val.invoiceNumber.render
          payments := [] }
      let creditData1 : CreditData :=
        if partialPayment > 0 then
          { creditData with
            remainingAmount := creditData.remainingAmount - partialPayment
            payments := creditData.payments ++
              [{ amount := partialPayment, date := savedInvoice.val.invoiceDate,
                 method := "advance" }] }
        else creditData
      let r := save credits
        { id := none, createdAt := none, updatedAt := none, val := creditData1 } now nextId
      (r.1, r.2.2)
  | .paid =>
    match linkedCredit with
    | some linked =>
      let r := save credits
        { linked with val := { linked.val with
            remainingAmount := 0
            status := .paid
            payments := [{ amount := linked.val.amount
                           date := savedInvoice.val.paymentDate
                           method := settlingMethod savedInvoice.val.paymentMethod }] } }
        now nextId
      (r.1, r.2.2)
    | none =>
      let creditData : CreditData :=
        { customerId := savedInvoice.val.customerId
          invoiceId := savedInvoice.id
          amount := savedInvoice.val.total
          remainingAmount := 0
          dueDate := savedInvoice.val.dueDate
          status := .paid
          notes := "From paid invoice #" ++ savedInvoice.val.invoiceNumber.render
          payments := [{ amount := savedInvoice.val.total
                         date := savedInvoice.val.paymentDate
                         method := settlingMethod savedInvoice.val.paymentMethod }] }
      let r := save credits
        { id := none, createdAt := none, updatedAt := none, val := creditData } now nextId
      (r.1, r.2.2)

/-- The `invoice` object `saveInvoice` builds after the validation returns,
with its `remainingAmount`: it keeps the number of the stored invoice on edit
and takes the current counter value otherwise.  `existingInvoice` is
`getById('invoices', invoiceId)` on edit. -/
def buildInvoice (st : Store) (invoiceId : Option Nat)
    (existingInvoice : Option (Rec InvoiceData)) (customerId : Nat) (form : InvoiceForm)
    (now : Nat) : Rec InvoiceData :=
  let items := (calculateInvoiceTotal form.rows).1
  let total := (calculateInvoiceTotal form.rows).2
  let invoiceNumber : DocNumber :=
    match existingInvoice with
    | some ex => ex.val.invoiceNumber
    | none => { pfx := st.settings.invoicePrefix, number := st.counters.invoice }
  let totalReceived := form.partialPayment + form.newPayment
  { id := invoiceId, createdAt := none, updatedAt := none
    val :=
      { invoiceNumber := invoiceNumber
        customerId := customerId
        invoiceDate := some (form.invoiceDate.getD now)
        dueDate := form.dueDate
        paymentDate := if form.status = .paid then some (form.paymentDate.getD now) else none
        paymentMethod := if form.status = .paid then form.paymentMethod else none
        items := items
        subtotal := some total
        tax := some 0
        total := total
        status := form.status
        notes := form.notes
        remainingAmount :=
          if form.status = .pending then some (total - totalReceived) else some 0
        convertedFrom := none } }

/-- The part of `saveInvoice` after the validation returns: the invoice is
built (`getNextNumber` advances the invoice counter when there is no stored
invoice), stock is reversed for the stored items (on edit) and applied for
the new items, the invoice is saved and the credit entry reconciled. -/
def writeInvoice (st : Store) (invoiceId : Option Nat)
    (existingInvoice : Option (Rec InvoiceData)) (customerId : Nat) (form : InvoiceForm)
    (now : Nat) : Store :=
  let invoice := buildInvoice st invoiceId existingInvoice customerId form now
  let counters1 : Counters :=
    match existingInvoice with
    | some _ => st.counters
    | none => { st.counters with invoice := st.counters.invoice + 1 }
  let products1 :=
    match existingInvoice with
    | some ex => adjustStock 1 now st.products ex.val.items
    | none => st.products
  let products2 := adjustStock (-1) now products1 invoice.val.items
  let r := save st.invoices invoice now st.nextId
  let savedInvoice := r.2.1
  let c := reconcileCredit st.credits savedInvoice form.partialPayment form.newPayment
    now r.2.2
  { st with
    products := products2, invoices := r.1, credits := c.1,
    counters := counters1, nextId := c.2 }

/-- `saveInvoice(invoiceId)`.  The three validation returns give `rejected`;
an edit of an id that is not in the invoices collection raises a `TypeError`
while the invoice number is read (`threw`); both leave the store as it is.
The rows of the form stand for `currentInvoiceItems`, which
`calculateInvoiceTotal` rebuilds from the item editor. -/
def saveInvoice (st : Store) (invoiceId : Option Nat) (form : InvoiceForm) (now : Nat) :
    Outcome × Store :=
  match form.customerId with
  | none => (.rejected "Please select a customer!", st)
  | some customerId =>
    if form.rows.length = 0 ∨ ¬ (form.rows.any (fun item => item.productId.isSome)) = true then
      (.rejected "Please add at least one item!", st)
    else if form.status = .pending ∧
        form.partialPayment + form.newPayment ≥ (calculateInvoiceTotal form.rows).2 then
      (.rejected "For Pending status, Amount Received must be less than the total amount.", st)
    else
      match invoiceId with
      | some i =>
        match getById st.invoices i with
        | none => (.threw, st)
        | some existingInvoice =>
          (.ok, writeInvoice st (some i) (some existingInvoice) customerId form now)
      | none => (.ok, writeInvoice st none none customerId form now)

/-- `deleteInvoice(invoiceId)`: after confirmation, deletes the first credit
entry linked to the invoice (if any) and then the invoice. -/
def deleteInvoice (st : Store) (invoiceId : Nat) (confirmed : Bool) : Outcome × Store :=
  if confirmed then
    let credits1 :=
      match st.credits.find? (fun c => c.val.invoiceId == some invoiceId) with
      | some credit => delete st.credits credit.id
      | none => st.credits
    (.ok, { st with credits := credits1, invoices := delete st.invoices (some invoiceId) })
  else (.cancelled, st)

/-- The quotation form together with the item editor rows. -/
structure QuotationForm where
  customerId : Option Nat
  validUntil : Option Nat
  notes : String
  rows : List ItemRow
deriving DecidableEq, Repr

/-- The part of `saveQuotation` after the validation returns. -/
def writeQuotation (st : Store) (quotationId : Option Nat)
    (existingQuotation : Option (Rec QuotationData)) (customerId : Nat) (form : QuotationForm)
    (now : Nat) : Store :=
  let items := (calculateInvoiceTotal form.rows).1
  let total := (calculateInvoiceTotal form.rows).2
  let quotationNumber : DocNumber :=
    match existingQuotation with
    | some ex => ex.val.quotationNumber
    | none => { pfx := st.settings.quotationPrefix, number := st.counters.quotation }
  let counters1 : Counters :=
    match existingQuotation with
    | some _ => st.counters
    | none => { st.counters with quotation := st.counters.quotation + 1 }
  let quotation : Rec QuotationData :=
    { id := quotationId, createdAt := none, updatedAt := none
      val :=
        { quotationNumber := quotationNumber
          customerId := customerId
          validUntil := form.validUntil
          items := items
          total := total
          status := .pending
          notes := form.notes } }
  let r := save st.quotations quotation now st.nextId
  { st with quotations := r.1, counters := counters1, nextId := r.2.2 }

/-- `saveQuotation(quotationId)`; `calculateQuotationTotal` computes what
`calculateInvoiceTotal` computes, on the quotation editor rows. -/
def saveQuotation (st : Store) (quotationId : Option Nat) (form : QuotationForm) (now : Nat) :
    Outcome × Store :=
  match form.customerId with
  | none => (.rejected "Please select a customer!", st)
  | some customerId =>
    if form.rows.length = 0 ∨ ¬ (form.rows.any (fun item => item.productId.isSome)) = true then
      (.rejected "Please add at least one item!", st)
    else
      match quotationId with
      | some i =>
        match getById st.quotations i with
        | none => (.threw, st)
        | some existingQuotation =>
          (.ok, writeQuotation st (some i) (some existingQuotation) customerId form now)
      | none => (.ok, writeQuotation st none none customerId form now)

/-- `convertToInvoice(quotationId)`. -/
def convertToInvoice (st : Store) (quotationId : Nat) (confirmed : Bool) (now : Nat) :
    Outcome × Store :=
  match getById st.quotations quotationId with
  | none => (.notFound, st)
  | some quotation =>
    if confirmed then
      let invoice : Rec InvoiceData :=
        { id := none, createdAt := none, updatedAt := none
          val :=
            { invoiceNumber :=
                { pfx := st.settings.invoicePrefix, number := st.counters.invoice }
              customerId := quotation.val.customerId
              invoiceDate := none
              dueDate := none
              paymentDate := none
              paymentMethod := none
              items := quotation.val.items
              subtotal := none
              tax := none
              total := quotation.val.total
              status := .pending
              notes := "Converted from Quotation #" ++ quotation.val.quotationNumber.render
                ++ "\n" ++ quotation.val.notes
              remainingAmount := none
              convertedFrom := some quotationId } }
      let r := save st.invoices invoice now st.nextId
      let q := save st.quotations
        { quotation with val := { quotation.val with status := .converted } } now r.2.2
      (.ok, { st with
        invoices := r.1, quotations := q.1,
        counters := { st.counters with invoice := st.counters.invoice + 1 },
        nextId := q.2.2 })
    else (.cancelled, st)

/-- The payment form. `amount` is `none` when the field does not parse. -/
structure PaymentForm where
  amount : Option Int
  date : Option Nat
  method : String
deriving DecidableEq, Repr

/-- Comparator of the sort in `savePayment`: `a` goes after `b` when the
difference of the creation times is positive (an absent time gives `NaN`,
which is not positive). -/
def createdAfter (a b : Rec CreditData) : Bool :=
  match a.createdAt, b.createdAt with
  | some x, some y => decide (y < x)
  | _, _ => false

/-- Insertion of a record behind the records it does not have to precede. -/
def insertByCreatedAt (a : Rec CreditData) : List (Rec CreditData) → List (Rec CreditData)
  | [] => [a]
  | b :: l => if createdAfter a b then b :: insertByCreatedAt a l else a :: b :: l

/-- The stable ascending sort by `createdAt` of `Array.prototype.sort`. -/
def sortByCreatedAt (l : List (Rec CreditData)) : List (Rec CreditData) :=
  l.foldr insertByCreatedAt []

/-- The block of `savePayment` run for a settled credit entry: when the entry
has an invoice id, the invoice exists and is pending, the invoice is saved
with status paid and the payment's date and method. -/
def markLinkedInvoicePaid (invoices : List (Rec InvoiceData)) (invoiceId : Option Nat)
    (date : Option Nat) (method : String) (now nextId : Nat) : List (Rec InvoiceData) :=
  match invoiceId with
  | some invId =>
    match getById invoices invId with
    | some linkedInvoice =>
      if linkedInvoice.val.status = .pending then
        (save invoices
          { linkedInvoice with val := { linkedInvoice.val with
              status := .paid, paymentDate := date, paymentMethod := some method } }
          now nextId).1
      else invoices
    | none => invoices
  | none => invoices

/-- Body of the `for` loop of `savePayment` for one pending credit entry; the
`break` is the first branch, which every later entry takes as well.  Amounts
are whole numbers here; `settleCreditWith` is the same body on doubles. -/
def settleCredit (date : Option Nat) (method : String) (now : Nat)
    (acc : Store × Int) (credit : Rec CreditData) : Store × Int :=
  let st := acc.1
  let amountToSettle := acc.2
  if amountToSettle ≤ 0 then acc
  else
    let paymentForThisCredit := min amountToSettle credit.val.remainingAmount
    let remaining := credit.val.remainingAmount - paymentForThisCredit
    let payments1 := credit.val.payments ++
      [{ amount := paymentForThisCredit, date := date, method := method }]
    let invoices1 :=
      if remaining ≤ 0 then
        markLinkedInvoicePaid st.invoices credit.val.invoiceId date method now st.nextId
      else st.invoices
    let credit1 : Rec CreditData :=
      { credit with val := { credit.val with
          remainingAmount := remaining
          payments := payments1
          status := if remaining ≤ 0 then .paid else credit.val.status } }
    let r := save st.credits credit1 now st.nextId
    ({ st with invoices := invoices1, credits := r.1, nextId := r.2.2 },
      amountToSettle - paymentForThisCredit)

/-- `savePayment(customerId)`, on whole numbers; `savePaymentWith` is the same
method on doubles. -/
def savePayment (st : Store) (customerId : Nat) (form : PaymentForm) (now : Nat) :
    Outcome × Store :=
  match form.amount with
  | none => (.rejected "Please enter a valid amount.", st)
  | some amountReceived =>
    if amountReceived ≤ 0 then (.rejected "Please enter a valid amount.", st)
    else
      let pendingCredits := sortByCreatedAt
        (st.credits.filter (fun c => c.val.customerId == customerId && c.val.status == .pending))
      (.ok, (pendingCredits.foldl (settleCredit form.date form.method now)
        (st, amountReceived)).1)

/-- The value `showInvoiceModal(invoiceId)` writes into the read-only form
field `partialPayment`: the sum of the payments of the first credit entry
linked to the invoice, `0` when there is none. -/
def amountReceived (st : Store) (invoiceId : Option Nat) : Int :=
  match st.credits.find? (fun c => c.val.invoiceId == invoiceId) with
  | some creditEntry => creditEntry.val.payments.foldl (fun sum p => sum + p.amount) 0
  | none => 0

end InvoiceApp

/-! ## Reachable stores and the properties stated about them -/

open InvoiceDB InvoiceApp

/-- Stores reached from the initial one by any calls of the five mutating
operations, whatever their arguments and outcome. -/
inductive Reachable : Store → Prop where
  | init : Reachable InvoiceDB.init
  | saveInvoice {st : Store} (invoiceId : Option Nat) (form : InvoiceForm) (now : Nat) :
      Reachable st → Reachable (saveInvoice st invoiceId form now).2
  | savePayment {st : Store} (customerId : Nat) (form : PaymentForm) (now : Nat) :
      Reachable st → Reachable (savePayment st customerId form now).2
  | deleteInvoice {st : Store} (invoiceId : Nat) (confirmed : Bool) :
      Reachable st → Reachable (deleteInvoice st invoiceId confirmed).2
  | convertToInvoice {st : Store} (quotationId : Nat) (confirmed : Bool) (now : Nat) :
      Reachable st → Reachable (convertToInvoice st quotationId confirmed now).2
  | saveQuotation {st : Store} (quotationId : Option Nat) (form : QuotationForm) (now : Nat) :
      Reachable st → Reachable (saveQuotation st quotationId form now).2

/-- Stores reached from the initial one by accepted `saveInvoice` calls whose
`partialPayment` is what the form shows (the payments already recorded on
the linked credit entry, `0` for a new invoice), accepted `savePayment`
calls, `deleteInvoice` and `convertToInvoice` calls. -/
inductive FormReachable : Store → Prop where
  | init : FormReachable InvoiceDB.init
  | saveInvoice {st : Store} (invoiceId : Option Nat) (form : InvoiceForm) (now : Nat) :
      FormReachable st →
      form.partialPayment = amountReceived st invoiceId →
      (saveInvoice st invoiceId form now).1 = .ok →
      FormReachable (saveInvoice st invoiceId form now).2
  | savePayment {st : Store} (customerId : Nat) (form : PaymentForm) (now : Nat) :
      FormReachable st →
      (savePayment st customerId form now).1 = .ok →
      FormReachable (savePayment st customerId form now).2
  | deleteInvoice {st : Store} (invoiceId : Nat) (confirmed : Bool) :
      FormReachable st → FormReachable (deleteInvoice st invoiceId confirmed).2
  | convertToInvoice {st : Store} (quotationId : Nat) (confirmed : Bool) (now : Nat) :
      FormReachable st → FormReachable (convertToInvoice st quotationId confirmed now).2

/-- Sum of the amounts of a payment history. -/
def paymentsTotal (payments : List Payment) : Int :=
  (payments.map (fun p => p.amount)).sum

/-- Sum of the payments on the credit entries linked to an invoice id. -/
def linkedPaymentsTotal (st : Store) (invoiceId : Option Nat) : Int :=
  ((st.credits.filter (fun c => c.val.invoiceId == invoiceId)).map
    (fun c => paymentsTotal c.val.payments)).sum

/-- Every pending invoice has `remainingAmount = total - payments on its
credit entry`. -/
def PendingInvoicesBalanced (st : Store) : Prop :=
  ∀ inv ∈ st.invoices, inv.val.status = .pending →
    inv.val.remainingAmount = some (inv.val.total - linkedPaymentsTotal st inv.id)

/-- Every paid invoice has `remainingAmount = 0`. -/
def PaidInvoicesCleared (st : Store) : Prop :=
  ∀ inv ∈ st.invoices, inv.val.status = .paid → inv.val.remainingAmount = some 0

/-- Every credit entry has `remainingAmount = amount - sum of its payments`. -/
def CreditsBalanced (st : Store) : Prop :=
  ∀ c ∈ st.credits, c.val.remainingAmount = c.val.amount - paymentsTotal c.val.payments

/-- A credit entry is paid exactly when nothing remains on it. -/
def CreditStatusMatches (st : Store) : Prop :=
  ∀ c ∈ st.credits, (c.val.status = .paid ↔ c.val.remainingAmount ≤ 0)

/-- For every invoice id at most one credit entry is linked to it. -/
def OneCreditPerInvoice (st : Store) : Prop :=
  ∀ invoiceId : Nat,
    (st.credits.filter (fun c => c.val.invoiceId == some invoiceId)).length ≤ 1

/-! ## Auxiliary notions used by the theorems -/

/-- Every record has an id, and the id lies below the id supply. -/
def IdsBelow {α : Type} (l : List (Rec α)) (n : Nat) : Prop :=
  ∀ r ∈ l, ∃ i, r.id = some i ∧ i < n

/-- The id of a credit entry and the invoice id it is linked to. -/
def creditKey (c : Rec CreditData) : Option Nat × Option Nat :=
  (c.id, c.val.invoiceId)

/-- The credits collection is well formed with respect to the id supply:
ids exist, are below the supply and pairwise distinct, and the linked invoice
ids exist, are below the supply and pairwise distinct. -/
structure CreditsWF (l : List (Rec CreditData)) (n : Nat) : Prop where
  ids : IdsBelow l n
  ids_nodup : (l.map (fun c => c.id)).Nodup
  links : ∀ c ∈ l, ∃ i, c.val.invoiceId = some i ∧ i < n
  links_nodup : (l.map (fun c => c.val.invoiceId)).Nodup

/-- The invariant of the reachable stores. -/
structure StoreWF (st : Store) : Prop where
  credits : CreditsWF st.credits st.nextId
  invoices : IdsBelow st.invoices st.nextId

/-- The item built from one editor row. -/
def rowItem (row : ItemRow) : Item :=
  { productId := row.productId, quantity := row.quantity, rate := row.rate,
    amount := row.quantity * row.rate }

/-- The conditions under which `saveInvoice` shows a validation message. -/
def RejectCondition (form : InvoiceForm) : Prop :=
  form.customerId = none ∨
  form.rows = [] ∨
  (∀ row ∈ form.rows, row.productId = none) ∨
  (form.status = .pending ∧
    form.partialPayment + form.newPayment ≥ (form.rows.map (fun r => r.quantity * r.rate)).sum)

/-- Stock of the product stored under an id. -/
def stockOf (products : List (Rec ProductData)) (pid : Nat) : Option Int :=
  (getById products pid).map (fun p => p.val.currentStock)

/-- Sum of the quantities of the items that reference a product id. -/
def quantityOf (pid : Nat) (items : List Item) : Int :=
  ((items.filter (fun item => item.productId == some pid)).map (fun item => item.quantity)).sum

/-! ## Scenarios -/

/-- An invoice form with one item of quantity 1 for product 5, customer 7. -/
def sampleForm (rate partialPayment newPayment : Int) (status : Status) : InvoiceForm :=
  { customerId := some 7, status := status
    partialPayment := partialPayment, newPayment := newPayment
    invoiceDate := some 10, dueDate := none
    paymentDate := some 20, paymentMethod := some "cash"
    notes := "", rows := [{ productId := some 5, quantity := 1, rate := rate }] }

/-- The initial store after a pending invoice of total 1000 with nothing
received has been created. -/
def pendingInvoiceStore : Store :=
  (saveInvoice InvoiceDB.init none (sampleForm 1000 0 0 .pending) 100).2

/-- Then a payment of 400 by customer 7. -/
def partlyPaidStore : Store :=
  (savePayment pendingInvoiceStore 7 { amount := some 400, date := some 200, method := "cash" }
    300).2

/-- Or a payment of 1000 by customer 7. -/
def fullyPaidStore : Store :=
  (savePayment pendingInvoiceStore 7 { amount := some 1000, date := some 200, method := "cash" }
    300).2

/-- Or an edit of the invoice that raises its single rate to 2000. -/
def repricedStore : Store :=
  (saveInvoice pendingInvoiceStore (some 1) (sampleForm 2000 0 0 .pending) 400).2

/-- An invoice of total 100 created as paid, then edited to total 200 and
status pending, the form showing the 100 already received. -/
def reopenedStore : Store :=
  (saveInvoice (saveInvoice InvoiceDB.init none (sampleForm 100 0 0 .paid) 100).2 (some 1)
    (sampleForm 200 100 0 .pending) 400).2

/-- A store with two pending invoices of customer 7, the first one partly
paid. -/
def twoInvoiceStore : Store :=
  (saveInvoice partlyPaidStore none (sampleForm 250 0 0 .pending) 500).2

/-- A store with one product (id 1, stock 10) and an invoice (id 2) of
customer 7 for 3 units of it. -/
def stockedStore : Store :=
  (saveInvoice
    { InvoiceDB.init with
      products := [{ id := some 1, createdAt := some 0, updatedAt := none
                     val := { name := "ring", currentStock := 10, minStock := 1
                              purchasePrice := 80, sellingPrice := 100 } }]
      nextId := 2 }
    none
    { customerId := some 7, status := .pending, partialPayment := 0, newPayment := 0
      invoiceDate := some 10, dueDate := none, paymentDate := none, paymentMethod := none
      notes := "", rows := [{ productId := some 1, quantity := 3, rate := 100 }] }
    100).2

/-- The edit of invoice 2 to 5 units. -/
def stockedEdit : InvoiceForm :=
  { customerId := some 7, status := .pending, partialPayment := 0, newPayment := 0
    invoiceDate := some 10, dueDate := none, paymentDate := none, paymentMethod := none
    notes := "", rows := [{ productId := some 1, quantity := 5, rate := 100 }] }

/-- The item list stored on invoice 2 of `stockedStore`. -/
def stockedItems : List Item :=
  [{ productId := some 1, quantity := 3, rate := 100, amount := 300 }]

/-! ## Notions and scenarios for payments, deletion and quotations -/

/-- The pending credit entries of a customer in the order in which
`savePayment` goes over them. -/
def pendingCredits (st : Store) (customerId : Nat) : List (Rec CreditData) :=
  sortByCreatedAt
    (st.credits.filter (fun c => c.val.customerId == customerId && c.val.status == .pending))

/-- The record the loop body of `savePayment` saves for a credit entry it
processes while `amountToSettle` is `amount`. -/
def settledCredit (date : Option Nat) (method : String) (now : Nat) (amount : Int)
    (credit : Rec CreditData) : Rec CreditData :=
  { credit with
    updatedAt := some now
    val := { credit.val with
      remainingAmount := credit.val.remainingAmount - min amount credit.val.remainingAmount
      payments := credit.val.payments ++
        [{ amount := min amount credit.val.remainingAmount, date := date, method := method }]
      status :=
        if credit.val.remainingAmount - min amount credit.val.remainingAmount ≤ 0 then .paid
        else credit.val.status } }

/-- The value of `amountToSettle` after the loop of `savePayment` has gone
over credit entries with the given remaining amounts. -/
def amountLeft : Int → List Int → Int
  | amount, [] => amount
  | amount, r :: rs => if amount ≤ 0 then amount else amountLeft (amount - min amount r) rs

/-- What the loop of `savePayment` leaves of a credit entry it reaches with
`amountToSettle = amount`: nothing changes once the amount is used up. -/
def creditAfterLoop (date : Option Nat) (method : String) (now : Nat) (amount : Int)
    (credit : Rec CreditData) : Rec CreditData :=
  if amount ≤ 0 then credit else settledCredit date method now amount credit

/-- The invoice record `savePayment` saves for the invoice of a settled credit
entry. -/
def paidInvoice (date : Option Nat) (method : String) (now : Nat) (inv : Rec InvoiceData) :
    Rec InvoiceData :=
  { inv with
    updatedAt := some now
    val := { inv.val with status := .paid, paymentDate := date, paymentMethod := some method } }

/-- Remaining amounts of a list of credit entries. -/
def remainingAmounts (l : List (Rec CreditData)) : List Int :=
  l.map (fun c => c.val.remainingAmount)

/-- What `savePayment` makes of the invoice of a settled credit entry: only a
pending invoice is saved as paid. -/
def invoiceAfterSettle (date : Option Nat) (method : String) (now : Nat)
    (inv : Rec InvoiceData) : Rec InvoiceData :=
  if inv.val.status = .pending then paidInvoice date method now inv else inv

/-- The loop body of `savePayment`, reaching a credit entry with
`amountToSettle = amount`, settles it: money is left and nothing remains on
the entry afterwards. -/
def Settles (amount : Int) (credit : Rec CreditData) : Prop :=
  0 < amount ∧ credit.val.remainingAmount - min amount credit.val.remainingAmount ≤ 0

instance (amount : Int) (credit : Rec CreditData) : Decidable (Settles amount credit) := by
  unfold Settles
  exact inferInstance

/-- Both records carry a creation time and the first one's is not the later
one. -/
def EarlierOrSame (x y : Rec CreditData) : Prop :=
  ∃ s t, x.createdAt = some s ∧ y.createdAt = some t ∧ s ≤ t

/-- Customer 7 owes 100 on an invoice created at time 100 and 50 on an invoice
created at time 200. -/
def twoDebtsStore : Store :=
  (saveInvoice (saveInvoice InvoiceDB.init none (sampleForm 100 0 0 .pending) 100).2 none
    (sampleForm 50 0 0 .pending) 200).2

/-- A payment of 120 by cash, dated 300. -/
def payment120 : PaymentForm :=
  { amount := some 120, date := some 300, method := "cash" }

/-- Customer 8 has a pending credit entry with remaining amount -5: an invoice
of one item at rate -5, saved as pending with a new payment of -10. -/
def negativeDebtStore : Store :=
  (saveInvoice InvoiceDB.init none
    { customerId := some 8, status := .pending, partialPayment := 0, newPayment := -10
      invoiceDate := some 10, dueDate := none, paymentDate := none, paymentMethod := none
      notes := "", rows := [{ productId := some 5, quantity := 1, rate := -5 }] }
    100).2

/-- A payment of 10 by cash, dated 300. -/
def payment10 : PaymentForm :=
  { amount := some 10, date := some 300, method := "cash" }

/-- A payment of 1000 by cash, dated 200. -/
def payment1000 : PaymentForm :=
  { amount := some 1000, date := some 200, method := "cash" }

/-- The record stored in `st1` under the id of a credit entry (the entry
itself when there is none). -/
def creditAfter (st1 : Store) (c : Rec CreditData) : Rec CreditData :=
  match c.id with
  | some i => (getById st1.credits i).getD c
  | none => c

/-- Sum of the amounts of the payment entries that the pending credit entries
of the customer in `st` have gained in `st1`. -/
def appendedTotal (st st1 : Store) (customerId : Nat) : Int :=
  ((pendingCredits st customerId).map
    (fun c => paymentsTotal (creditAfter st1 c).val.payments
      - paymentsTotal c.val.payments)).sum

/-- Total decrease of `remainingAmount` from `st` to `st1` over the credit
entries of the customer. -/
def remainingDecrease (st st1 : Store) (customerId : Nat) : Int :=
  ((st.credits.filter (fun c => c.val.customerId == customerId)).map
    (fun c => c.val.remainingAmount - (creditAfter st1 c).val.remainingAmount)).sum

/-- Total remaining amount of the pending credit entries of the customer. -/
def outstandingTotal (st : Store) (customerId : Nat) : Int :=
  (remainingAmounts (pendingCredits st customerId)).sum

/-- Customer 7 owes 20 on an invoice created at time 100 and has a second
pending credit entry with remaining amount -5, created at time 200 (an
invoice of one item at rate -5 saved with a new payment of -10). -/
def mixedDebtStore : Store :=
  (saveInvoice (saveInvoice InvoiceDB.init none (sampleForm 20 0 0 .pending) 100).2 none
    (sampleForm (-5) 0 (-10) .pending) 200).2

/-- A payment of 20 by cash, dated 300. -/
def payment20 : PaymentForm :=
  { amount := some 20, date := some 300, method := "cash" }

/-- The pending invoice of total 1000 edited to total 2000 and saved as paid
(payment date 20, by cash). -/
def repricedPaidStore : Store :=
  (saveInvoice pendingInvoiceStore (some 1) (sampleForm 2000 0 0 .paid) 400).2

/-- A quotation form for customer 7 with one item of quantity 2 at rate 300
for product 5. -/
def sampleQuotation : QuotationForm :=
  { customerId := some 7, validUntil := none, notes := ""
    rows := [{ productId := some 5, quantity := 2, rate := 300 }] }

/-- The initial store after a quotation has been created. -/
def quotedStore : Store :=
  (saveQuotation InvoiceDB.init none sampleQuotation 100).2

/-- Then the quotation (id 1) is converted to an invoice (id 2). -/
def convertedStore : Store :=
  (convertToInvoice quotedStore 1 true 200).2

/-- Every invoice that does not carry the mark of `convertToInvoice` (so every
invoice written by `saveInvoice`) has a credit entry linked to its id. -/
def SavedInvoicesLinked (st : Store) : Prop :=
  ∀ inv ∈ st.invoices, inv.val.convertedFrom = none →
    inv.id ∈ st.credits.map (fun c => c.val.invoiceId)

/-- The id of an invoice and its `convertedFrom` mark. -/
def invoiceKey (r : Rec InvoiceData) : Option Nat × Option Nat :=
  (r.id, r.val.convertedFrom)

/-! ## Notions and scenarios for the record store, the numbering and the statement -/

/-- A customers collection with one record, of id 1. -/
def sampleCustomers : List (Rec CustomerData) :=
  [{ id := some 1, createdAt := some 10, updatedAt := none
     val := { name := "A", phone := "1" } }]

/-- The record of id 1 with another name and phone number. -/
def renamedCustomer : Rec CustomerData :=
  { id := some 1, createdAt := some 10, updatedAt := none
    val := { name := "B", phone := "2" } }

/-- A record with an id that no record of `sampleCustomers` has. -/
def strayCustomer : Rec CustomerData :=
  { id := some 5, createdAt := none, updatedAt := none
    val := { name := "C", phone := "3" } }

/-- The id of an invoice and the counter value in its number. -/
def invoiceIdentity (r : Rec InvoiceData) : Option Nat × Nat :=
  (r.id, r.val.invoiceNumber.number)

/-- Invoice ids are pairwise distinct, the counter values in the invoice
numbers are pairwise distinct, and each lies below the invoice counter. -/
structure InvoicesDistinct (st : Store) : Prop where
  ids_nodup : (st.invoices.map (fun r => r.id)).Nodup
  numbers_nodup : (st.invoices.map (fun r => r.val.invoiceNumber.number)).Nodup
  numbers_below : ∀ inv ∈ st.invoices, inv.val.invoiceNumber.number < st.counters.invoice
  pfx_fixed : ∀ inv ∈ st.invoices, inv.val.invoiceNumber.pfx = st.settings.invoicePrefix

/-! ## JavaScript numbers

The operations below are also given with the arithmetic as an argument:
`Arith.exact` adds and subtracts exactly, `Arith.doubles` rounds every sum and
difference to the nearest IEEE 754 double.  In the latter a number `x` is
kept as the integer `x * 2 ^ 100`, which is exact for every double that is
zero or at least `2 ^ (-47)` in size; overflow is not modelled. -/

/-- Number of binary digits of `n`, with a recursion bound. -/
def bitLengthAux : Nat → Nat → Nat
  | 0, _ => 0
  | fuel + 1, n => if n = 0 then 0 else bitLengthAux fuel (n / 2) + 1

/-- Number of binary digits of `n` (`0` for `0`). -/
def bitLength (n : Nat) : Nat :=
  bitLengthAux n n

/-- Rounding of a natural number to 53 significant binary digits, ties to the
even neighbour. -/
def roundNat (n : Nat) : Nat :=
  let e := bitLength n - 53
  let q := n / 2 ^ e
  let r := n % 2 ^ e
  if 2 * r > 2 ^ e ∨ (2 * r = 2 ^ e ∧ q % 2 = 1) then (q + 1) * 2 ^ e else q * 2 ^ e

/-- Rounding to the nearest double of a number kept as a multiple of
`2 ^ (-100)`. -/
def fround (n : Int) : Int :=
  if n < 0 then -((roundNat n.natAbs : Nat) : Int) else ((roundNat n.natAbs : Nat) : Int)

/-- The double that `parseFloat` returns for the decimal text of `num / den`
(`decimal 1 10` for `"0.1"`), as a multiple of `2 ^ (-100)`. -/
def decimal (num den : Nat) : Int :=
  let n := num * 2 ^ 100
  let e := bitLength (n / den) - 53
  let d := den * 2 ^ e
  let q := n / d
  let r := n % d
  if 2 * r > d ∨ (2 * r = d ∧ q % 2 = 1) then (((q + 1) * 2 ^ e : Nat) : Int)
  else ((q * 2 ^ e : Nat) : Int)

/-- A whole number as a multiple of `2 ^ (-100)`. -/
def whole (a : Int) : Int :=
  a * 2 ^ 100

/-- The sum and the difference of two numbers, as the code computes them. -/
structure Arith where
  add : Int → Int → Int
  sub : Int → Int → Int

/-- Exact sums and differences: the arithmetic of whole numbers. -/
def Arith.exact : Arith :=
  { add := fun a b => a + b, sub := fun a b => a - b }

/-- The sums and differences of doubles: the exact result rounded to the
nearest double. -/
def Arith.doubles : Arith :=
  { add := fun a b => fround (a + b), sub := fun a b => fround (a - b) }

/-- The number kept as `x` is a whole number. -/
def IsWhole (x : Int) : Prop :=
  x % 2 ^ 100 = 0

instance (x : Int) : Decidable (IsWhole x) := by
  unfold IsWhole
  exact inferInstance

/-- The size `2 ^ 53`, as a multiple of `2 ^ (-100)`: every whole number
below it in size is a double. -/
def safeSize : Nat :=
  2 ^ 153

namespace InvoiceApp


/-- The stock loops of `saveInvoice` (`adjustStock`) with the arithmetic as an
argument; `currentStock -= quantity` is the sum with the negated quantity,
which is the same double. -/
def adjustStockWith (ar : Arith) (sign : Int) (now : Nat) (products : List (Rec ProductData))
    (items : List Item) : List (Rec ProductData) :=
  items.foldl
    (fun ps item =>
      match item.productId with
      | none => ps
      | some pid =>
        match getById ps pid with
        | none => ps
        | some product =>
          (save ps { product with
              val := { product.val with
                currentStock := ar.add product.val.currentStock (sign * item.quantity) } }
            now 0).1)
    products

/-- The loop body of `savePayment` (`settleCredit`) with the arithmetic as an
argument: the two subtractions are the code's `-=`; `Math.min` and the
comparisons with `0` are exact on doubles. -/
def settleCreditWith (ar : Arith) (date : Option Nat) (method : String) (now : Nat)
    (acc : Store × Int) (credit : Rec CreditData) : Store × Int :=
  let st := acc.1
  let amountToSettle := acc.2
  if amountToSettle ≤ 0 then acc
  else
    let paymentForThisCredit := min amountToSettle credit.val.remainingAmount
    let remaining := ar.sub credit.val.remainingAmount paymentForThisCredit
    let payments1 := credit.val.payments ++
      [{ amount := paymentForThisCredit, date := date, method := method }]
    let invoices1 :=
      if remaining ≤ 0 then
        markLinkedInvoicePaid st.invoices credit.val.invoiceId date method now st.nextId
      else st.invoices
    let credit1 : Rec CreditData :=
      { credit with val := { credit.val with
          remainingAmount := remaining
          payments := payments1
          status := if remaining ≤ 0 then .paid else credit.val.status } }
    let r := save st.credits credit1 now st.nextId
    ({ st with invoices := invoices1, credits := r.1, nextId := r.2.2 },
      ar.sub amountToSettle paymentForThisCredit)

/-- `savePayment(customerId)` with the arithmetic as an argument. -/
def savePaymentWith (ar : Arith) (st : Store) (customerId : Nat) (form : PaymentForm)
    (now : Nat) : Outcome × Store :=
  match form.amount with
  | none => (.rejected "Please enter a valid amount.", st)
  | some amountReceived =>
    if amountReceived ≤ 0 then (.rejected "Please enter a valid amount.", st)
    else
      let pendingCredits := sortByCreatedAt
        (st.credits.filter (fun c => c.val.customerId == customerId && c.val.status == .pending))
      (.ok, (pendingCredits.foldl (settleCreditWith ar form.date form.method now)
        (st, amountReceived)).1)

end InvoiceApp

/-- The `type` of a statement transaction. -/
inductive TransactionType where
  | invoice
  | payment
deriving DecidableEq, Repr

/-- One entry of `allTransactions` in `generateImprovedStatement`.  The date
is `none` for an `Invalid Date`. -/
structure Transaction where
  date : Option Nat
  type : TransactionType
  id : Option Nat
  particulars : String
  debit : Int
  credit : Int
deriving DecidableEq, Repr

/-- The `summary` object of a statement. -/
structure StatementSummary where
  openingBalance : Int
  totalDebits : Int
  totalCredits : Int
  closingBalance : Int
deriving DecidableEq, Repr

/-- The object `generateImprovedStatement` returns. -/
structure Statement where
  summary : StatementSummary
  transactions : List Transaction
deriving DecidableEq, Repr

/-- Milliseconds of a day. -/
def msPerDay : Int := 86400000

/-- The instant `setHours(0, 0, 0, 0)` moves the instant `t` to: the start of
the local day that holds `t`.  Local time is the time of the clock plus
`offset` milliseconds (`19800000` in India, `0` in Greenwich); a change of the
offset between the dates at hand (daylight saving) is not modelled. -/
def startOfDay (offset : Int) (t : Nat) : Int :=
  ((t : Int) + offset) / msPerDay * msPerDay - offset

/-- The instant `setHours(23, 59, 59, 999)` moves the instant `t` to: the last
millisecond of the local day that holds `t`. -/
def endOfDay (offset : Int) (t : Nat) : Int :=
  ((t : Int) + offset) / msPerDay * msPerDay + (msPerDay - 1) - offset

/-- The comparison `tx.date < startPeriod`, false for an invalid date. -/
def dateBefore (d : Option Nat) (t : Int) : Bool :=
  match d with
  | some x => decide ((x : Int) < t)
  | none => false

/-- The comparison `tx.date >= startPeriod && tx.date <= endPeriod`, false for
an invalid date. -/
def dateWithin (d : Option Nat) (s e : Int) : Bool :=
  match d with
  | some x => decide (s ≤ (x : Int)) && decide ((x : Int) ≤ e)
  | none => false

namespace InvoiceApp

/-- The date `new Date(inv.invoiceDate || inv.createdAt)` of an invoice. -/
def invoiceDateOf (inv : Rec InvoiceData) : Option Nat :=
  match inv.val.invoiceDate with
  | some d => some d
  | none => inv.createdAt

/-- The transaction pushed for an invoice. -/
def invoiceTransaction (inv : Rec InvoiceData) : Transaction :=
  { date := invoiceDateOf inv
    type := .invoice
    id := inv.id
    particulars := "Invoice #" ++ inv.val.invoiceNumber.render
    debit := inv.val.total
    credit := 0 }

/-- The transaction pushed for a payment of a credit entry. -/
def paymentTransaction (cred : Rec CreditData) (p : Payment) : Transaction :=
  { date := p.date
    type := .payment
    id := cred.id
    particulars := "Payment Received (" ++ p.method ++ ")"
    debit := 0
    credit := p.amount }

/-- The invoices of a customer, `getAll('invoices')` filtered. -/
def customerInvoices (st : Store) (customerId : Nat) : List (Rec InvoiceData) :=
  st.invoices.filter (fun inv => inv.val.customerId == customerId)

/-- The credit entries of a customer, `getAll('credits')` filtered. -/
def customerCredits (st : Store) (customerId : Nat) : List (Rec CreditData) :=
  st.credits.filter (fun c => c.val.customerId == customerId)

/-- The list `allTransactions` before it is sorted: the customer's invoices in
store order, then the payments of the customer's credit entries, entry by
entry. -/
def allTransactions (st : Store) (customerId : Nat) : List Transaction :=
  (customerInvoices st customerId).map invoiceTransaction
    ++ ((customerCredits st customerId).map
        (fun cred => cred.val.payments.map (paymentTransaction cred))).flatten

/-- Comparator `(a, b) => a.date - b.date` of the sort of `allTransactions`:
`a` goes after `b` when the difference is positive; with an invalid date the
difference is `NaN`, which is not positive. -/
def datedAfter (a b : Transaction) : Bool :=
  match a.date, b.date with
  | some x, some y => decide (y < x)
  | _, _ => false

/-- Insertion of a transaction behind the transactions it has to follow. -/
def insertByDate (a : Transaction) : List Transaction → List Transaction
  | [] => [a]
  | b :: l => if datedAfter a b then b :: insertByDate a l else a :: b :: l

/-- The stable ascending sort by date of `Array.prototype.sort`.  When every
date is valid this is the order the language prescribes.  With an invalid date
the comparator is not consistent and the order is left to the engine; the
model then leaves neighbours in place whose comparison is not positive. -/
def sortByDate (l : List Transaction) : List Transaction :=
  l.foldr insertByDate []

/-- Body of the `forEach` over the sorted transactions: a transaction before
the period adds `debit - credit` to the opening balance, one inside the period
is pushed, any other is dropped. -/
def classify (ar : Arith) (startPeriod endPeriod : Int) (acc : Int × List Transaction)
    (tx : Transaction) : Int × List Transaction :=
  if dateBefore tx.date startPeriod then
    (ar.add acc.1 (ar.sub tx.debit tx.credit), acc.2)
  else if dateWithin tx.date startPeriod endPeriod then (acc.1, acc.2 ++ [tx])
  else acc

/-- `generateImprovedStatement(customerId, startDate, endDate)`; the two dates
are the instants `new Date(startDate)` and `new Date(endDate)`.  The
arithmetic of the sums and the offset of local time are arguments. -/
def generateImprovedStatement (ar : Arith) (offset : Int) (st : Store) (customerId : Nat)
    (startDate endDate : Nat) : Statement :=
  let startPeriod := startOfDay offset startDate
  let endPeriod := endOfDay offset endDate
  let sorted := sortByDate (allTransactions st customerId)
  let r := sorted.foldl (classify ar startPeriod endPeriod) (0, [])
  let openingBalance := r.1
  let transactionsInPeriod := r.2
  let totalDebits := transactionsInPeriod.foldl (fun sum tx => ar.add sum tx.debit) 0
  let totalCredits := transactionsInPeriod.foldl (fun sum tx => ar.add sum tx.credit) 0
  let closingBalance := ar.sub (ar.add openingBalance totalDebits) totalCredits
  { summary :=
      { openingBalance := openingBalance, totalDebits := totalDebits
        totalCredits := totalCredits, closingBalance := closingBalance }
    transactions := transactionsInPeriod }

end InvoiceApp

/-- Both transactions have a valid date and the first one's is not the later
one. -/
def InDateOrder (a b : Transaction) : Prop :=
  ∃ x y, a.date = some x ∧ b.date = some y ∧ x ≤ y

/-- A pending invoice of customer 7 dated 500 (total 1000), then a payment of
100 saved with the date field of the payment form left empty, then a payment
of 100 dated 300. -/
def undatedPaymentStore : Store :=
  (savePayment
    (savePayment
      (saveInvoice InvoiceDB.init none
        { customerId := some 7, status := .pending, partialPayment := 0, newPayment := 0
          invoiceDate := some 500, dueDate := none, paymentDate := none, paymentMethod := none
          notes := "", rows := [{ productId := some 5, quantity := 1, rate := 1000 }] }
        100).2
      7 { amount := some 100, date := none, method := "cash" } 600).2
    7 { amount := some 100, date := some 300, method := "cash" } 700).2

/-- The pending invoice of `pendingInvoiceStore` (total 1000, customer 7)
edited so that its customer is customer 8, nothing else changed. -/
def movedInvoiceStore : Store :=
  (saveInvoice pendingInvoiceStore (some 1)
    { customerId := some 8, status := .pending, partialPayment := 0, newPayment := 0
      invoiceDate := some 10, dueDate := none, paymentDate := some 20
      paymentMethod := some "cash", notes := ""
      rows := [{ productId := some 5, quantity := 1, rate := 1000 }] }
    400).2

/-- The invoice totals and the payment amounts of the customer are whole
numbers whose sizes add up to less than `2 ^ 53`. -/
def WholeAmounts (st : Store) (customerId : Nat) : Prop :=
  (∀ tx ∈ allTransactions st customerId, IsWhole tx.debit ∧ IsWhole tx.credit) ∧
  ((allTransactions st customerId).map
    (fun tx => tx.debit.natAbs + tx.credit.natAbs)).sum < safeSize

instance (st : Store) (customerId : Nat) : Decidable (WholeAmounts st customerId) := by
  unfold WholeAmounts
  exact inferInstance

/-- The amount paid and the remaining amounts of the customer's pending credit
entries are whole numbers whose sizes add up to less than `2 ^ 53`. -/
def WholeDebts (st : Store) (customerId : Nat) (amount : Int) : Prop :=
  IsWhole amount ∧
  (∀ c ∈ pendingCredits st customerId, IsWhole c.val.remainingAmount) ∧
  amount.natAbs
    + ((pendingCredits st customerId).map (fun c => c.val.remainingAmount.natAbs)).sum
    < safeSize

instance (st : Store) (customerId : Nat) (amount : Int) :
    Decidable (WholeDebts st customerId amount) := by
  unfold WholeDebts
  exact inferInstance

/-- A pending invoice of customer 7 with one item, as `saveInvoice` stores it
at the instant `date` when `received` has been received; amounts are
doubles. -/
def invoiceRecord (id number date : Nat) (total received : Int) : Rec InvoiceData :=
  { id := some id, createdAt := some date, updatedAt := none
    val :=
      { invoiceNumber := { pfx := "INV", number := number }, customerId := 7
        invoiceDate := some date, dueDate := none, paymentDate := none, paymentMethod := none
        items := [{ productId := some 5, quantity := whole 1, rate := total, amount := total }]
        subtotal := some total, tax := some 0, total := total, status := .pending, notes := ""
        remainingAmount := some (Arith.doubles.sub total received), convertedFrom := none } }

/-- A pending credit entry of customer 7, created with its invoice. -/
def creditRecord (id invoiceId number createdAt : Nat) (amount remainingAmount : Int)
    (payments : List Payment) : Rec CreditData :=
  { id := some id, createdAt := some createdAt, updatedAt := none
    val :=
      { customerId := 7, invoiceId := some invoiceId, amount := amount
        remainingAmount := remainingAmount, dueDate := none, status := .pending
        notes := "From invoice #" ++ (DocNumber.mk "INV" number).render
        payments := payments } }

/-- The instant at which day `n` of the clock starts. -/
def day (n : Nat) : Nat :=
  86400000 * n

/-- Customer 7 has an invoice of 3258.31 dated day 1, has paid 2570.12 on day
2 (leaving 688.19 on the credit entry) and has an invoice of 470.20 dated day
3. -/
def fractionalLedgerStore : Store :=
  { InvoiceDB.init with
    invoices :=
      [invoiceRecord 1 1000 (day 1) (decimal 325831 100) 0,
       invoiceRecord 3 1001 (day 3) (decimal 47020 100) 0]
    credits :=
      [creditRecord 2 1 1000 (day 1) (decimal 325831 100) (decimal 68819 100)
         [{ amount := decimal 257012 100, date := some (day 2), method := "cash" }],
       creditRecord 4 3 1001 (day 3) (decimal 47020 100) (decimal 47020 100) []]
    counters := { invoice := 1002, quotation := 2000 }
    nextId := 5 }

/-- Customer 7 has an invoice of 1000 dated day 1 and has paid 400 of it on
day 2. -/
def wholeLedgerStore : Store :=
  { InvoiceDB.init with
    invoices := [invoiceRecord 1 1000 (day 1) (whole 1000) 0]
    credits :=
      [creditRecord 2 1 1000 (day 1) (whole 1000) (whole 600)
         [{ amount := whole 400, date := some (day 2), method := "cash" }]]
    counters := { invoice := 1001, quotation := 2000 }
    nextId := 3 }

/-- Customer 7 has an invoice of 1166.19 saved on day 1 with 370.17 received,
an invoice of 1155.10 saved on day 2 with 305.63 received and an invoice of
1094.69 saved on day 3 with nothing received; each credit entry has the
remaining amount `saveInvoice` computes, `total - received` in doubles. -/
def fractionalBalancesStore : Store :=
  { InvoiceDB.init with
    invoices :=
      [invoiceRecord 1 1000 (day 1) (decimal 116619 100) (decimal 37017 100),
       invoiceRecord 3 1001 (day 2) (decimal 11551 10) (decimal 30563 100),
       invoiceRecord 5 1002 (day 3) (decimal 109469 100) 0]
    credits :=
      [creditRecord 2 1 1000 (day 1) (decimal 116619 100)
         (Arith.doubles.sub (decimal 116619 100) (decimal 37017 100))
         [{ amount := decimal 37017 100, date := some (day 1), method := "partial" }],
       creditRecord 4 3 1001 (day 2) (decimal 11551 10)
         (Arith.doubles.sub (decimal 11551 10) (decimal 30563 100))
         [{ amount := decimal 30563 100, date := some (day 2), method := "partial" }],
       creditRecord 6 5 1002 (day 3) (decimal 109469 100) (decimal 109469 100) []]
    counters := { invoice := 1003, quotation := 2000 }
    nextId := 7 }

/-- Customer 7 owes 0.1 on an invoice of day 1, 0.2 on an invoice of day 2 and
1 on an invoice of day 3. -/
def fractionalDebtsStore : Store :=
  { InvoiceDB.init with
    invoices :=
      [invoiceRecord 1 1000 (day 1) (decimal 1 10) 0,
       invoiceRecord 3 1001 (day 2) (decimal 2 10) 0,
       invoiceRecord 5 1002 (day 3) (whole 1) 0]
    credits :=
      [creditRecord 2 1 1000 (day 1) (decimal 1 10) (decimal 1 10) [],
       creditRecord 4 3 1001 (day 2) (decimal 2 10) (decimal 2 10) [],
       creditRecord 6 5 1002 (day 3) (whole 1) (whole 1) []]
    counters := { invoice := 1003, quotation := 2000 }
    nextId := 7 }

/-- A payment of 0.6 by cash, dated day 4. -/
def fractionalPayment : PaymentForm :=
  { amount := some (decimal 6 10), date := some (day 4), method := "cash" }

/-- Customer 7 owes 100 on an invoice of day 1 and 50 on an invoice of day
2. -/
def wholeDebtsStore : Store :=
  { InvoiceDB.init with
    invoices :=
      [invoiceRecord 1 1000 (day 1) (whole 100) 0,
       invoiceRecord 3 1001 (day 2) (whole 50) 0]
    credits :=
      [creditRecord 2 1 1000 (day 1) (whole 100) (whole 100) [],
       creditRecord 4 3 1001 (day 2) (whole 50) (whole 50) []]
    counters := { invoice := 1002, quotation := 2000 }
    nextId := 5 }

/-- A payment of 120 by cash, dated day 3. -/
def wholePayment : PaymentForm :=
  { amount := some (whole 120), date := some (day 3), method := "cash" }

/-- The product record with every number of it as a double. -/
def wholeProduct (p : Rec ProductData) : Rec ProductData :=
  { p with
    val := { p.val with
      currentStock := whole p.val.currentStock
      minStock := whole p.val.minStock
      purchasePrice := whole p.val.purchasePrice
      sellingPrice := whole p.val.sellingPrice } }

/-- The item with every number of it as a double. -/
def wholeItem (item : Item) : Item :=
  { item with
    quantity := whole item.quantity, rate := whole item.rate, amount := whole item.amount }

/-- One product (id 1) with a stock of 0.5. -/
def fractionalProducts : List (Rec ProductData) :=
  [{ id := some 1, createdAt := some 0, updatedAt := none
     val := { name := "chain", currentStock := decimal 1 2, minStock := whole 1
              purchasePrice := whole 80, sellingPrice := whole 100 } }]

/-- The item list of an invoice for 0.2 units of product 1 at rate 100. -/
def fractionalItems : List Item :=
  [{ productId := some 1, quantity := decimal 2 10, rate := whole 100, amount := whole 20 }]

/-- A value as `JSON.parse` returns it. -/
inductive Json where
  | null
  | bool (b : Bool)
  | num (n : Int)
  | str (s : String)
  | arr (items : List Json)
  | obj (fields : List (String × Json))

/-- The browser's `localStorage`: the keys with the values whose JSON text
they hold. -/
abbrev LocalStorage := List (String × Json)

namespace InvoiceDB

/-- `localStorage.getItem(key)`. -/
def getItem : LocalStorage → String → Option Json
  | [], _ => none
  | (k1, v1) :: l, k => if k1 = k then some v1 else getItem l k

/-- `localStorage.hasOwnProperty(key)`: the key is stored. -/
def hasOwnProperty (ls : LocalStorage) (key : String) : Bool :=
  (getItem ls key).isSome

/-- `localStorage.setItem(key, JSON.stringify(value))`. -/
def setItem : LocalStorage → String → Json → LocalStorage
  | [], k, v => [(k, v)]
  | (k1, v1) :: l, k, v => if k1 = k then (k, v) :: l else (k1, v1) :: setItem l k v

/-- The storage key written for a key of the snapshot:
`key === 'settings' ? 'business-settings' : key`. -/
def storageKey (key : String) : String :=
  if key = "settings" then "business-settings" else key

/-- The keys `"0"`, `"1"`, … of an array or string with the elements under
them, from index `i` on. -/
def indexedEntries (i : Nat) : List Json → List (String × Json)
  | [] => []
  | x :: xs => (toString i, x) :: indexedEntries (i + 1) xs

/-- The entries `Object.keys(data)` enumerates, each with `data[key]`.  For
`null` there are none to enumerate: `Object.keys(null)` throws. -/
def entries : Json → Option (List (String × Json))
  | .null => none
  | .bool _ => some []
  | .num _ => some []
  | .str s => some (indexedEntries 0 (s.toList.map (fun c => Json.str (String.singleton c))))
  | .arr items => some (indexedEntries 0 items)
  | .obj fields => some fields

/-- The `forEach` of `importData` inside the `try` block.  `accepts key value`
tells whether the browser takes the write; a refused write throws
(`QuotaExceededError`), the `catch` block then returns `false`, and what has
been written stays written. -/
def importKeys (accepts : String → Json → Bool) :
    LocalStorage → List (String × Json) → Bool × LocalStorage
  | ls, [] => (true, ls)
  | ls, (key, value) :: rest =>
    if key ≠ "exportDate" ∧ hasOwnProperty ls (storageKey key) = true then
      if accepts (storageKey key) value then
        importKeys accepts (setItem ls (storageKey key) value) rest
      else (false, ls)
    else importKeys accepts ls rest

/-- `importData(data)`: the value returned and the storage left. -/
def importData (accepts : String → Json → Bool) (ls : LocalStorage) (data : Json) :
    Bool × LocalStorage :=
  match entries data with
  | none => (false, ls)
  | some fields => importKeys accepts ls fields

end InvoiceDB

/-- The storage after `init` on an empty `localStorage` (of the settings, the
two prefixes). -/
def initialStorage : LocalStorage :=
  [("customers", .arr []), ("products", .arr []), ("invoices", .arr []),
   ("quotations", .arr []), ("credits", .arr []),
   ("business-settings", .obj [("invoicePrefix", .str "INV"), ("quotationPrefix", .str "QUO")]),
   ("counters", .obj [("invoice", .num 1000), ("quotation", .num 2000)])]

/-- A snapshot whose `invoices` value is a text instead of an array of
records. -/
def malformedSnapshot : Json :=
  .obj [("invoices", .str "oops"), ("exportDate", .str "2024-01-01")]

/-- A well-formed snapshot with new counters and an empty credits
collection. -/
def smallSnapshot : Json :=
  .obj [("counters", .obj [("invoice", .num 5), ("quotation", .num 6)]), ("credits", .arr [])]

/-- A browser that takes every write. -/
def acceptsAll : String → Json → Bool :=
  fun _ _ => true

/-- A browser that refuses the write of the credits collection. -/
def refusesCredits : String → Json → Bool :=
  fun key _ => decide (key ≠ "credits")

/-! ## Lemmas on the record store -/

theorem mem_replaceFirst {α : Type} {p : α → Bool} {x y : α} {l : List α}
    (h : y ∈ replaceFirst p x l) : y = x ∨ y ∈ l := by
  induction l with
  | nil => simp [replaceFirst] at h
  | cons z zs ih =>
    unfold replaceFirst at h
    split at h
    · rcases List.mem_cons.1 h with h1 | h1
      · exact Or.inl h1
      · exact Or.inr (List.mem_cons_of_mem _ h1)
    · rcases List.mem_cons.1 h with h1 | h1
      · exact Or.inr (h1 ▸ List.mem_cons_self _ _)
      · rcases ih h1 with h2 | h2
        · exact Or.inl h2
        · exact Or.inr (List.mem_cons_of_mem _ h2)

theorem map_replaceFirst {α β : Type} (k : α → β) {p : α → Bool} {x : α} {l : List α}
    (h : ∀ y ∈ l, p y = true → k y = k x) :
    (replaceFirst p x l).map k = l.map k := by
  induction l with
  | nil => rfl
  | cons z zs ih =>
    unfold replaceFirst
    split
    · rename_i hz
      simp [h z (List.mem_cons_self _ _) hz]
    · simp only [List.map_cons]
      rw [ih (fun y hy => h y (List.mem_cons_of_mem _ hy))]

theorem getById_id {α : Type} {l : List (Rec α)} {i : Nat} {r : Rec α}
    (h : getById l i = some r) : r.id = some i := by
  have := List.find?_some h
  simpa using this

theorem getById_mem {α : Type} {l : List (Rec α)} {i : Nat} {r : Rec α}
    (h : getById l i = some r) : r ∈ l :=
  List.mem_of_find?_eq_some h

theorem IdsBelow.weaken {α : Type} {l : List (Rec α)} {n m : Nat} (h : IdsBelow l n)
    (hnm : n ≤ m) : IdsBelow l m := by
  intro r hr
  obtain ⟨i, hi, hlt⟩ := h r hr
  exact ⟨i, hi, lt_of_lt_of_le hlt hnm⟩

theorem save_supply_ge {α : Type} (l : List (Rec α)) (x : Rec α) (now n : Nat) :
    n ≤ (save l x now n).2.2 := by
  unfold save
  split <;> simp

theorem save_idsBelow {α : Type} {l : List (Rec α)} {x : Rec α} {now n : Nat}
    (h : IdsBelow l n) (hx : ∀ i, x.id = some i → i < n) :
    IdsBelow (save l x now n).1 (save l x now n).2.2 := by
  unfold save
  split
  · rename_i i hi
    intro r hr
    rcases mem_replaceFirst hr with h1 | h1
    · exact ⟨i, by rw [h1]; exact hi, hx i hi⟩
    · exact h r h1
  · intro r hr
    rcases List.mem_append.1 hr with h1 | h1
    · exact (h.weaken (Nat.le_succ n)) r h1
    · rw [List.mem_singleton] at h1
      exact ⟨n, by rw [h1], Nat.lt_succ_self n⟩

theorem delete_idsBelow {α : Type} {l : List (Rec α)} {n : Nat} (h : IdsBelow l n)
    (id : Option Nat) : IdsBelow (delete l id) n := by
  intro r hr
  exact h r (List.mem_of_mem_filter hr)

theorem CreditsWF.raise {l : List (Rec CreditData)} {n m : Nat} (h : CreditsWF l n)
    (hnm : n ≤ m) : CreditsWF l m where
  ids := h.ids.weaken hnm
  ids_nodup := h.ids_nodup
  links := by
    intro c hc
    obtain ⟨i, hi, hlt⟩ := h.links c hc
    exact ⟨i, hi, lt_of_lt_of_le hlt hnm⟩
  links_nodup := h.links_nodup

theorem exists_mem_of_map_eq {α β : Type} {k : α → β} {l l1 : List α}
    (h : l1.map k = l.map k) {r : α} (hr : r ∈ l1) : ∃ r0 ∈ l, k r0 = k r := by
  have h1 : k r ∈ l1.map k := List.mem_map_of_mem k hr
  rw [h] at h1
  obtain ⟨r0, hr0, hk⟩ := List.mem_map.1 h1
  exact ⟨r0, hr0, hk⟩

theorem CreditsWF.of_keys {l l1 : List (Rec CreditData)} {n : Nat} (h : CreditsWF l n)
    (hk : l1.map creditKey = l.map creditKey) : CreditsWF l1 n := by
  have hid : l1.map (fun c => c.id) = l.map (fun c => c.id) := by
    have := congrArg (List.map Prod.fst) hk
    simpa [List.map_map, Function.comp_def, creditKey] using this
  have hlk : l1.map (fun c => c.val.invoiceId) = l.map (fun c => c.val.invoiceId) := by
    have := congrArg (List.map Prod.snd) hk
    simpa [List.map_map, Function.comp_def, creditKey] using this
  refine ⟨?_, hid ▸ h.ids_nodup, ?_, hlk ▸ h.links_nodup⟩
  · intro r hr
    obtain ⟨r0, hr0, hk0⟩ := exists_mem_of_map_eq hid hr
    obtain ⟨i, hi, hlt⟩ := h.ids r0 hr0
    exact ⟨i, by rw [← hk0]; exact hi, hlt⟩
  · intro r hr
    obtain ⟨r0, hr0, hk0⟩ := exists_mem_of_map_eq hlk hr
    obtain ⟨i, hi, hlt⟩ := h.links r0 hr0
    exact ⟨i, by rw [← hk0]; exact hi, hlt⟩

theorem CreditsWF.filter {l : List (Rec CreditData)} {n : Nat} (h : CreditsWF l n)
    (p : Rec CreditData → Bool) : CreditsWF (l.filter p) n where
  ids := fun r hr => h.ids r (List.mem_of_mem_filter hr)
  ids_nodup := h.ids_nodup.sublist ((List.filter_sublist l).map _)
  links := fun r hr => h.links r (List.mem_of_mem_filter hr)
  links_nodup := h.links_nodup.sublist ((List.filter_sublist l).map _)

theorem save_supply_of_id {α : Type} {l : List (Rec α)} {x : Rec α} {now n i : Nat}
    (hx : x.id = some i) : (save l x now n).2.2 = n := by
  unfold save
  rw [hx]

/-- Saving a credit entry that is already stored, with its link unchanged,
keeps the keys of the collection. -/
theorem save_credit_keys {l : List (Rec CreditData)} {x : Rec CreditData} (now : Nat) {n : Nat}
    (h : CreditsWF l n) (hk : creditKey x ∈ l.map creditKey) :
    (save l x now n).1.map creditKey = l.map creditKey ∧ (save l x now n).2.2 = n := by
  obtain ⟨y0, hy0, hky0⟩ := List.mem_map.1 hk
  obtain ⟨i, hi, _⟩ := h.ids y0 hy0
  have hx : x.id = some i := by
    have := congrArg Prod.fst hky0
    simp only [creditKey] at this
    rw [← this]; exact hi
  refine ⟨?_, save_supply_of_id hx⟩
  unfold save
  rw [hx]
  simp only
  apply map_replaceFirst
  intro y hy hp
  have hyid : y.id = some i := by simpa using hp
  have hyy0 : y = y0 :=
    List.inj_on_of_nodup_map h.ids_nodup hy hy0 (show y.id = y0.id by rw [hyid, hi])
  rw [hyy0, hky0]
  simp [creditKey, hx]

/-- Pushing a credit entry linked to an invoice id that no stored entry is
linked to keeps the collection well formed. -/
theorem save_new_credit {l : List (Rec CreditData)} {x : Rec CreditData} {now n j : Nat}
    (h : CreditsWF l n) (hx : x.id = none) (hj : x.val.invoiceId = some j) (hjn : j < n + 1)
    (hnew : ∀ c ∈ l, c.val.invoiceId ≠ some j) :
    CreditsWF (save l x now n).1 (save l x now n).2.2 := by
  unfold save
  rw [hx]
  simp only
  have h1 := h.raise (Nat.le_succ n)
  refine ⟨?_, ?_, ?_, ?_⟩
  · intro r hr
    rcases List.mem_append.1 hr with hr1 | hr1
    · exact h1.ids r hr1
    · rw [List.mem_singleton] at hr1
      exact ⟨n, by rw [hr1], Nat.lt_succ_self n⟩
  · rw [List.map_append, List.nodup_append]
    refine ⟨h.ids_nodup, by simp, ?_⟩
    intro a ha hb
    simp only [List.map_cons, List.map_nil, List.mem_singleton] at hb
    obtain ⟨c, hc, hca⟩ := List.mem_map.1 ha
    obtain ⟨i, hi, hlt⟩ := h.ids c hc
    have hcn : c.id = some n := hca.trans (by rw [hb])
    rw [hi] at hcn
    injection hcn with hcn
    omega
  · intro r hr
    rcases List.mem_append.1 hr with hr1 | hr1
    · exact h1.links r hr1
    · rw [List.mem_singleton] at hr1
      exact ⟨j, by rw [hr1]; exact hj, hjn⟩
  · rw [List.map_append, List.nodup_append]
    refine ⟨h.links_nodup, by simp, ?_⟩
    intro a ha hb
    simp only [List.map_cons, List.map_nil, List.mem_singleton] at hb
    obtain ⟨c, hc, hca⟩ := List.mem_map.1 ha
    have hcj : c.val.invoiceId = x.val.invoiceId := hca.trans (by rw [hb])
    exact hnew c hc (hcj.trans hj)

theorem save_item_id {α : Type} (l : List (Rec α)) {x : Rec α} (now : Nat) {n : Nat}
    (hx : ∀ i, x.id = some i → i < n) :
    ∃ j, (save l x now n).2.1.id = some j ∧ j < (save l x now n).2.2 := by
  unfold save
  cases hid : x.id with
  | none => exact ⟨n, rfl, Nat.lt_succ_self n⟩
  | some i => exact ⟨i, hid, hx i hid⟩

theorem reconcileCredit_supply_ge (credits : List (Rec CreditData))
    (savedInvoice : Rec InvoiceData) (partialPayment newPayment : Int) (now n : Nat) :
    n ≤ (reconcileCredit credits savedInvoice partialPayment newPayment now n).2 := by
  unfold reconcileCredit
  cases savedInvoice.val.status <;>
    cases credits.find? (fun c => c.val.invoiceId == savedInvoice.id) <;>
    exact save_supply_ge _ _ _ _

theorem reconcileCredit_wf {credits : List (Rec CreditData)} {savedInvoice : Rec InvoiceData}
    {partialPayment newPayment : Int} {now n j : Nat}
    (h : CreditsWF credits n) (hj : savedInvoice.id = some j) (hjn : j < n) :
    CreditsWF (reconcileCredit credits savedInvoice partialPayment newPayment now n).1
      (reconcileCredit credits savedInvoice partialPayment newPayment now n).2 := by
  have hlinked : ∀ linked, credits.find? (fun c => c.val.invoiceId == savedInvoice.id)
      = some linked → ∀ v : CreditData, v.invoiceId = linked.val.invoiceId →
      CreditsWF (save credits { linked with val := v } now n).1
        (save credits { linked with val := v } now n).2.2 := by
    intro linked hf v hv
    have hmem : linked ∈ credits := List.mem_of_find?_eq_some hf
    have hkey : creditKey { linked with val := v } ∈ credits.map creditKey := by
      have : creditKey { linked with val := v } = creditKey linked := by
        simp [creditKey, hv]
      rw [this]
      exact List.mem_map_of_mem _ hmem
    have hs := save_credit_keys now h hkey
    rw [hs.2]
    exact h.of_keys hs.1
  have hnone : credits.find? (fun c => c.val.invoiceId == savedInvoice.id) = none →
      ∀ v : CreditData, v.invoiceId = savedInvoice.id →
      CreditsWF (save credits { id := none, createdAt := none, updatedAt := none, val := v }
          now n).1
        (save credits { id := none, createdAt := none, updatedAt := none, val := v } now n).2.2 := by
    intro hf v hv
    apply save_new_credit h rfl (hv.trans hj) (Nat.lt_succ_of_lt hjn)
    intro c hc hcj
    have := List.find?_eq_none.1 hf c hc
    simp [hcj, hj] at this
  unfold reconcileCredit
  cases hst : savedInvoice.val.status <;> simp only
  · cases hf : credits.find? (fun c => c.val.invoiceId == savedInvoice.id) with
    | some linked => exact hlinked linked hf _ rfl
    | none =>
      simp only
      split
      · exact hnone hf _ rfl
      · exact hnone hf _ rfl
  · cases hf : credits.find? (fun c => c.val.invoiceId == savedInvoice.id) with
    | some linked => exact hlinked linked hf _ rfl
    | none => exact hnone hf _ rfl

theorem writeInvoice_wf {st : Store} (invoiceId : Option Nat)
    (existingInvoice : Option (Rec InvoiceData)) (customerId : Nat) (form : InvoiceForm)
    (now : Nat) (h : StoreWF st) (hid : ∀ i, invoiceId = some i → i < st.nextId) :
    StoreWF (writeInvoice st invoiceId existingInvoice customerId form now) := by
  unfold writeInvoice
  simp only
  have hx : ∀ i, (buildInvoice st invoiceId existingInvoice customerId form now).id = some i →
      i < st.nextId := hid
  obtain ⟨j, hj, hjn⟩ := save_item_id st.invoices now hx
  refine ⟨?_, ?_⟩
  · exact reconcileCredit_wf (h.credits.raise (save_supply_ge _ _ _ _)) hj hjn
  · exact (save_idsBelow h.invoices hx).weaken (reconcileCredit_supply_ge _ _ _ _ _ _)

theorem saveInvoice_wf {st : Store} (invoiceId : Option Nat) (form : InvoiceForm) (now : Nat)
    (h : StoreWF st) : StoreWF (saveInvoice st invoiceId form now).2 := by
  unfold saveInvoice
  cases form.customerId with
  | none => exact h
  | some customerId =>
    simp only
    split
    · exact h
    · split
      · exact h
      · cases invoiceId with
        | none => exact writeInvoice_wf none none customerId form now h (by intro i hi; cases hi)
        | some i =>
          simp only
          cases hg : getById st.invoices i with
          | none => exact h
          | some ex =>
            simp only
            refine writeInvoice_wf (some i) (some ex) customerId form now h ?_
            intro k hk
            injection hk with hk
            obtain ⟨i1, hi1, hlt⟩ := h.invoices ex (getById_mem hg)
            rw [getById_id hg] at hi1
            injection hi1 with hi1
            omega

theorem mem_insertByCreatedAt {a x : Rec CreditData} {l : List (Rec CreditData)}
    (h : x ∈ insertByCreatedAt a l) : x = a ∨ x ∈ l := by
  induction l with
  | nil =>
    simp only [insertByCreatedAt, List.mem_singleton] at h
    exact Or.inl h
  | cons b bs ih =>
    unfold insertByCreatedAt at h
    split at h
    · rcases List.mem_cons.1 h with h1 | h1
      · exact Or.inr (h1 ▸ List.mem_cons_self _ _)
      · rcases ih h1 with h2 | h2
        · exact Or.inl h2
        · exact Or.inr (List.mem_cons_of_mem _ h2)
    · rcases List.mem_cons.1 h with h1 | h1
      · exact Or.inl h1
      · exact Or.inr h1

theorem mem_sortByCreatedAt {x : Rec CreditData} {l : List (Rec CreditData)}
    (h : x ∈ sortByCreatedAt l) : x ∈ l := by
  induction l with
  | nil => simp [sortByCreatedAt] at h
  | cons b bs ih =>
    simp only [sortByCreatedAt, List.foldr_cons] at h
    rcases mem_insertByCreatedAt h with h1 | h1
    · exact h1 ▸ List.mem_cons_self _ _
    · exact List.mem_cons_of_mem _ (ih h1)

theorem save_idsBelow_of_id {α : Type} {l : List (Rec α)} {x : Rec α} {now n i : Nat}
    (h : IdsBelow l n) (hx : x.id = some i) (hi : i < n) : IdsBelow (save l x now n).1 n := by
  have hs : IdsBelow (save l x now n).1 (save l x now n).2.2 :=
    save_idsBelow h (by intro k hk; rw [hx] at hk; injection hk with hk; omega)
  rwa [save_supply_of_id hx] at hs

theorem markLinkedInvoicePaid_idsBelow {invoices : List (Rec InvoiceData)} {n : Nat}
    (h : IdsBelow invoices n) (invoiceId : Option Nat) (date : Option Nat) (method : String)
    (now : Nat) : IdsBelow (markLinkedInvoicePaid invoices invoiceId date method now n) n := by
  unfold markLinkedInvoicePaid
  cases invoiceId with
  | none => exact h
  | some invId =>
    simp only
    cases hg : getById invoices invId with
    | none => exact h
    | some linkedInvoice =>
      simp only
      split
      · obtain ⟨i, hi, hlt⟩ := h linkedInvoice (getById_mem hg)
        exact save_idsBelow_of_id h hi hlt
      · exact h

theorem save_credit_val_keys {l : List (Rec CreditData)} {credit : Rec CreditData}
    (now : Nat) {n : Nat} (h : CreditsWF l n) (hc : creditKey credit ∈ l.map creditKey)
    (v : CreditData) (hv : v.invoiceId = credit.val.invoiceId) :
    (save l { credit with val := v } now n).1.map creditKey = l.map creditKey ∧
    (save l { credit with val := v } now n).2.2 = n := by
  apply save_credit_keys now h
  have : creditKey { credit with val := v } = creditKey credit := by
    simp [creditKey, hv]
  rw [this]
  exact hc

/-- What one round of the `savePayment` loop keeps: the keys of the credits
collection, the id supply, and the ids of the invoices collection. -/
theorem settleCredit_keeps (date : Option Nat) (method : String) (now : Nat) {st0 : Store}
    {acc : Store × Int} {credit : Rec CreditData}
    (hwf : CreditsWF st0.credits st0.nextId)
    (hk : acc.1.credits.map creditKey = st0.credits.map creditKey)
    (hn : acc.1.nextId = st0.nextId)
    (hi : IdsBelow acc.1.invoices st0.nextId) (hc : credit ∈ st0.credits) :
    (settleCredit date method now acc credit).1.credits.map creditKey
        = st0.credits.map creditKey ∧
    (settleCredit date method now acc credit).1.nextId = st0.nextId ∧
    IdsBelow (settleCredit date method now acc credit).1.invoices st0.nextId := by
  unfold settleCredit
  simp only
  split
  · exact ⟨hk, hn, hi⟩
  · have hacc : CreditsWF acc.1.credits acc.1.nextId := by
      rw [hn]; exact hwf.of_keys hk
    have hmem : creditKey credit ∈ acc.1.credits.map creditKey := by
      rw [hk]
      exact List.mem_map_of_mem creditKey hc
    have hs := save_credit_val_keys now hacc hmem
    refine ⟨(hs _ (by rfl)).1.trans hk, (hs _ (by rfl)).2.trans hn, ?_⟩
    simp only
    split
    · rw [hn]
      exact markLinkedInvoicePaid_idsBelow hi _ _ _ _
    · exact hi

theorem settle_fold_keeps (date : Option Nat) (method : String) (now : Nat) {st0 : Store}
    (hwf : CreditsWF st0.credits st0.nextId) (pending : List (Rec CreditData))
    (hp : ∀ c ∈ pending, c ∈ st0.credits) (acc : Store × Int)
    (hk : acc.1.credits.map creditKey = st0.credits.map creditKey)
    (hn : acc.1.nextId = st0.nextId) (hi : IdsBelow acc.1.invoices st0.nextId) :
    (pending.foldl (settleCredit date method now) acc).1.credits.map creditKey
        = st0.credits.map creditKey ∧
    (pending.foldl (settleCredit date method now) acc).1.nextId = st0.nextId ∧
    IdsBelow (pending.foldl (settleCredit date method now) acc).1.invoices st0.nextId := by
  induction pending generalizing acc with
  | nil => exact ⟨hk, hn, hi⟩
  | cons c cs ih =>
    rw [List.foldl_cons]
    obtain ⟨h1, h2, h3⟩ := settleCredit_keeps date method now
      hwf hk hn hi (hp c (List.mem_cons_self _ _))
    exact ih (fun d hd => hp d (List.mem_cons_of_mem _ hd)) _ h1 h2 h3

theorem savePayment_wf {st : Store} (customerId : Nat) (form : PaymentForm) (now : Nat)
    (h : StoreWF st) : StoreWF (savePayment st customerId form now).2 := by
  unfold savePayment
  cases form.amount with
  | none => exact h
  | some amountReceived =>
    simp only
    split
    · exact h
    · obtain ⟨h1, h2, h3⟩ := settle_fold_keeps form.date form.method now h.credits
        (sortByCreatedAt (st.credits.filter
          (fun c => c.val.customerId == customerId && c.val.status == .pending)))
        (fun c hc => List.mem_of_mem_filter (mem_sortByCreatedAt hc))
        (st, amountReceived) rfl rfl h.invoices
      refine ⟨?_, ?_⟩
      · simp only
        rw [h2]
        exact h.credits.of_keys h1
      · simp only
        rw [h2]
        exact h3

theorem deleteInvoice_wf {st : Store} (invoiceId : Nat) (confirmed : Bool)
    (h : StoreWF st) : StoreWF (deleteInvoice st invoiceId confirmed).2 := by
  unfold deleteInvoice
  split
  · refine ⟨?_, delete_idsBelow h.invoices _⟩
    simp only
    split
    · exact h.credits.filter _
    · exact h.credits
  · exact h

theorem convertToInvoice_wf {st : Store} (quotationId : Nat) (confirmed : Bool) (now : Nat)
    (h : StoreWF st) : StoreWF (convertToInvoice st quotationId confirmed now).2 := by
  unfold convertToInvoice
  cases getById st.quotations quotationId with
  | none => exact h
  | some quotation =>
    simp only
    split
    · refine ⟨?_, ?_⟩
      · exact h.credits.raise (le_trans (save_supply_ge _ _ _ _) (save_supply_ge _ _ _ _))
      · exact (save_idsBelow h.invoices (by intro i hi; cases hi)).weaken (save_supply_ge _ _ _ _)
    · exact h

theorem saveQuotation_wf {st : Store} (quotationId : Option Nat) (form : QuotationForm)
    (now : Nat) (h : StoreWF st) : StoreWF (saveQuotation st quotationId form now).2 := by
  have hw : ∀ (qid : Option Nat) (ex : Option (Rec QuotationData)) (cust : Nat),
      StoreWF (writeQuotation st qid ex cust form now) := by
    intro qid ex cust
    unfold writeQuotation
    exact ⟨h.credits.raise (save_supply_ge _ _ _ _), h.invoices.weaken (save_supply_ge _ _ _ _)⟩
  unfold saveQuotation
  cases form.customerId with
  | none => exact h
  | some customerId =>
    simp only
    split
    · exact h
    · cases quotationId with
      | none => exact hw none none customerId
      | some i =>
        simp only
        cases getById st.quotations i with
        | none => exact h
        | some ex => exact hw (some i) (some ex) customerId

theorem init_wf : StoreWF InvoiceDB.init where
  credits :=
    { ids := fun _ hr => by cases hr
      ids_nodup := List.nodup_nil
      links := fun _ hr => by cases hr
      links_nodup := List.nodup_nil }
  invoices := fun _ hr => by cases hr

/-- Every reachable store is well formed. -/
theorem Reachable.wf {st : Store} (h : Reachable st) : StoreWF st := by
  induction h with
  | init => exact init_wf
  | saveInvoice invoiceId form now _ ih => exact saveInvoice_wf invoiceId form now ih
  | savePayment customerId form now _ ih => exact savePayment_wf customerId form now ih
  | deleteInvoice invoiceId confirmed _ ih => exact deleteInvoice_wf invoiceId confirmed ih
  | convertToInvoice quotationId confirmed now _ ih =>
    exact convertToInvoice_wf quotationId confirmed now ih
  | saveQuotation quotationId form now _ ih => exact saveQuotation_wf quotationId form now ih

theorem filter_link_length_le_one {l : List (Rec CreditData)}
    (h : (l.map (fun c => c.val.invoiceId)).Nodup) (b : Option Nat) :
    (l.filter (fun c => c.val.invoiceId == b)).length ≤ 1 := by
  induction l with
  | nil => simp
  | cons x xs ih =>
    rw [List.map_cons, List.nodup_cons] at h
    by_cases hx : x.val.invoiceId = b
    · have hnil : xs.filter (fun c => c.val.invoiceId == b) = [] := by
        rw [List.filter_eq_nil_iff]
        intro y hy hyb
        have hyb1 : y.val.invoiceId = b := by simpa using hyb
        exact h.1 (List.mem_map.2 ⟨y, hy, hyb1.trans hx.symm⟩)
      rw [List.filter_cons, if_pos (by simpa using hx), hnil]
      simp
    · rw [List.filter_cons, if_neg (by simpa using hx)]
      exact ih h.2

theorem oneCredit_of_wf {st : Store} (h : StoreWF st) : OneCreditPerInvoice st :=
  fun invoiceId => filter_link_length_le_one h.credits.links_nodup (some invoiceId)

/-! ## Lemmas on `saveInvoice` -/

theorem calculateInvoiceTotal_fold (rows : List ItemRow) (acc : List Item × Int) :
    rows.foldl
      (fun acc row =>
        let amount := row.quantity * row.rate
        (acc.1 ++ [{ productId := row.productId, quantity := row.quantity,
                     rate := row.rate, amount := amount }], acc.2 + amount))
      acc
    = (acc.1 ++ rows.map rowItem, acc.2 + (rows.map (fun r => r.quantity * r.rate)).sum) := by
  induction rows generalizing acc with
  | nil => simp
  | cons r rs ih =>
    rw [List.foldl_cons, ih]
    simp [rowItem, add_assoc]

theorem calculateInvoiceTotal_items (rows : List ItemRow) :
    (calculateInvoiceTotal rows).1 = rows.map rowItem := by
  unfold calculateInvoiceTotal
  rw [calculateInvoiceTotal_fold]
  simp

theorem calculateInvoiceTotal_total (rows : List ItemRow) :
    (calculateInvoiceTotal rows).2 = (rows.map (fun r => r.quantity * r.rate)).sum := by
  unfold calculateInvoiceTotal
  rw [calculateInvoiceTotal_fold]
  simp

theorem any_productId_iff (rows : List ItemRow) :
    ¬ (rows.any (fun item => item.productId.isSome)) = true ↔
      ∀ row ∈ rows, row.productId = none := by
  simp only [List.any_eq_true, not_exists, not_and]
  constructor
  · intro h row hr
    cases hp : row.productId with
    | none => rfl
    | some p => exact absurd (by rw [hp]; rfl) (h row hr)
  · intro h row hr
    rw [h row hr]
    simp

/-- What an accepted `saveInvoice` did. -/
theorem saveInvoice_ok {st : Store} {invoiceId : Option Nat} {form : InvoiceForm} {now : Nat}
    (h : (saveInvoice st invoiceId form now).1 = .ok) :
    ¬ RejectCondition form ∧
    ∃ customerId, form.customerId = some customerId ∧
      ((invoiceId = none ∧
          (saveInvoice st invoiceId form now).2 = writeInvoice st none none customerId form now) ∨
       (∃ i ex, invoiceId = some i ∧ getById st.invoices i = some ex ∧
          (saveInvoice st invoiceId form now).2
            = writeInvoice st (some i) (some ex) customerId form now)) := by
  unfold saveInvoice at h ⊢
  unfold RejectCondition
  rw [← calculateInvoiceTotal_total]
  cases hc : form.customerId with
  | none => simp [hc] at h
  | some customerId =>
    simp only [hc] at h ⊢
    by_cases h1 : form.rows.length = 0 ∨
        ¬ (form.rows.any (fun item => item.productId.isSome)) = true
    · rw [if_pos h1] at h
      cases h
    · rw [if_neg h1] at h ⊢
      by_cases h2 : form.status = .pending ∧
          form.partialPayment + form.newPayment ≥ (calculateInvoiceTotal form.rows).2
      · rw [if_pos h2] at h
        cases h
      · rw [if_neg h2] at h ⊢
        have h1a : ¬ form.rows = [] := fun hh => h1 (Or.inl (by rw [hh]; rfl))
        have h1b : ¬ ∀ row ∈ form.rows, row.productId = none :=
          fun hh => h1 (Or.inr ((any_productId_iff _).2 hh))
        refine ⟨by
          rintro (hh | hh | hh | hh)
          · cases hh
          · exact h1a hh
          · exact h1b hh
          · exact h2 hh, customerId, rfl, ?_⟩
        cases invoiceId with
        | none => exact Or.inl ⟨rfl, rfl⟩
        | some i =>
          simp only at h ⊢
          cases hg : getById st.invoices i with
          | none =>
            rw [hg] at h
            cases h
          | some ex => exact Or.inr ⟨i, ex, rfl, hg, rfl⟩

theorem getById_replaceFirst {α : Type} (l : List (Rec α)) (x : Rec α) (i j : Nat)
    (hx : x.id = some i) :
    getById (replaceFirst (fun r => r.id == some i) x l) j
      = if j = i then (getById l i).map (fun _ => x) else getById l j := by
  induction l with
  | nil =>
    simp [replaceFirst, getById]
  | cons y ys ih =>
    unfold replaceFirst
    by_cases hy : y.id = some i
    · have hyb : (y.id == some i) = true := by simpa using hy
      rw [if_pos hyb]
      by_cases hji : j = i
      · subst hji
        simp [getById, List.find?_cons, hx, hy]
      · have h2 : (i == j) = false := by
          simpa using fun h : i = j => hji h.symm
        simp [getById, List.find?_cons, hx, hy, h2, hji]
    · have hyb : ¬ (y.id == some i) = true := by simpa using hy
      rw [if_neg hyb]
      by_cases hji : j = i
      · subst hji
        have := ih
        simp only [getById, if_true] at this
        simp [getById, List.find?_cons, hy, this]
      · have := ih
        simp only [getById, if_neg hji] at this
        simp only [getById, if_neg hji, List.find?_cons]
        split
        · rfl
        · exact this

theorem getById_save_existing {α : Type} {l : List (Rec α)} {x ex : Rec α} {i : Nat}
    (now n : Nat) (hx : x.id = some i) (hex : getById l i = some ex) :
    getById (save l x now n).1 i = some { x with updatedAt := some now } := by
  unfold save
  rw [hx]
  simp only
  rw [getById_replaceFirst l _ i i rfl, if_pos rfl, hex]
  rfl

theorem quantityOf_cons (pid : Nat) (item : Item) (items : List Item) :
    quantityOf pid (item :: items)
      = (if item.productId = some pid then item.quantity else 0) + quantityOf pid items := by
  unfold quantityOf
  by_cases h : item.productId = some pid
  · simp [List.filter_cons, h]
  · simp [List.filter_cons, h]

theorem adjustStock_stockOf (sign : Int) (now : Nat) (items : List Item)
    (products : List (Rec ProductData)) (pid : Nat) :
    stockOf (adjustStock sign now products items) pid
      = (stockOf products pid).map (fun s => s + sign * quantityOf pid items) := by
  unfold adjustStock
  induction items generalizing products with
  | nil =>
    cases h : stockOf products pid <;> simp [quantityOf, h]
  | cons item rest ih =>
    rw [List.foldl_cons, ih, quantityOf_cons]
    cases hp : item.productId with
    | none =>
      simp only [reduceCtorEq, if_false, zero_add]
    | some p =>
      simp only
      cases hg : getById products p with
      | none =>
        simp only
        by_cases hpp : p = pid
        · subst hpp
          simp [stockOf, hg]
        · have : ¬ (some p = some pid) := fun h => hpp (Option.some.inj h)
          simp [this]
      | some product =>
        simp only
        have hid : product.id = some p := getById_id hg
        unfold save
        simp only [hid]
        unfold stockOf
        rw [getById_replaceFirst products _ p pid rfl]
        by_cases hpp : pid = p
        · subst hpp
          simp [hg, mul_add, add_assoc]
        · have : ¬ (some p = some pid) := fun h => hpp (Option.some.inj h).symm
          simp [hpp, this]

/-! ## Lemmas on the scenarios and on the saved records -/

theorem pendingInvoiceStore_formReachable : FormReachable pendingInvoiceStore :=
  FormReachable.saveInvoice none (sampleForm 1000 0 0 .pending) 100 FormReachable.init
    (by decide) (by decide)

/-- In a reachable store no credit entry is linked to the id that the next
saved record will get. -/
theorem Reachable.fresh_link {st : Store} (h : Reachable st) :
    ∀ c ∈ st.credits, c.val.invoiceId ≠ some st.nextId := by
  intro c hc hce
  obtain ⟨i, hi, hlt⟩ := h.wf.credits.links c hc
  rw [hce] at hi
  injection hi with hi
  omega

theorem twoInvoiceStore_reachable : Reachable twoInvoiceStore :=
  Reachable.saveInvoice none _ 500
    (Reachable.savePayment 7 _ 300 (Reachable.saveInvoice none _ 100 Reachable.init))

theorem rowItem_amounts (rows : List ItemRow) :
    ((rows.map rowItem).map (fun item => item.quantity * item.rate)).sum
      = (rows.map (fun r => r.quantity * r.rate)).sum := by
  rw [List.map_map]
  rfl

theorem save_new {α : Type} (l : List (Rec α)) (x : Rec α) (now n : Nat) (hx : x.id = none) :
    save l x now n = (l ++ [{ x with id := some n, createdAt := some now }],
      { x with id := some n, createdAt := some now }, n + 1) := by
  unfold save
  rw [hx]

/-- The amounts on the invoice object built by `saveInvoice`. -/
theorem buildInvoice_amounts (st : Store) (invoiceId : Option Nat)
    (ex : Option (Rec InvoiceData)) (customerId : Nat) (form : InvoiceForm) (now : Nat)
    (v : InvoiceData) (hv : v = (buildInvoice st invoiceId ex customerId form now).val) :
    v.items = form.rows.map rowItem ∧
    v.total = (v.items.map (fun item => item.quantity * item.rate)).sum ∧
    v.subtotal = some v.total ∧
    v.status = form.status ∧
    (v.status = .pending →
      v.remainingAmount = some (v.total - (form.partialPayment + form.newPayment))) ∧
    (v.status = .paid → v.remainingAmount = some 0) := by
  subst hv
  unfold buildInvoice
  refine ⟨calculateInvoiceTotal_items _, ?_, rfl, rfl, ?_, ?_⟩
  · show (calculateInvoiceTotal form.rows).2
      = (((calculateInvoiceTotal form.rows).1).map (fun item => item.quantity * item.rate)).sum
    rw [calculateInvoiceTotal_items, rowItem_amounts, calculateInvoiceTotal_total]
  · intro hs
    have hs1 : form.status = .pending := hs
    simp only [hs1, if_true]
  · intro hs
    have hs1 : form.status = .paid := hs
    simp only [hs1]
    rfl

/-! ## Lemmas on `savePayment` -/

theorem insertByCreatedAt_perm (a : Rec CreditData) (l : List (Rec CreditData)) :
    (insertByCreatedAt a l).Perm (a :: l) := by
  induction l with
  | nil => exact List.Perm.refl _
  | cons b bs ih =>
    unfold insertByCreatedAt
    split
    · exact ((List.Perm.cons b ih).trans (List.Perm.swap a b bs))
    · exact List.Perm.refl _

theorem sortByCreatedAt_perm (l : List (Rec CreditData)) : (sortByCreatedAt l).Perm l := by
  induction l with
  | nil => exact List.Perm.refl _
  | cons b bs ih =>
    simp only [sortByCreatedAt, List.foldr_cons]
    exact (insertByCreatedAt_perm b _).trans (List.Perm.cons b ih)

theorem getById_of_mem {α : Type} {l : List (Rec α)} {c : Rec α} {i : Nat}
    (hn : (l.map (fun r => r.id)).Nodup) (hc : c ∈ l) (hi : c.id = some i) :
    getById l i = some c := by
  induction l with
  | nil => cases hc
  | cons y ys ih =>
    rw [List.map_cons, List.nodup_cons] at hn
    unfold getById
    rw [List.find?_cons]
    rcases List.mem_cons.1 hc with h | h
    · subst h
      simp [hi]
    · have hy : ¬ y.id = some i := by
        intro hy
        exact hn.1 (List.mem_map.2 ⟨c, h, by rw [hi, hy]⟩)
      have hyb : (y.id == some i) = false := by simpa using hy
      rw [hyb]
      exact ih hn.2 h

theorem getById_save_other {α : Type} (l : List (Rec α)) (x : Rec α) (now n i j : Nat)
    (hx : x.id = some i) (hji : j ≠ i) :
    getById (save l x now n).1 j = getById l j := by
  unfold save
  rw [hx]
  simp only
  rw [getById_replaceFirst l _ i j rfl, if_neg hji]

theorem settleCredit_amount (date : Option Nat) (method : String) (now : Nat)
    (acc : Store × Int) (credit : Rec CreditData) :
    (settleCredit date method now acc credit).2
      = amountLeft acc.2 [credit.val.remainingAmount] := by
  unfold settleCredit amountLeft
  simp only
  split
  · rfl
  · rfl

theorem save_existing {α : Type} (l : List (Rec α)) (x : Rec α) (v : α) (now n i : Nat)
    (hx : x.id = some i) :
    (save l { x with val := v } now n).1
      = replaceFirst (fun r => r.id == some i)
          { x with val := v, updatedAt := some now } l := by
  unfold save
  simp only [hx]

theorem settleCredit_getById (date : Option Nat) (method : String) (now : Nat)
    (acc : Store × Int) (credit : Rec CreditData) (i j : Nat) (hi : credit.id = some i) :
    getById (settleCredit date method now acc credit).1.credits j
      = if acc.2 ≤ 0 ∨ j ≠ i then getById acc.1.credits j
        else (getById acc.1.credits i).map
          (fun _ => settledCredit date method now acc.2 credit) := by
  unfold settleCredit
  simp only
  by_cases hA : acc.2 ≤ 0
  · rw [if_pos hA, if_pos (Or.inl hA)]
  · rw [if_neg hA]
    simp only
    rw [save_existing _ _ _ _ _ i hi]
    show getById (replaceFirst (fun r => r.id == some i)
      (settledCredit date method now acc.2 credit) acc.1.credits) j = _
    rw [getById_replaceFirst acc.1.credits (settledCredit date method now acc.2 credit) i j hi]
    by_cases hji : j = i
    · subst hji
      rw [if_pos rfl, if_neg (fun h => h.elim hA (fun h => h rfl))]
    · rw [if_neg hji, if_pos (Or.inr hji)]

theorem amountLeft_append (amount : Int) (rs ss : List Int) :
    amountLeft amount (rs ++ ss) = amountLeft (amountLeft amount rs) ss := by
  induction rs generalizing amount with
  | nil => rfl
  | cons r rs ih =>
    simp only [List.cons_append, amountLeft]
    split
    · rename_i h
      cases ss with
      | nil => simp [amountLeft, h]
      | cons s ss => simp [amountLeft, h]
    · exact ih _

theorem amountLeft_nonpos (amount : Int) (rs : List Int) (h : amount ≤ 0) :
    amountLeft amount rs = amount := by
  cases rs with
  | nil => rfl
  | cons r rs => simp [amountLeft, h]

/-- The value of `amountToSettle` after the loop. -/
theorem settle_fold_amount (date : Option Nat) (method : String) (now : Nat)
    (cs : List (Rec CreditData)) (acc : Store × Int) :
    (cs.foldl (settleCredit date method now) acc).2
      = amountLeft acc.2 (remainingAmounts cs) := by
  induction cs generalizing acc with
  | nil => rfl
  | cons c cs ih =>
    rw [List.foldl_cons, ih, settleCredit_amount]
    show amountLeft (amountLeft acc.2 [c.val.remainingAmount]) (remainingAmounts cs)
      = amountLeft acc.2 ([c.val.remainingAmount] ++ remainingAmounts cs)
    rw [amountLeft_append]

/-- The loop leaves alone the credit entries under the ids it does not go
over. -/
theorem settle_fold_getById_other (date : Option Nat) (method : String) (now : Nat)
    (cs : List (Rec CreditData)) (acc : Store × Int) (j : Nat)
    (hids : ∀ c ∈ cs, ∃ i, c.id = some i)
    (hj : ∀ c ∈ cs, c.id ≠ some j) :
    getById (cs.foldl (settleCredit date method now) acc).1.credits j
      = getById acc.1.credits j := by
  induction cs generalizing acc with
  | nil => rfl
  | cons c cs ih =>
    rw [List.foldl_cons,
      ih _ (fun d hd => hids d (List.mem_cons_of_mem _ hd))
        (fun d hd => hj d (List.mem_cons_of_mem _ hd))]
    obtain ⟨i, hi⟩ := hids c (List.mem_cons_self _ _)
    rw [settleCredit_getById date method now acc c i j hi]
    have hji : j ≠ i := by
      intro h
      exact hj c (List.mem_cons_self _ _) (by rw [hi, h])
    rw [if_pos (Or.inr hji)]

/-- The loop leaves of each credit entry it goes over what the loop body makes
of it with the amount left by the entries before it. -/
theorem settle_fold_getById (date : Option Nat) (method : String) (now : Nat)
    (pre : List (Rec CreditData)) (c : Rec CreditData) (post : List (Rec CreditData))
    (acc : Store × Int) (i : Nat)
    (hids : ∀ d ∈ pre ++ c :: post, ∃ k, d.id = some k)
    (hnodup : ((pre ++ c :: post).map (fun d => d.id)).Nodup)
    (hi : c.id = some i)
    (hstored : getById acc.1.credits i = some c) :
    getById ((pre ++ c :: post).foldl (settleCredit date method now) acc).1.credits i
      = some (creditAfterLoop date method now (amountLeft acc.2 (remainingAmounts pre)) c) := by
  induction pre generalizing acc with
  | nil =>
    simp only [List.nil_append, List.foldl_cons]
    have hpost : ∀ d ∈ post, d.id ≠ some i := by
      intro d hd hdi
      simp only [List.nil_append, List.map_cons, List.nodup_cons] at hnodup
      exact hnodup.1 (List.mem_map.2 ⟨d, hd, by rw [hdi, hi]⟩)
    rw [settle_fold_getById_other date method now post _ i
      (fun d hd => hids d (by simp [hd])) hpost,
      settleCredit_getById date method now acc c i i hi]
    unfold creditAfterLoop
    simp only [remainingAmounts, List.map_nil, amountLeft]
    by_cases hA : acc.2 ≤ 0
    · rw [if_pos (Or.inl hA), if_pos hA, hstored]
    · rw [if_neg (by simp [hA]), if_neg hA, hstored]
      rfl
  | cons p pre ih =>
    simp only [List.cons_append, List.foldl_cons]
    simp only [List.cons_append, List.map_cons, List.nodup_cons] at hnodup
    obtain ⟨k, hk⟩ := hids p (by simp)
    have hki : i ≠ k := by
      intro h
      apply hnodup.1
      rw [hk, ← h, ← hi]
      exact List.mem_map.2 ⟨c, by simp, rfl⟩
    rw [ih (settleCredit date method now acc p)
      (fun d hd => hids d (List.mem_cons_of_mem _ hd)) hnodup.2
      (by rw [settleCredit_getById date method now acc p k i hk, if_pos (Or.inr hki)]
          exact hstored)]
    rw [settleCredit_amount]
    show _ = some (creditAfterLoop date method now
      (amountLeft acc.2 ([p.val.remainingAmount] ++ remainingAmounts pre)) c)
    rw [amountLeft_append]

theorem markLinkedInvoicePaid_getById (invoices : List (Rec InvoiceData)) (link : Option Nat)
    (date : Option Nat) (method : String) (now n k : Nat) :
    getById (markLinkedInvoicePaid invoices link date method now n) k
      = if link = some k then (getById invoices k).map (invoiceAfterSettle date method now)
        else getById invoices k := by
  unfold markLinkedInvoicePaid
  cases link with
  | none => simp
  | some invId =>
    simp only
    cases hg : getById invoices invId with
    | none =>
      simp only
      by_cases hk : invId = k
      · subst hk
        simp [hg]
      · rw [if_neg (fun h => hk (Option.some.inj h))]
    | some linkedInvoice =>
      simp only
      have hid : linkedInvoice.id = some invId := getById_id hg
      by_cases hp : linkedInvoice.val.status = .pending
      · rw [if_pos hp, save_existing _ _ _ _ _ invId hid]
        show getById (replaceFirst (fun r => r.id == some invId)
          (paidInvoice date method now linkedInvoice) invoices) k = _
        rw [getById_replaceFirst invoices (paidInvoice date method now linkedInvoice) invId k hid]
        by_cases hk : k = invId
        · subst hk
          rw [if_pos rfl, if_pos rfl, hg]
          simp [invoiceAfterSettle, hp]
        · rw [if_neg hk, if_neg (fun h => hk (Option.some.inj h).symm)]
      · rw [if_neg hp]
        by_cases hk : invId = k
        · subst hk
          rw [if_pos rfl, hg]
          simp [invoiceAfterSettle, hp]
        · rw [if_neg (fun h => hk (Option.some.inj h))]

theorem settleCredit_invoice (date : Option Nat) (method : String) (now : Nat)
    (acc : Store × Int) (credit : Rec CreditData) (k : Nat) :
    getById (settleCredit date method now acc credit).1.invoices k
      = if Settles acc.2 credit ∧ credit.val.invoiceId = some k then
          (getById acc.1.invoices k).map (invoiceAfterSettle date method now)
        else getById acc.1.invoices k := by
  unfold settleCredit Settles
  simp only
  by_cases hA : acc.2 ≤ 0
  · rw [if_pos hA, if_neg (fun h => absurd h.1.1 (not_lt.2 hA))]
  · rw [if_neg hA]
    simp only
    by_cases hs : credit.val.remainingAmount - min acc.2 credit.val.remainingAmount ≤ 0
    · rw [if_pos hs, markLinkedInvoicePaid_getById]
      by_cases hl : credit.val.invoiceId = some k
      · rw [if_pos hl, if_pos ⟨⟨not_le.1 hA, hs⟩, hl⟩]
      · rw [if_neg hl, if_neg (fun h => hl h.2)]
    · rw [if_neg hs, if_neg (fun h => hs h.1.2)]

/-- The loop leaves alone the invoices that none of the credit entries it goes
over is linked to. -/
theorem settle_fold_invoice_other (date : Option Nat) (method : String) (now : Nat)
    (cs : List (Rec CreditData)) (acc : Store × Int) (k : Nat)
    (hk : ∀ c ∈ cs, c.val.invoiceId ≠ some k) :
    getById (cs.foldl (settleCredit date method now) acc).1.invoices k
      = getById acc.1.invoices k := by
  induction cs generalizing acc with
  | nil => rfl
  | cons c cs ih =>
    rw [List.foldl_cons, ih _ (fun d hd => hk d (List.mem_cons_of_mem _ hd)),
      settleCredit_invoice, if_neg (fun h => hk c (List.mem_cons_self _ _) h.2)]

/-- The loop changes the invoice of a credit entry it goes over exactly when
it settles the entry, no other entry of the loop being linked to the
invoice. -/
theorem settle_fold_invoice (date : Option Nat) (method : String) (now : Nat)
    (pre : List (Rec CreditData)) (c : Rec CreditData) (post : List (Rec CreditData))
    (acc : Store × Int) (k : Nat)
    (hc : c.val.invoiceId = some k)
    (hpre : ∀ d ∈ pre, d.val.invoiceId ≠ some k)
    (hpost : ∀ d ∈ post, d.val.invoiceId ≠ some k) :
    getById ((pre ++ c :: post).foldl (settleCredit date method now) acc).1.invoices k
      = if Settles (amountLeft acc.2 (remainingAmounts pre)) c then
          (getById acc.1.invoices k).map (invoiceAfterSettle date method now)
        else getById acc.1.invoices k := by
  rw [List.foldl_append, List.foldl_cons,
    settle_fold_invoice_other date method now post _ k hpost,
    settleCredit_invoice, settle_fold_amount,
    settle_fold_invoice_other date method now pre acc k hpre]
  by_cases hs : Settles (amountLeft acc.2 (remainingAmounts pre)) c
  · rw [if_pos ⟨hs, hc⟩, if_pos hs]
  · rw [if_neg (fun h => hs h.1), if_neg hs]

theorem savePayment_ok_eq (st : Store) (customerId : Nat) (form : PaymentForm) (now : Nat)
    (amount : Int) (ha : form.amount = some amount) (hpos : 0 < amount) :
    savePayment st customerId form now
      = (.ok, ((pendingCredits st customerId).foldl
          (settleCredit form.date form.method now) (st, amount)).1) := by
  unfold savePayment pendingCredits
  rw [ha]
  simp only
  rw [if_neg (not_le.2 hpos)]

theorem savePayment_rejected_eq (st : Store) (customerId : Nat) (form : PaymentForm) (now : Nat)
    (h : ∀ amount, form.amount = some amount → amount ≤ 0) :
    savePayment st customerId form now = (.rejected "Please enter a valid amount.", st) := by
  unfold savePayment
  cases ha : form.amount with
  | none => rfl
  | some amount =>
    simp only
    rw [if_pos (h amount ha)]

theorem mem_pendingCredits {st : Store} {customerId : Nat} {c : Rec CreditData}
    (h : c ∈ pendingCredits st customerId) :
    c ∈ st.credits ∧ c.val.customerId = customerId ∧ c.val.status = .pending := by
  have h1 := (sortByCreatedAt_perm _).mem_iff.1 h
  rw [List.mem_filter] at h1
  refine ⟨h1.1, ?_⟩
  simpa using h1.2

theorem mem_pendingCredits_of {st : Store} {customerId : Nat} {c : Rec CreditData}
    (hc : c ∈ st.credits) (hcust : c.val.customerId = customerId)
    (hst : c.val.status = .pending) : c ∈ pendingCredits st customerId := by
  apply (sortByCreatedAt_perm _).mem_iff.2
  rw [List.mem_filter]
  exact ⟨hc, by simp [hcust, hst]⟩

theorem pendingCredits_nodup_map {β : Type} (st : Store) (customerId : Nat)
    (f : Rec CreditData → β) (h : (st.credits.map f).Nodup) :
    ((pendingCredits st customerId).map f).Nodup := by
  have hp : ((pendingCredits st customerId).map f).Perm
      ((st.credits.filter
        (fun c => c.val.customerId == customerId && c.val.status == .pending)).map f) :=
    (sortByCreatedAt_perm _).map f
  rw [hp.nodup_iff]
  exact h.sublist ((List.filter_sublist _).map f)

/-- After an accepted `savePayment`, what is stored under the id of a pending
credit entry of the customer. -/
theorem savePayment_credit {st : Store} (hwf : StoreWF st) (customerId : Nat)
    (form : PaymentForm) (now : Nat) (amount : Int)
    (ha : form.amount = some amount) (hpos : 0 < amount)
    (pre : List (Rec CreditData)) (c : Rec CreditData) (post : List (Rec CreditData))
    (hsplit : pendingCredits st customerId = pre ++ c :: post) :
    ∃ i, c.id = some i ∧
      getById (savePayment st customerId form now).2.credits i
        = some (creditAfterLoop form.date form.method now
            (amountLeft amount (remainingAmounts pre)) c) := by
  have hmem : ∀ d ∈ pre ++ c :: post, d ∈ st.credits := by
    intro d hd
    rw [← hsplit] at hd
    exact (mem_pendingCredits hd).1
  have hc : c ∈ st.credits := hmem c (by simp)
  obtain ⟨i, hi, _⟩ := hwf.credits.ids c hc
  refine ⟨i, hi, ?_⟩
  rw [savePayment_ok_eq st customerId form now amount ha hpos, hsplit]
  exact settle_fold_getById form.date form.method now pre c post (st, amount) i
    (fun d hd => by
      obtain ⟨k, hk, _⟩ := hwf.credits.ids d (hmem d hd)
      exact ⟨k, hk⟩)
    (by
      rw [← hsplit]
      exact pendingCredits_nodup_map st customerId _ hwf.credits.ids_nodup)
    hi (getById_of_mem hwf.credits.ids_nodup hc hi)

/-- A `savePayment` call leaves alone what is stored under an id that is not
the id of a pending credit entry of the customer. -/
theorem savePayment_credit_other {st : Store} (hwf : StoreWF st) (customerId : Nat)
    (form : PaymentForm) (now : Nat) (j : Nat)
    (hj : ∀ c ∈ pendingCredits st customerId, c.id ≠ some j) :
    getById (savePayment st customerId form now).2.credits j = getById st.credits j := by
  cases ha : form.amount with
  | none =>
    rw [savePayment_rejected_eq st customerId form now (by intro a h; rw [ha] at h; cases h)]
  | some amount =>
    by_cases hpos : 0 < amount
    · rw [savePayment_ok_eq st customerId form now amount ha hpos]
      exact settle_fold_getById_other form.date form.method now _ (st, amount) j
        (fun d hd => by
          obtain ⟨k, hk, _⟩ := hwf.credits.ids d (mem_pendingCredits hd).1
          exact ⟨k, hk⟩)
        hj
    · rw [savePayment_rejected_eq st customerId form now (by
        intro a h
        rw [ha] at h
        injection h with h
        omega)]

theorem amountLeft_closed (amount : Int) (rs : List Int) (ha : 0 ≤ amount)
    (hr : ∀ r ∈ rs, 0 ≤ r) : amountLeft amount rs = max 0 (amount - rs.sum) := by
  induction rs generalizing amount with
  | nil => simp [amountLeft, ha]
  | cons r rs ih =>
    have hr0 : 0 ≤ r := hr r (List.mem_cons_self _ _)
    have hsum : 0 ≤ rs.sum := List.sum_nonneg (fun x hx => hr x (List.mem_cons_of_mem _ hx))
    unfold amountLeft
    rw [List.sum_cons]
    by_cases h0 : amount ≤ 0
    · rw [if_pos h0]
      omega
    · rw [if_neg h0, ih _ (by omega) (fun x hx => hr x (List.mem_cons_of_mem _ hx))]
      omega

theorem insertByCreatedAt_sorted (a : Rec CreditData) (l : List (Rec CreditData))
    (ha : a.createdAt ≠ none) (hl : ∀ x ∈ l, x.createdAt ≠ none)
    (hs : l.Pairwise EarlierOrSame) : (insertByCreatedAt a l).Pairwise EarlierOrSame := by
  induction l with
  | nil => simp [insertByCreatedAt]
  | cons b bs ih =>
    rw [List.pairwise_cons] at hs
    obtain ⟨s, hsa⟩ := Option.ne_none_iff_exists'.1 ha
    obtain ⟨t, htb⟩ := Option.ne_none_iff_exists'.1 (hl b (List.mem_cons_self _ _))
    unfold insertByCreatedAt
    by_cases hab : createdAfter a b = true
    · rw [if_pos hab]
      have hts : t < s := by simpa [createdAfter, hsa, htb] using hab
      rw [List.pairwise_cons]
      refine ⟨?_, ih (fun x hx => hl x (List.mem_cons_of_mem _ hx)) hs.2⟩
      intro x hx
      have hx1 := (insertByCreatedAt_perm a bs).mem_iff.1 hx
      rw [List.mem_cons] at hx1
      rcases hx1 with hxa | hxa
      · exact ⟨t, s, htb, by rw [hxa]; exact hsa, le_of_lt hts⟩
      · exact hs.1 x hxa
    · rw [if_neg hab]
      have hst : s ≤ t := by
        have : ¬ t < s := by simpa [createdAfter, hsa, htb] using hab
        omega
      rw [List.pairwise_cons]
      refine ⟨?_, List.pairwise_cons.2 hs⟩
      intro x hx
      rcases List.mem_cons.1 hx with hxb | hxb
      · exact ⟨s, t, hsa, by rw [hxb]; exact htb, hst⟩
      · obtain ⟨t1, u, ht1, hu, htu⟩ := hs.1 x hxb
        rw [htb] at ht1
        injection ht1 with ht1
        exact ⟨s, u, hsa, hu, by omega⟩

theorem sortByCreatedAt_sorted (l : List (Rec CreditData))
    (hl : ∀ x ∈ l, x.createdAt ≠ none) : (sortByCreatedAt l).Pairwise EarlierOrSame := by
  induction l with
  | nil => simp [sortByCreatedAt]
  | cons b bs ih =>
    simp only [sortByCreatedAt, List.foldr_cons]
    exact insertByCreatedAt_sorted b _ (hl b (List.mem_cons_self _ _))
      (fun x hx => hl x (List.mem_cons_of_mem _ ((sortByCreatedAt_perm bs).mem_iff.1 hx)))
      (ih (fun x hx => hl x (List.mem_cons_of_mem _ hx)))

theorem savePayment_keys {st : Store} (hwf : StoreWF st) (customerId : Nat)
    (form : PaymentForm) (now : Nat) :
    (savePayment st customerId form now).2.credits.map creditKey
      = st.credits.map creditKey := by
  cases ha : form.amount with
  | none =>
    rw [savePayment_rejected_eq st customerId form now (by intro a h; rw [ha] at h; cases h)]
  | some amount =>
    by_cases hpos : 0 < amount
    · rw [savePayment_ok_eq st customerId form now amount ha hpos]
      exact (settle_fold_keeps form.date form.method now hwf.credits _
        (fun c hc => (mem_pendingCredits hc).1) (st, amount) rfl rfl hwf.invoices).1
    · rw [savePayment_rejected_eq st customerId form now (by
        intro a h
        rw [ha] at h
        injection h with h
        omega)]

/-- After an accepted `savePayment`, what is stored under the id of a credit
entry: the entry itself when it is not a pending entry of the customer, and
what the loop leaves of it otherwise. -/
theorem savePayment_credit_cases {st : Store} (hwf : StoreWF st) (customerId : Nat)
    (form : PaymentForm) (now : Nat) (amount : Int)
    (ha : form.amount = some amount) (hpos : 0 < amount)
    (c : Rec CreditData) (hc : c ∈ st.credits) :
    ∃ i, c.id = some i ∧
      ((c ∉ pendingCredits st customerId ∧
          getById (savePayment st customerId form now).2.credits i = some c) ∨
       (∃ pre post, pendingCredits st customerId = pre ++ c :: post ∧
          getById (savePayment st customerId form now).2.credits i
            = some (creditAfterLoop form.date form.method now
                (amountLeft amount (remainingAmounts pre)) c))) := by
  obtain ⟨i, hi, _⟩ := hwf.credits.ids c hc
  refine ⟨i, hi, ?_⟩
  by_cases hp : c ∈ pendingCredits st customerId
  · obtain ⟨pre, post, hsplit⟩ := List.append_of_mem hp
    obtain ⟨k, hk, hget⟩ :=
      savePayment_credit hwf customerId form now amount ha hpos pre c post hsplit
    rw [hi] at hk
    injection hk with hk
    subst hk
    exact Or.inr ⟨pre, post, hsplit, hget⟩
  · refine Or.inl ⟨hp, ?_⟩
    rw [savePayment_credit_other hwf customerId form now i]
    · exact getById_of_mem hwf.credits.ids_nodup hc hi
    · intro d hd hdi
      have hdc : d = c :=
        List.inj_on_of_nodup_map hwf.credits.ids_nodup (mem_pendingCredits hd).1 hc
          (show d.id = c.id by rw [hdi, hi])
      exact hp (hdc ▸ hd)

theorem mem_of_keys {l l1 : List (Rec CreditData)} (hk : l1.map creditKey = l.map creditKey)
    {c1 : Rec CreditData} (h : c1 ∈ l1) :
    ∃ c ∈ l, c.id = c1.id ∧ c.val.invoiceId = c1.val.invoiceId := by
  obtain ⟨c, hc, hkc⟩ := exists_mem_of_map_eq hk h
  exact ⟨c, hc, congrArg Prod.fst hkc, congrArg Prod.snd hkc⟩

theorem creditAfterLoop_remaining (date : Option Nat) (method : String) (now : Nat)
    (amount : Int) (c : Rec CreditData) :
    (creditAfterLoop date method now amount c).val.remainingAmount
      = if amount ≤ 0 then c.val.remainingAmount
        else c.val.remainingAmount - min amount c.val.remainingAmount := by
  unfold creditAfterLoop
  split <;> rfl

theorem creditAfter_of_getById {st1 : Store} {c c1 : Rec CreditData} {i : Nat}
    (hi : c.id = some i) (hg : getById st1.credits i = some c1) : creditAfter st1 c = c1 := by
  unfold creditAfter
  rw [hi]
  simp only
  rw [hg]
  rfl

/-- Summing, over the credit entries the loop goes over, a quantity that the
loop body moves by the payment it allocates gives the amount used up. -/
theorem loop_sum (delta : Rec CreditData → Int) (amount : Int)
    (l pre0 : List (Rec CreditData))
    (h : ∀ pre c post, l = pre ++ c :: post →
      delta c = if amountLeft amount (remainingAmounts (pre0 ++ pre)) ≤ 0 then 0
        else min (amountLeft amount (remainingAmounts (pre0 ++ pre))) c.val.remainingAmount) :
    (l.map delta).sum
      = amountLeft amount (remainingAmounts pre0)
        - amountLeft amount (remainingAmounts (pre0 ++ l)) := by
  induction l generalizing pre0 with
  | nil => simp
  | cons c cs ih =>
    have hc := h [] c cs rfl
    rw [List.append_nil] at hc
    have ih1 := ih (pre0 ++ [c]) (by
      intro pre d post hsplit
      have := h (c :: pre) d post (by rw [hsplit]; rfl)
      simpa using this)
    rw [List.map_cons, List.sum_cons, hc]
    have hstep : amountLeft amount (remainingAmounts (pre0 ++ [c]))
        = if amountLeft amount (remainingAmounts pre0) ≤ 0 then
            amountLeft amount (remainingAmounts pre0)
          else amountLeft amount (remainingAmounts pre0)
            - min (amountLeft amount (remainingAmounts pre0)) c.val.remainingAmount := by
      simp only [remainingAmounts, List.map_append, List.map_cons, List.map_nil]
      rw [amountLeft_append]
      rfl
    have happ : pre0 ++ c :: cs = pre0 ++ [c] ++ cs := by simp
    rw [happ, ih1, hstep]
    split <;> omega

theorem sum_filter_pending (delta : Rec CreditData → Int) (customerId : Nat)
    (l : List (Rec CreditData))
    (h : ∀ c ∈ l, c.val.customerId = customerId → c.val.status ≠ .pending → delta c = 0) :
    ((l.filter (fun c => c.val.customerId == customerId)).map delta).sum
      = ((l.filter
          (fun c => c.val.customerId == customerId && c.val.status == .pending)).map
            delta).sum := by
  induction l with
  | nil => rfl
  | cons c cs ih =>
    have ih1 := ih (fun d hd => h d (List.mem_cons_of_mem _ hd))
    by_cases hcust : c.val.customerId = customerId
    · by_cases hst : c.val.status = .pending
      · simp [List.filter_cons, hcust, hst, ih1]
      · have h0 := h c (List.mem_cons_self _ _) hcust hst
        simp [List.filter_cons, hcust, hst, ih1, h0]
    · simp [List.filter_cons, hcust, ih1]

/-- With more money than is outstanding the loop leaves the same store,
whatever the amount. -/
theorem settle_fold_excess (date : Option Nat) (method : String) (now : Nat)
    (cs : List (Rec CreditData)) (st : Store) (a b : Int)
    (hr : ∀ c ∈ cs, 0 ≤ c.val.remainingAmount)
    (ha : (remainingAmounts cs).sum < a) (hb : (remainingAmounts cs).sum < b) :
    (cs.foldl (settleCredit date method now) (st, a)).1
      = (cs.foldl (settleCredit date method now) (st, b)).1 := by
  induction cs generalizing st a b with
  | nil => rfl
  | cons c cs ih =>
    have hc : 0 ≤ c.val.remainingAmount := hr c (List.mem_cons_self _ _)
    have hsum : 0 ≤ (remainingAmounts cs).sum :=
      List.sum_nonneg (fun x hx => by
        obtain ⟨d, hd, hdx⟩ := List.mem_map.1 hx
        rw [← hdx]
        exact hr d (List.mem_cons_of_mem _ hd))
    simp only [remainingAmounts, List.map_cons, List.sum_cons] at ha hb
    have hsum1 : 0 ≤ (List.map (fun c => c.val.remainingAmount) cs).sum := hsum
    have hma : min a c.val.remainingAmount = c.val.remainingAmount := by omega
    have hmb : min b c.val.remainingAmount = c.val.remainingAmount := by omega
    have ha0 : ¬ a ≤ 0 := by omega
    have hb0 : ¬ b ≤ 0 := by omega
    have h1 : (settleCredit date method now (st, b) c).1
        = (settleCredit date method now (st, a) c).1 := by
      unfold settleCredit
      simp only [if_neg ha0, if_neg hb0, hma, hmb]
    have h2a : (settleCredit date method now (st, a) c).2 = a - c.val.remainingAmount := by
      unfold settleCredit
      simp only [if_neg ha0, hma]
    have h2b : (settleCredit date method now (st, b) c).2 = b - c.val.remainingAmount := by
      unfold settleCredit
      simp only [if_neg hb0, hmb]
    have hsa : settleCredit date method now (st, a) c
        = ((settleCredit date method now (st, a) c).1, a - c.val.remainingAmount) := by
      rw [← h2a]
    have hsb : settleCredit date method now (st, b) c
        = ((settleCredit date method now (st, a) c).1, b - c.val.remainingAmount) := by
      rw [← h2b, ← h1]
    rw [List.foldl_cons, List.foldl_cons, hsa, hsb]
    exact ih _ _ _ (fun d hd => hr d (List.mem_cons_of_mem _ hd))
      (by show (List.map (fun c => c.val.remainingAmount) cs).sum < _; omega)
      (by show (List.map (fun c => c.val.remainingAmount) cs).sum < _; omega)

/-! ## Lemmas for the claims on payments and deletion -/

theorem twoDebtsStore_reachable : Reachable twoDebtsStore :=
  Reachable.saveInvoice none _ 200 (Reachable.saveInvoice none _ 100 Reachable.init)

theorem nodup_map_split {α β : Type} (f : α → β) (pre : List α) (c : α) (post : List α)
    (h : ((pre ++ c :: post).map f).Nodup) :
    (∀ d ∈ pre, f d ≠ f c) ∧ (∀ d ∈ post, f d ≠ f c) := by
  rw [List.map_append, List.map_cons, List.nodup_append] at h
  obtain ⟨_, h2, h3⟩ := h
  rw [List.nodup_cons] at h2
  refine ⟨?_, ?_⟩
  · intro d hd hfd
    exact h3 (List.mem_map_of_mem f hd) (by rw [hfd]; exact List.mem_cons_self _ _)
  · intro d hd hfd
    exact h2.1 (by rw [← hfd]; exact List.mem_map_of_mem f hd)

theorem paymentsTotal_append (l : List Payment) (p : Payment) :
    paymentsTotal (l ++ [p]) = paymentsTotal l + p.amount := by
  simp [paymentsTotal]

/-- What an accepted `savePayment` leaves under the id of a pending credit
entry of the customer, as `creditAfter` reads it. -/
theorem creditAfter_pending {st : Store} (hwf : StoreWF st) (customerId : Nat)
    (form : PaymentForm) (now : Nat) (amount : Int)
    (ha : form.amount = some amount) (hpos : 0 < amount)
    (pre : List (Rec CreditData)) (c : Rec CreditData) (post : List (Rec CreditData))
    (hsplit : pendingCredits st customerId = pre ++ c :: post) :
    creditAfter (savePayment st customerId form now).2 c
      = creditAfterLoop form.date form.method now (amountLeft amount (remainingAmounts pre)) c := by
  obtain ⟨i, hi, hget⟩ :=
    savePayment_credit hwf customerId form now amount ha hpos pre c post hsplit
  exact creditAfter_of_getById hi hget

theorem eq_of_filter_length_le_one {α : Type} (p : α → Bool) (l : List α)
    (h : (l.filter p).length ≤ 1) {a b : α} (ha : a ∈ l) (hb : b ∈ l)
    (hpa : p a = true) (hpb : p b = true) : a = b := by
  have ha1 : a ∈ l.filter p := List.mem_filter.2 ⟨ha, hpa⟩
  have hb1 : b ∈ l.filter p := List.mem_filter.2 ⟨hb, hpb⟩
  cases hl : l.filter p with
  | nil => rw [hl] at ha1; cases ha1
  | cons x xs =>
    rw [hl] at h ha1 hb1
    cases xs with
    | nil =>
      rw [List.mem_singleton] at ha1 hb1
      rw [ha1, hb1]
    | cons y ys =>
      simp only [List.length_cons] at h
      omega

/-- What an accepted `saveQuotation` did. -/
theorem saveQuotation_ok {st : Store} {quotationId : Option Nat} {form : QuotationForm}
    {now : Nat} (h : (saveQuotation st quotationId form now).1 = .ok) :
    ∃ customerId, form.customerId = some customerId ∧
      ((quotationId = none ∧
          (saveQuotation st quotationId form now).2
            = writeQuotation st none none customerId form now) ∨
       (∃ i ex, quotationId = some i ∧ getById st.quotations i = some ex ∧
          (saveQuotation st quotationId form now).2
            = writeQuotation st (some i) (some ex) customerId form now)) := by
  unfold saveQuotation at h ⊢
  cases hc : form.customerId with
  | none => simp [hc] at h
  | some customerId =>
    simp only [hc] at h ⊢
    by_cases h1 : form.rows.length = 0 ∨
        ¬ (form.rows.any (fun item => item.productId.isSome)) = true
    · rw [if_pos h1] at h
      cases h
    · rw [if_neg h1] at h ⊢
      refine ⟨customerId, rfl, ?_⟩
      cases quotationId with
      | none => exact Or.inl ⟨rfl, rfl⟩
      | some i =>
        simp only at h ⊢
        cases hg : getById st.quotations i with
        | none =>
          rw [hg] at h
          cases h
        | some ex => exact Or.inr ⟨i, ex, rfl, hg, rfl⟩

theorem convertedStore_reachable : Reachable convertedStore :=
  Reachable.convertToInvoice 1 true 200 (Reachable.saveQuotation none _ 100 Reachable.init)

theorem save_fresh {α : Type} (l : List (Rec α)) (v : α) (now n : Nat) :
    save l { id := none, createdAt := none, updatedAt := none, val := v } now n
      = (l ++ [{ id := some n, createdAt := some now, updatedAt := none, val := v }],
          { id := some n, createdAt := some now, updatedAt := none, val := v }, n + 1) := by
  rfl

/-! ## Invoices written by `saveInvoice` keep a credit entry -/

theorem save_mem {α : Type} {l : List (Rec α)} {x r : Rec α} {now n : Nat}
    (h : r ∈ (save l x now n).1) : r ∈ l ∨ r.id = (save l x now n).2.1.id := by
  unfold save at h ⊢
  cases hx : x.id with
  | none =>
    simp only [hx] at h ⊢
    rcases List.mem_append.1 h with h1 | h1
    · exact Or.inl h1
    · rw [List.mem_singleton] at h1
      exact Or.inr (by rw [h1])
  | some i =>
    simp only [hx] at h ⊢
    rcases mem_replaceFirst h with h1 | h1
    · exact Or.inr (by rw [h1])
    · exact Or.inl h1

theorem links_of_keys {l l1 : List (Rec CreditData)}
    (hk : l1.map creditKey = l.map creditKey) :
    l1.map (fun c => c.val.invoiceId) = l.map (fun c => c.val.invoiceId) := by
  have := congrArg (List.map Prod.snd) hk
  simpa [List.map_map, Function.comp_def, creditKey] using this

/-- The reconciliation keeps every link of the credits collection and leaves
a credit entry linked to the saved invoice. -/
theorem reconcileCredit_links {credits : List (Rec CreditData)}
    (savedInvoice : Rec InvoiceData) (partialPayment newPayment : Int) (now : Nat) {n : Nat}
    (h : CreditsWF credits n) :
    (∀ x ∈ credits.map (fun c => c.val.invoiceId),
      x ∈ (reconcileCredit credits savedInvoice partialPayment newPayment now n).1.map
        (fun c => c.val.invoiceId)) ∧
    savedInvoice.id ∈ (reconcileCredit credits savedInvoice partialPayment newPayment now n).1.map
      (fun c => c.val.invoiceId) := by
  have hlinked : ∀ linked, credits.find? (fun c => c.val.invoiceId == savedInvoice.id)
      = some linked → ∀ v : CreditData, v.invoiceId = linked.val.invoiceId →
      (∀ x ∈ credits.map (fun c => c.val.invoiceId),
        x ∈ (save credits { linked with val := v } now n).1.map (fun c => c.val.invoiceId)) ∧
      savedInvoice.id ∈ (save credits { linked with val := v } now n).1.map
        (fun c => c.val.invoiceId) := by
    intro linked hf v hv
    have hmem : linked ∈ credits := List.mem_of_find?_eq_some hf
    have hl0 := List.find?_some hf
    have hl : linked.val.invoiceId = savedInvoice.id := by simpa using hl0
    have hs := save_credit_val_keys now h (List.mem_map_of_mem creditKey hmem) v hv
    rw [links_of_keys hs.1]
    exact ⟨fun x hx => hx, by
      rw [← hl]
      exact List.mem_map_of_mem (fun c : Rec CreditData => c.val.invoiceId) hmem⟩
  have hnone : ∀ v : CreditData, v.invoiceId = savedInvoice.id →
      (∀ x ∈ credits.map (fun c => c.val.invoiceId),
        x ∈ (save credits { id := none, createdAt := none, updatedAt := none, val := v }
          now n).1.map (fun c => c.val.invoiceId)) ∧
      savedInvoice.id ∈ (save credits
        { id := none, createdAt := none, updatedAt := none, val := v } now n).1.map
          (fun c => c.val.invoiceId) := by
    intro v hv
    rw [save_fresh]
    simp only [List.map_append, List.map_cons, List.map_nil, List.mem_append,
      List.mem_singleton]
    exact ⟨fun x hx => Or.inl hx, Or.inr hv.symm⟩
  unfold reconcileCredit
  cases hst : savedInvoice.val.status <;> simp only
  · cases hf : credits.find? (fun c => c.val.invoiceId == savedInvoice.id) with
    | some linked => exact hlinked linked hf _ rfl
    | none =>
      simp only
      split
      · exact hnone _ rfl
      · exact hnone _ rfl
  · cases hf : credits.find? (fun c => c.val.invoiceId == savedInvoice.id) with
    | some linked => exact hlinked linked hf _ rfl
    | none => exact hnone _ rfl

theorem writeInvoice_linked {st : Store} (invoiceId : Option Nat)
    (existingInvoice : Option (Rec InvoiceData)) (customerId : Nat) (form : InvoiceForm)
    (now : Nat) (hwf : StoreWF st) (h : SavedInvoicesLinked st) :
    SavedInvoicesLinked (writeInvoice st invoiceId existingInvoice customerId form now) := by
  intro inv hinv hconv
  have hrc := reconcileCredit_links
    (save st.invoices
      (buildInvoice st invoiceId existingInvoice customerId form now) now st.nextId).2.1
    form.partialPayment form.newPayment now
    (hwf.credits.raise (save_supply_ge st.invoices
      (buildInvoice st invoiceId existingInvoice customerId form now) now st.nextId))
  have hinv1 : inv ∈ (save st.invoices
      (buildInvoice st invoiceId existingInvoice customerId form now) now st.nextId).1 := hinv
  rcases save_mem hinv1 with hold | hnew
  · exact hrc.1 _ (h inv hold hconv)
  · rw [hnew]
    exact hrc.2

theorem saveInvoice_linked {st : Store} (invoiceId : Option Nat) (form : InvoiceForm)
    (now : Nat) (hwf : StoreWF st) (h : SavedInvoicesLinked st) :
    SavedInvoicesLinked (saveInvoice st invoiceId form now).2 := by
  by_cases hok : (saveInvoice st invoiceId form now).1 = .ok
  · obtain ⟨_, customerId, _, hw⟩ := saveInvoice_ok hok
    rcases hw with ⟨_, hw⟩ | ⟨i, ex, _, _, hw⟩
    · rw [hw]
      exact writeInvoice_linked _ _ _ _ _ hwf h
    · rw [hw]
      exact writeInvoice_linked _ _ _ _ _ hwf h
  · have hsame : (saveInvoice st invoiceId form now).2 = st := by
      unfold saveInvoice at hok ⊢
      cases hc : form.customerId with
      | none => rfl
      | some customerId =>
        simp only [hc] at hok ⊢
        split
        · rfl
        · split
          · rfl
          · rename_i h1 h2
            rw [if_neg h1, if_neg h2] at hok
            cases invoiceId with
            | none => exact absurd rfl hok
            | some i =>
              simp only at hok ⊢
              cases hg : getById st.invoices i with
              | none => rfl
              | some ex =>
                rw [hg] at hok
                exact absurd rfl hok
    rw [hsame]
    exact h

theorem markLinkedInvoicePaid_mem_key (invoices : List (Rec InvoiceData)) (link : Option Nat)
    (date : Option Nat) (method : String) (now n : Nat) (r : Rec InvoiceData)
    (h : r ∈ markLinkedInvoicePaid invoices link date method now n) :
    invoiceKey r ∈ invoices.map invoiceKey := by
  unfold markLinkedInvoicePaid at h
  cases link with
  | none => exact List.mem_map_of_mem invoiceKey h
  | some invId =>
    simp only at h
    cases hg : getById invoices invId with
    | none =>
      rw [hg] at h
      exact List.mem_map_of_mem invoiceKey h
    | some linkedInvoice =>
      rw [hg] at h
      simp only at h
      split at h
      · rw [save_existing _ _ _ _ _ invId (getById_id hg)] at h
        rcases mem_replaceFirst h with h1 | h1
        · rw [h1]
          have hm := List.mem_map_of_mem invoiceKey (getById_mem hg)
          exact hm
        · exact List.mem_map_of_mem invoiceKey h1
      · exact List.mem_map_of_mem invoiceKey h

theorem settle_fold_invoice_keys (date : Option Nat) (method : String) (now : Nat)
    (cs : List (Rec CreditData)) (acc : Store × Int) (r : Rec InvoiceData)
    (h : r ∈ (cs.foldl (settleCredit date method now) acc).1.invoices) :
    invoiceKey r ∈ acc.1.invoices.map invoiceKey := by
  induction cs generalizing acc with
  | nil => exact List.mem_map_of_mem invoiceKey h
  | cons c cs ih =>
    rw [List.foldl_cons] at h
    have h1 := ih _ h
    obtain ⟨r1, hr1, hk1⟩ := List.mem_map.1 h1
    rw [← hk1]
    unfold settleCredit at hr1
    simp only at hr1
    split at hr1
    · exact List.mem_map_of_mem invoiceKey hr1
    · simp only at hr1
      split at hr1
      · exact markLinkedInvoicePaid_mem_key _ _ _ _ _ _ _ hr1
      · exact List.mem_map_of_mem invoiceKey hr1

theorem savePayment_linked {st : Store} (customerId : Nat) (form : PaymentForm) (now : Nat)
    (hwf : StoreWF st) (h : SavedInvoicesLinked st) :
    SavedInvoicesLinked (savePayment st customerId form now).2 := by
  intro inv hinv hconv
  rw [links_of_keys (savePayment_keys hwf customerId form now)]
  have hkey : invoiceKey inv ∈ st.invoices.map invoiceKey := by
    by_cases hok : ∃ amount, form.amount = some amount ∧ 0 < amount
    · obtain ⟨amount, ha, hpos⟩ := hok
      rw [savePayment_ok_eq st customerId form now amount ha hpos] at hinv
      exact settle_fold_invoice_keys form.date form.method now _ (st, amount) inv hinv
    · rw [savePayment_rejected_eq st customerId form now (by
        intro a h
        by_contra hn
        exact hok ⟨a, h, by omega⟩)] at hinv
      exact List.mem_map_of_mem invoiceKey hinv
  obtain ⟨inv0, hinv0, hk⟩ := List.mem_map.1 hkey
  have hid : inv0.id = inv.id := congrArg Prod.fst hk
  have hcf : inv0.val.convertedFrom = inv.val.convertedFrom := congrArg Prod.snd hk
  rw [← hid]
  exact h inv0 hinv0 (by rw [hcf]; exact hconv)

theorem deleteInvoice_linked {st : Store} (invoiceId : Nat) (confirmed : Bool)
    (hwf : StoreWF st) (h : SavedInvoicesLinked st) :
    SavedInvoicesLinked (deleteInvoice st invoiceId confirmed).2 := by
  unfold deleteInvoice
  cases confirmed with
  | false => exact h
  | true =>
    simp only [if_true]
    intro inv hinv hconv
    have hinv1 : inv ∈ st.invoices.filter (fun r => r.id != some invoiceId) := hinv
    rw [List.mem_filter] at hinv1
    have hne : inv.id ≠ some invoiceId := by simpa using hinv1.2
    obtain ⟨c, hc, hcl⟩ := List.mem_map.1 (h inv hinv1.1 hconv)
    show inv.id ∈ (match st.credits.find?
        (fun c : Rec CreditData => c.val.invoiceId == some invoiceId) with
      | some credit => delete st.credits credit.id
      | none => st.credits).map (fun c : Rec CreditData => c.val.invoiceId)
    cases hf : st.credits.find? (fun c => c.val.invoiceId == some invoiceId) with
    | none => exact h inv hinv1.1 hconv
    | some credit =>
      simp only
      have hcm : credit ∈ st.credits := List.mem_of_find?_eq_some hf
      have hcl0 := List.find?_some hf
      have hcredit : credit.val.invoiceId = some invoiceId := by simpa using hcl0
      have hkeep : c ∈ delete st.credits credit.id := by
        unfold delete
        rw [List.mem_filter]
        refine ⟨hc, bne_iff_ne.2 ?_⟩
        intro hid
        have hcc : c = credit := List.inj_on_of_nodup_map hwf.credits.ids_nodup hc hcm hid
        apply hne
        rw [← hcl, hcc, hcredit]
      rw [← hcl]
      exact List.mem_map_of_mem (fun c : Rec CreditData => c.val.invoiceId) hkeep

theorem convertToInvoice_linked {st : Store} (quotationId : Nat) (confirmed : Bool)
    (now : Nat) (h : SavedInvoicesLinked st) :
    SavedInvoicesLinked (convertToInvoice st quotationId confirmed now).2 := by
  unfold convertToInvoice
  cases hg : getById st.quotations quotationId with
  | none => exact h
  | some quotation =>
    simp only
    cases confirmed with
    | false => exact h
    | true =>
      simp only [if_true, save_fresh]
      intro inv hinv hconv
      have hinv1 : inv ∈ st.invoices ++ [_] := hinv
      rcases List.mem_append.1 hinv1 with h1 | h1
      · exact h inv h1 hconv
      · rw [List.mem_singleton] at h1
        rw [h1] at hconv
        cases hconv

theorem saveQuotation_linked {st : Store} (quotationId : Option Nat) (form : QuotationForm)
    (now : Nat) (h : SavedInvoicesLinked st) :
    SavedInvoicesLinked (saveQuotation st quotationId form now).2 := by
  have hsame : (saveQuotation st quotationId form now).2.invoices = st.invoices ∧
      (saveQuotation st quotationId form now).2.credits = st.credits := by
    unfold saveQuotation
    cases form.customerId with
    | none => exact ⟨rfl, rfl⟩
    | some customerId =>
      simp only
      split
      · exact ⟨rfl, rfl⟩
      · cases quotationId with
        | none => exact ⟨rfl, rfl⟩
        | some i =>
          simp only
          cases getById st.quotations i with
          | none => exact ⟨rfl, rfl⟩
          | some ex => exact ⟨rfl, rfl⟩
  intro inv hinv hconv
  rw [hsame.1] at hinv
  rw [hsame.2]
  exact h inv hinv hconv

/-- In every reachable store the invoices written by `saveInvoice` have a
credit entry. -/
theorem Reachable.linked {st : Store} (h : Reachable st) : SavedInvoicesLinked st := by
  induction h with
  | init => intro inv hinv; cases hinv
  | saveInvoice invoiceId form now hr ih => exact saveInvoice_linked invoiceId form now hr.wf ih
  | savePayment customerId form now hr ih => exact savePayment_linked customerId form now hr.wf ih
  | deleteInvoice invoiceId confirmed hr ih =>
    exact deleteInvoice_linked invoiceId confirmed hr.wf ih
  | convertToInvoice quotationId confirmed now _ ih =>
    exact convertToInvoice_linked quotationId confirmed now ih
  | saveQuotation quotationId form now _ ih => exact saveQuotation_linked quotationId form now ih

/-! ## Credit entries of reachable stores carry a `createdAt` stamp -/

theorem save_stamped {α : Type} {l : List (Rec α)} (x : Rec α) (now n : Nat)
    (hl : ∀ r ∈ l, r.createdAt ≠ none) (hx : x.id ≠ none → x.createdAt ≠ none) :
    ∀ r ∈ (save l x now n).1, r.createdAt ≠ none := by
  intro r hr
  unfold save at hr
  cases hid : x.id with
  | none =>
    simp only [hid] at hr
    rcases List.mem_append.1 hr with h1 | h1
    · exact hl r h1
    · rw [List.mem_singleton] at h1
      rw [h1]
      intro hc
      cases hc
  | some i =>
    simp only [hid] at hr
    rcases mem_replaceFirst hr with h1 | h1
    · rw [h1]
      exact hx (by rw [hid]; intro hc; cases hc)
    · exact hl r h1

theorem reconcileCredit_stamped {credits : List (Rec CreditData)}
    (savedInvoice : Rec InvoiceData) (partialPayment newPayment : Int) (now n : Nat)
    (h : ∀ c ∈ credits, c.createdAt ≠ none) :
    ∀ c ∈ (reconcileCredit credits savedInvoice partialPayment newPayment now n).1,
      c.createdAt ≠ none := by
  have hlinked : ∀ linked, credits.find? (fun c => c.val.invoiceId == savedInvoice.id)
      = some linked → ∀ v : CreditData,
      ∀ c ∈ (save credits { linked with val := v } now n).1, c.createdAt ≠ none := by
    intro linked hf v
    exact save_stamped _ now n h (fun _ => h linked (List.mem_of_find?_eq_some hf))
  have hnone : ∀ v : CreditData,
      ∀ c ∈ (save credits { id := none, createdAt := none, updatedAt := none, val := v }
        now n).1, c.createdAt ≠ none := by
    intro v
    exact save_stamped _ now n h (fun hc => absurd rfl hc)
  unfold reconcileCredit
  cases hst : savedInvoice.val.status <;> simp only
  · cases hf : credits.find? (fun c => c.val.invoiceId == savedInvoice.id) with
    | some linked => exact hlinked linked hf _
    | none =>
      simp only
      split
      · exact hnone _
      · exact hnone _
  · cases hf : credits.find? (fun c => c.val.invoiceId == savedInvoice.id) with
    | some linked => exact hlinked linked hf _
    | none => exact hnone _

theorem saveInvoice_stamped {st : Store} (invoiceId : Option Nat) (form : InvoiceForm)
    (now : Nat) (h : ∀ c ∈ st.credits, c.createdAt ≠ none) :
    ∀ c ∈ (saveInvoice st invoiceId form now).2.credits, c.createdAt ≠ none := by
  have hw : ∀ existing customerId,
      ∀ c ∈ (writeInvoice st invoiceId existing customerId form now).credits,
        c.createdAt ≠ none := by
    intro existing customerId
    exact reconcileCredit_stamped _ form.partialPayment form.newPayment now _ h
  unfold saveInvoice
  cases form.customerId with
  | none => exact h
  | some customerId =>
    simp only
    split
    · exact h
    · split
      · exact h
      · cases invoiceId with
        | none => exact hw none customerId
        | some i =>
          simp only
          cases hg : getById st.invoices i with
          | none => exact h
          | some ex => exact hw (some ex) customerId

theorem settle_fold_stamped (date : Option Nat) (method : String) (now : Nat)
    (cs : List (Rec CreditData)) (hcs : ∀ c ∈ cs, c.createdAt ≠ none) (acc : Store × Int)
    (h : ∀ c ∈ acc.1.credits, c.createdAt ≠ none) :
    ∀ c ∈ (cs.foldl (settleCredit date method now) acc).1.credits, c.createdAt ≠ none := by
  induction cs generalizing acc with
  | nil => exact h
  | cons c cs ih =>
    rw [List.foldl_cons]
    apply ih (fun d hd => hcs d (List.mem_cons_of_mem _ hd))
    unfold settleCredit
    simp only
    split
    · exact h
    · exact save_stamped _ now _ h (fun _ => hcs c (List.mem_cons_self _ _))

theorem savePayment_stamped {st : Store} (customerId : Nat) (form : PaymentForm) (now : Nat)
    (h : ∀ c ∈ st.credits, c.createdAt ≠ none) :
    ∀ c ∈ (savePayment st customerId form now).2.credits, c.createdAt ≠ none := by
  unfold savePayment
  cases form.amount with
  | none => exact h
  | some amountReceived =>
    simp only
    split
    · exact h
    · exact settle_fold_stamped form.date form.method now _
        (fun c hc => h c (List.mem_of_mem_filter (mem_sortByCreatedAt hc)))
        (st, amountReceived) h

theorem deleteInvoice_stamped {st : Store} (invoiceId : Nat) (confirmed : Bool)
    (h : ∀ c ∈ st.credits, c.createdAt ≠ none) :
    ∀ c ∈ (deleteInvoice st invoiceId confirmed).2.credits, c.createdAt ≠ none := by
  unfold deleteInvoice
  cases confirmed with
  | false => exact h
  | true =>
    simp only [if_true]
    cases hf : st.credits.find? (fun c => c.val.invoiceId == some invoiceId) with
    | none => exact h
    | some credit =>
      intro c hc
      exact h c (List.mem_of_mem_filter hc)

theorem convertToInvoice_credits (st : Store) (quotationId : Nat) (confirmed : Bool)
    (now : Nat) : (convertToInvoice st quotationId confirmed now).2.credits = st.credits := by
  unfold convertToInvoice
  cases getById st.quotations quotationId with
  | none => rfl
  | some quotation =>
    simp only
    cases confirmed with
    | false => rfl
    | true => rfl

theorem saveQuotation_credits (st : Store) (quotationId : Option Nat) (form : QuotationForm)
    (now : Nat) : (saveQuotation st quotationId form now).2.credits = st.credits := by
  unfold saveQuotation
  cases form.customerId with
  | none => rfl
  | some customerId =>
    simp only
    split
    · rfl
    · cases quotationId with
      | none => rfl
      | some i =>
        simp only
        cases getById st.quotations i with
        | none => rfl
        | some ex => rfl

/-- In every reachable store each credit entry has a `createdAt` stamp, the
key `savePayment` sorts by. -/
theorem Reachable.stamped {st : Store} (h : Reachable st) :
    ∀ c ∈ st.credits, c.createdAt ≠ none := by
  induction h with
  | init => intro c hc; cases hc
  | saveInvoice invoiceId form now _ ih => exact saveInvoice_stamped invoiceId form now ih
  | savePayment customerId form now _ ih => exact savePayment_stamped customerId form now ih
  | deleteInvoice invoiceId confirmed _ ih => exact deleteInvoice_stamped invoiceId confirmed ih
  | convertToInvoice quotationId confirmed now _ ih =>
    rw [convertToInvoice_credits]
    exact ih
  | saveQuotation quotationId form now _ ih =>
    rw [saveQuotation_credits]
    exact ih

/-! ## Lemmas on `save` as a whole -/

theorem getById_append_fresh {α : Type} (l : List (Rec α)) (x : Rec α) (n : Nat)
    (hx : x.id = some n) (hfresh : ∀ r ∈ l, r.id ≠ some n) :
    getById (l ++ [x]) n = some x := by
  unfold getById
  rw [List.find?_append]
  have hnone : l.find? (fun r => r.id == some n) = none := by
    rw [List.find?_eq_none]
    intro r hr
    simpa using hfresh r hr
  rw [hnone]
  simp [hx]

theorem getById_append_other {α : Type} (l : List (Rec α)) (x : Rec α) (n j : Nat)
    (hx : x.id = some n) (hj : j ≠ n) :
    getById (l ++ [x]) j = getById l j := by
  unfold getById
  rw [List.find?_append]
  have hx1 : ([x].find? (fun r => r.id == some j)) = none := by
    rw [List.find?_eq_none]
    intro r hr
    rw [List.mem_singleton] at hr
    rw [hr, hx]
    simpa using fun h => hj h.symm
  rw [hx1]
  cases l.find? (fun r => r.id == some j) <;> rfl

theorem replaceFirst_absent {α : Type} (p : α → Bool) (x : α) (l : List α)
    (h : l.find? p = none) : replaceFirst p x l = l := by
  induction l with
  | nil => rfl
  | cons y ys ih =>
    rw [List.find?_cons] at h
    unfold replaceFirst
    cases hp : p y with
    | true => rw [hp] at h; cases h
    | false =>
      rw [hp] at h
      simp only [Bool.false_eq_true, if_false]
      rw [ih h]

theorem length_replaceFirst {α : Type} (p : α → Bool) (x : α) (l : List α) :
    (replaceFirst p x l).length = l.length := by
  induction l with
  | nil => rfl
  | cons y ys ih =>
    unfold replaceFirst
    split
    · rfl
    · simp only [List.length_cons, ih]

/-! ## What the operations leave of the counters and of the other collections -/

theorem settleCredit_frame (date : Option Nat) (method : String) (now : Nat)
    (acc : Store × Int) (credit : Rec CreditData) :
    (settleCredit date method now acc credit).1.products = acc.1.products ∧
    (settleCredit date method now acc credit).1.customers = acc.1.customers ∧
    (settleCredit date method now acc credit).1.quotations = acc.1.quotations ∧
    (settleCredit date method now acc credit).1.counters = acc.1.counters ∧
    (settleCredit date method now acc credit).1.settings = acc.1.settings := by
  unfold settleCredit
  simp only
  split
  · exact ⟨rfl, rfl, rfl, rfl, rfl⟩
  · exact ⟨rfl, rfl, rfl, rfl, rfl⟩

theorem settle_fold_frame (date : Option Nat) (method : String) (now : Nat)
    (cs : List (Rec CreditData)) (acc : Store × Int) :
    (cs.foldl (settleCredit date method now) acc).1.products = acc.1.products ∧
    (cs.foldl (settleCredit date method now) acc).1.customers = acc.1.customers ∧
    (cs.foldl (settleCredit date method now) acc).1.quotations = acc.1.quotations ∧
    (cs.foldl (settleCredit date method now) acc).1.counters = acc.1.counters ∧
    (cs.foldl (settleCredit date method now) acc).1.settings = acc.1.settings := by
  induction cs generalizing acc with
  | nil => exact ⟨rfl, rfl, rfl, rfl, rfl⟩
  | cons c cs ih =>
    rw [List.foldl_cons]
    obtain ⟨h1, h2, h3, h4, h5⟩ := ih (settleCredit date method now acc c)
    obtain ⟨k1, k2, k3, k4, k5⟩ := settleCredit_frame date method now acc c
    exact ⟨h1.trans k1, h2.trans k2, h3.trans k3, h4.trans k4, h5.trans k5⟩

theorem savePayment_frame (st : Store) (customerId : Nat) (form : PaymentForm) (now : Nat) :
    (savePayment st customerId form now).2.products = st.products ∧
    (savePayment st customerId form now).2.customers = st.customers ∧
    (savePayment st customerId form now).2.quotations = st.quotations ∧
    (savePayment st customerId form now).2.counters = st.counters ∧
    (savePayment st customerId form now).2.settings = st.settings := by
  unfold savePayment
  cases form.amount with
  | none => exact ⟨rfl, rfl, rfl, rfl, rfl⟩
  | some amountReceived =>
    simp only
    split
    · exact ⟨rfl, rfl, rfl, rfl, rfl⟩
    · exact settle_fold_frame form.date form.method now _ (st, amountReceived)

theorem saveInvoice_not_ok {st : Store} {invoiceId : Option Nat} {form : InvoiceForm}
    {now : Nat} (h : (saveInvoice st invoiceId form now).1 ≠ .ok) :
    (saveInvoice st invoiceId form now).2 = st := by
  unfold saveInvoice at h ⊢
  cases hc : form.customerId with
  | none => rfl
  | some customerId =>
    rw [hc] at h
    simp only at h ⊢
    split
    · rfl
    · split
      · rfl
      · rename_i h1 h2
        rw [if_neg h1, if_neg h2] at h
        cases invoiceId with
        | none => exact absurd rfl h
        | some i =>
          simp only at h ⊢
          cases hg : getById st.invoices i with
          | none => rfl
          | some ex =>
            rw [hg] at h
            exact absurd rfl h

theorem convertToInvoice_not_ok {st : Store} {quotationId : Nat} {confirmed : Bool}
    {now : Nat} (h : (convertToInvoice st quotationId confirmed now).1 ≠ .ok) :
    (convertToInvoice st quotationId confirmed now).2 = st := by
  unfold convertToInvoice at h ⊢
  cases hg : getById st.quotations quotationId with
  | none => rfl
  | some quotation =>
    rw [hg] at h
    simp only at h ⊢
    cases confirmed with
    | false => rfl
    | true => exact absurd rfl h

theorem saveQuotation_invoices (st : Store) (quotationId : Option Nat) (form : QuotationForm)
    (now : Nat) :
    (saveQuotation st quotationId form now).2.invoices = st.invoices ∧
    (saveQuotation st quotationId form now).2.counters.invoice = st.counters.invoice ∧
    (saveQuotation st quotationId form now).2.settings = st.settings := by
  unfold saveQuotation
  cases form.customerId with
  | none => exact ⟨rfl, rfl, rfl⟩
  | some customerId =>
    simp only
    split
    · exact ⟨rfl, rfl, rfl⟩
    · cases quotationId with
      | none => exact ⟨rfl, rfl, rfl⟩
      | some i =>
        simp only
        cases getById st.quotations i with
        | none => exact ⟨rfl, rfl, rfl⟩
        | some ex => exact ⟨rfl, rfl, rfl⟩

/-! ## Invoice ids and invoice numbers of reachable stores -/

theorem map_replaceFirst_find {α β : Type} (k : α → β) (p : α → Bool) (x ex : α) (l : List α)
    (hf : l.find? p = some ex) (hk : k x = k ex) :
    (replaceFirst p x l).map k = l.map k := by
  induction l with
  | nil => cases hf
  | cons y ys ih =>
    rw [List.find?_cons] at hf
    unfold replaceFirst
    cases hp : p y with
    | true =>
      rw [hp] at hf
      injection hf with hf
      simp only [if_true, List.map_cons, hk, hf]
    | false =>
      rw [hp] at hf
      simp only [Bool.false_eq_true, if_false, List.map_cons, ih hf]

theorem save_update_identity (l : List (Rec InvoiceData)) (x ex : Rec InvoiceData)
    (now n i : Nat) (hx : x.id = some i) (hex : getById l i = some ex)
    (hnum : x.val.invoiceNumber = ex.val.invoiceNumber) :
    (save l x now n).1.map (fun r => (r.id, r.val.invoiceNumber))
      = l.map (fun r => (r.id, r.val.invoiceNumber)) := by
  have hs : (save l x now n).1
      = replaceFirst (fun r => r.id == some i) { x with updatedAt := some now } l := by
    unfold save
    simp only [hx]
  rw [hs]
  apply map_replaceFirst_find _ _ _ ex l hex
  show (x.id, x.val.invoiceNumber) = (ex.id, ex.val.invoiceNumber)
  rw [hx, getById_id hex, hnum]

theorem markLinkedInvoicePaid_identity (invoices : List (Rec InvoiceData)) (link : Option Nat)
    (date : Option Nat) (method : String) (now n : Nat) :
    (markLinkedInvoicePaid invoices link date method now n).map
        (fun r => (r.id, r.val.invoiceNumber))
      = invoices.map (fun r => (r.id, r.val.invoiceNumber)) := by
  unfold markLinkedInvoicePaid
  cases link with
  | none => rfl
  | some invId =>
    simp only
    cases hg : getById invoices invId with
    | none => rfl
    | some linkedInvoice =>
      simp only
      split
      · have hid : linkedInvoice.id = some invId := getById_id hg
        exact save_update_identity invoices _ linkedInvoice now n invId hid hg rfl
      · rfl

theorem settle_fold_identity (date : Option Nat) (method : String) (now : Nat)
    (cs : List (Rec CreditData)) (acc : Store × Int) :
    (cs.foldl (settleCredit date method now) acc).1.invoices.map
        (fun r => (r.id, r.val.invoiceNumber))
      = acc.1.invoices.map (fun r => (r.id, r.val.invoiceNumber)) := by
  induction cs generalizing acc with
  | nil => rfl
  | cons c cs ih =>
    rw [List.foldl_cons, ih]
    unfold settleCredit
    simp only
    split
    · rfl
    · simp only
      split
      · exact markLinkedInvoicePaid_identity _ _ _ _ _ _
      · rfl

theorem savePayment_identity (st : Store) (customerId : Nat) (form : PaymentForm) (now : Nat) :
    (savePayment st customerId form now).2.invoices.map (fun r => (r.id, r.val.invoiceNumber))
      = st.invoices.map (fun r => (r.id, r.val.invoiceNumber)) := by
  unfold savePayment
  cases form.amount with
  | none => rfl
  | some amountReceived =>
    simp only
    split
    · rfl
    · exact settle_fold_identity form.date form.method now _ (st, amountReceived)

theorem InvoicesDistinct.of_identity {st st1 : Store} (h : InvoicesDistinct st)
    (hmap : st1.invoices.map (fun r => (r.id, r.val.invoiceNumber))
      = st.invoices.map (fun r => (r.id, r.val.invoiceNumber)))
    (hc : st.counters.invoice ≤ st1.counters.invoice)
    (hs : st1.settings = st.settings) : InvoicesDistinct st1 := by
  have hid : st1.invoices.map (fun r => r.id) = st.invoices.map (fun r => r.id) := by
    have := congrArg (List.map Prod.fst) hmap
    simpa [List.map_map, Function.comp_def] using this
  have hnum : st1.invoices.map (fun r => r.val.invoiceNumber)
      = st.invoices.map (fun r => r.val.invoiceNumber) := by
    have := congrArg (List.map Prod.snd) hmap
    simpa [List.map_map, Function.comp_def] using this
  have hnn : st1.invoices.map (fun r => r.val.invoiceNumber.number)
      = st.invoices.map (fun r => r.val.invoiceNumber.number) := by
    have := congrArg (List.map (fun d : DocNumber => d.number)) hnum
    simpa [List.map_map, Function.comp_def] using this
  have hpp : st1.invoices.map (fun r => r.val.invoiceNumber.pfx)
      = st.invoices.map (fun r => r.val.invoiceNumber.pfx) := by
    have := congrArg (List.map (fun d : DocNumber => d.pfx)) hnum
    simpa [List.map_map, Function.comp_def] using this
  refine ⟨by rw [hid]; exact h.ids_nodup, by rw [hnn]; exact h.numbers_nodup, ?_, ?_⟩
  · intro inv hinv
    have hm : inv.val.invoiceNumber.number
        ∈ st1.invoices.map (fun r => r.val.invoiceNumber.number) :=
      List.mem_map_of_mem (fun r : Rec InvoiceData => r.val.invoiceNumber.number) hinv
    rw [hnn] at hm
    obtain ⟨inv0, hinv0, he⟩ := List.mem_map.1 hm
    have := h.numbers_below inv0 hinv0
    rw [← he]
    omega
  · intro inv hinv
    have hm : inv.val.invoiceNumber.pfx
        ∈ st1.invoices.map (fun r => r.val.invoiceNumber.pfx) :=
      List.mem_map_of_mem (fun r : Rec InvoiceData => r.val.invoiceNumber.pfx) hinv
    rw [hpp] at hm
    obtain ⟨inv0, hinv0, he⟩ := List.mem_map.1 hm
    rw [← he, hs]
    exact h.pfx_fixed inv0 hinv0

theorem InvoicesDistinct.append {st st1 : Store} (h : InvoicesDistinct st)
    (hbelow : IdsBelow st.invoices st.nextId) (inv1 : Rec InvoiceData)
    (hinv : st1.invoices = st.invoices ++ [inv1])
    (hid : inv1.id = some st.nextId)
    (hnum : inv1.val.invoiceNumber
      = { pfx := st.settings.invoicePrefix, number := st.counters.invoice })
    (hc : st1.counters.invoice = st.counters.invoice + 1)
    (hs : st1.settings = st.settings) : InvoicesDistinct st1 := by
  refine ⟨?_, ?_, ?_, ?_⟩
  · rw [hinv, List.map_append, List.nodup_append]
    refine ⟨h.ids_nodup, List.nodup_singleton _, ?_⟩
    intro a ha hb
    simp only [List.map_cons, List.map_nil, List.mem_singleton] at hb
    obtain ⟨r, hr, hra⟩ := List.mem_map.1 ha
    obtain ⟨j, hj, hlt⟩ := hbelow r hr
    rw [hb, hid, hj] at hra
    injection hra with hra
    omega
  · rw [hinv, List.map_append, List.nodup_append]
    refine ⟨h.numbers_nodup, List.nodup_singleton _, ?_⟩
    intro a ha hb
    simp only [List.map_cons, List.map_nil, List.mem_singleton] at hb
    obtain ⟨r, hr, hra⟩ := List.mem_map.1 ha
    have := h.numbers_below r hr
    rw [hb, hnum] at hra
    simp only at hra
    omega
  · intro inv hmem
    rw [hinv] at hmem
    rw [hc]
    rcases List.mem_append.1 hmem with h1 | h1
    · have := h.numbers_below inv h1
      omega
    · rw [List.mem_singleton] at h1
      rw [h1, hnum]
      exact Nat.lt_succ_self _
  · intro inv hmem
    rw [hinv] at hmem
    rw [hs]
    rcases List.mem_append.1 hmem with h1 | h1
    · exact h.pfx_fixed inv h1
    · rw [List.mem_singleton] at h1
      rw [h1, hnum]

theorem saveInvoice_distinct {st : Store} (invoiceId : Option Nat) (form : InvoiceForm)
    (now : Nat) (hwf : StoreWF st) (h : InvoicesDistinct st) :
    InvoicesDistinct (saveInvoice st invoiceId form now).2 := by
  by_cases hok : (saveInvoice st invoiceId form now).1 = .ok
  · obtain ⟨_, customerId, _, hw⟩ := saveInvoice_ok hok
    rcases hw with ⟨_, hw⟩ | ⟨i, ex, _, hex, hw⟩
    · rw [hw]
      apply h.append hwf.invoices
        { buildInvoice st none none customerId form now with
          id := some st.nextId, createdAt := some now }
      · show (save st.invoices (buildInvoice st none none customerId form now) now
          st.nextId).1 = _
        rw [save_new _ _ _ _ rfl]
      · rfl
      · rfl
      · rfl
      · rfl
    · rw [hw]
      apply h.of_identity
      · exact save_update_identity st.invoices _ ex now st.nextId i rfl hex rfl
      · exact Nat.le_refl _
      · rfl
  · rw [saveInvoice_not_ok hok]
    exact h

theorem savePayment_distinct {st : Store} (customerId : Nat) (form : PaymentForm)
    (now : Nat) (h : InvoicesDistinct st) :
    InvoicesDistinct (savePayment st customerId form now).2 := by
  apply h.of_identity (savePayment_identity st customerId form now)
  · rw [(savePayment_frame st customerId form now).2.2.2.1]
  · exact (savePayment_frame st customerId form now).2.2.2.2

theorem deleteInvoice_distinct {st : Store} (invoiceId : Nat) (confirmed : Bool)
    (h : InvoicesDistinct st) : InvoicesDistinct (deleteInvoice st invoiceId confirmed).2 := by
  unfold deleteInvoice
  cases confirmed with
  | false => exact h
  | true =>
    simp only [if_true]
    have hsub : (delete st.invoices (some invoiceId)).Sublist st.invoices :=
      List.filter_sublist _
    refine ⟨?_, ?_, ?_, ?_⟩
    · exact h.ids_nodup.sublist (hsub.map _)
    · exact h.numbers_nodup.sublist (hsub.map _)
    · intro inv hinv
      exact h.numbers_below inv (hsub.subset hinv)
    · intro inv hinv
      exact h.pfx_fixed inv (hsub.subset hinv)

theorem convertToInvoice_distinct {st : Store} (quotationId : Nat) (confirmed : Bool)
    (now : Nat) (hwf : StoreWF st) (h : InvoicesDistinct st) :
    InvoicesDistinct (convertToInvoice st quotationId confirmed now).2 := by
  unfold convertToInvoice
  cases hg : getById st.quotations quotationId with
  | none => exact h
  | some quotation =>
    simp only
    cases confirmed with
    | false => exact h
    | true =>
      simp only [if_true, save_fresh]
      exact h.append hwf.invoices _ rfl rfl rfl rfl rfl

theorem saveQuotation_distinct {st : Store} (quotationId : Option Nat) (form : QuotationForm)
    (now : Nat) (h : InvoicesDistinct st) :
    InvoicesDistinct (saveQuotation st quotationId form now).2 := by
  obtain ⟨h1, h2, h3⟩ := saveQuotation_invoices st quotationId form now
  apply h.of_identity
  · rw [h1]
  · rw [h2]
  · exact h3

/-- In every reachable store the invoice ids and the invoice numbers are
pairwise distinct and the numbers lie below the invoice counter. -/
theorem Reachable.distinct {st : Store} (h : Reachable st) : InvoicesDistinct st := by
  induction h with
  | init =>
    exact ⟨List.nodup_nil, List.nodup_nil, (fun inv hinv => by cases hinv),
      (fun inv hinv => by cases hinv)⟩
  | saveInvoice invoiceId form now hr ih => exact saveInvoice_distinct invoiceId form now hr.wf ih
  | savePayment customerId form now _ ih => exact savePayment_distinct customerId form now ih
  | deleteInvoice invoiceId confirmed _ ih => exact deleteInvoice_distinct invoiceId confirmed ih
  | convertToInvoice quotationId confirmed now hr ih =>
    exact convertToInvoice_distinct quotationId confirmed now hr.wf ih
  | saveQuotation quotationId form now _ ih => exact saveQuotation_distinct quotationId form now ih

theorem saveInvoice_settings (st : Store) (invoiceId : Option Nat) (form : InvoiceForm)
    (now : Nat) : (saveInvoice st invoiceId form now).2.settings = st.settings := by
  by_cases hok : (saveInvoice st invoiceId form now).1 = .ok
  · obtain ⟨_, customerId, _, hw⟩ := saveInvoice_ok hok
    rcases hw with ⟨_, hw⟩ | ⟨i, ex, _, _, hw⟩
    · rw [hw]
      rfl
    · rw [hw]
      rfl
  · rw [saveInvoice_not_ok hok]

theorem deleteInvoice_settings (st : Store) (invoiceId : Nat) (confirmed : Bool) :
    (deleteInvoice st invoiceId confirmed).2.settings = st.settings := by
  unfold deleteInvoice
  cases confirmed <;> rfl

theorem convertToInvoice_settings (st : Store) (quotationId : Nat) (confirmed : Bool)
    (now : Nat) : (convertToInvoice st quotationId confirmed now).2.settings = st.settings := by
  unfold convertToInvoice
  cases getById st.quotations quotationId with
  | none => rfl
  | some quotation =>
    simp only
    cases confirmed <;> rfl

/-- No operation writes the settings: every reachable store has the settings
of the initial store. -/
theorem Reachable.settings_fixed {st : Store} (h : Reachable st) :
    st.settings = InvoiceDB.init.settings := by
  induction h with
  | init => rfl
  | saveInvoice invoiceId form now _ ih => rw [saveInvoice_settings, ih]
  | savePayment customerId form now _ ih =>
    rw [(savePayment_frame _ customerId form now).2.2.2.2, ih]
  | deleteInvoice invoiceId confirmed _ ih => rw [deleteInvoice_settings, ih]
  | convertToInvoice quotationId confirmed now _ ih => rw [convertToInvoice_settings, ih]
  | saveQuotation quotationId form now _ ih =>
    rw [(saveQuotation_invoices _ quotationId form now).2.2, ih]

/-! ## Lemmas on the rounding of doubles -/

theorem bitLengthAux_lt (fuel n : Nat) (h : n ≤ fuel) : n < 2 ^ bitLengthAux fuel n := by
  induction fuel generalizing n with
  | zero =>
    have : n = 0 := by omega
    subst this
    simp [bitLengthAux]
  | succ fuel ih =>
    unfold bitLengthAux
    by_cases h0 : n = 0
    · rw [if_pos h0, h0]
      simp
    · rw [if_neg h0]
      have hlt := ih (n / 2) (by omega)
      rw [pow_succ]
      omega

theorem bitLengthAux_le (fuel n k : Nat) (h : n < 2 ^ k) : bitLengthAux fuel n ≤ k := by
  induction fuel generalizing n k with
  | zero => simp [bitLengthAux]
  | succ fuel ih =>
    unfold bitLengthAux
    by_cases h0 : n = 0
    · rw [if_pos h0]
      omega
    · rw [if_neg h0]
      cases k with
      | zero =>
        simp at h
        exact absurd h h0
      | succ k =>
        have := ih (n / 2) k (by rw [pow_succ] at h; omega)
        omega

theorem roundNat_of_dvd (n : Nat) (h : 2 ^ (bitLength n - 53) ∣ n) : roundNat n = n := by
  unfold roundNat
  have hr : n % 2 ^ (bitLength n - 53) = 0 := Nat.mod_eq_zero_of_dvd h
  have hpos : 0 < 2 ^ (bitLength n - 53) := Nat.pow_pos (by decide)
  simp only [hr, Nat.mul_zero]
  rw [if_neg (by omega)]
  exact Nat.div_mul_cancel h

/-- A whole number below `2 ^ 53` is a double: rounding leaves it as it is. -/
theorem roundNat_whole (m : Nat) (h : m < 2 ^ 53) : roundNat (m * 2 ^ 100) = m * 2 ^ 100 := by
  apply roundNat_of_dvd
  have hlt : m * 2 ^ 100 < 2 ^ 153 := by
    have : (2 : Nat) ^ 153 = 2 ^ 53 * 2 ^ 100 := by norm_num
    rw [this]
    exact Nat.mul_lt_mul_of_pos_right h (Nat.pow_pos (by decide))
  have hle : bitLength (m * 2 ^ 100) ≤ 153 := bitLengthAux_le _ _ _ hlt
  have he : bitLength (m * 2 ^ 100) - 53 ≤ 100 := by omega
  exact Dvd.dvd.mul_left (pow_dvd_pow 2 he) m

theorem natAbs_whole (a : Int) : (whole a).natAbs = a.natAbs * 2 ^ 100 := by
  unfold whole
  rw [Int.natAbs_mul, Int.natAbs_pow]
  norm_num

theorem fround_whole (a : Int) (h : a.natAbs < 2 ^ 53) : fround (whole a) = whole a := by
  unfold fround
  rw [natAbs_whole, roundNat_whole _ h, ← natAbs_whole]
  by_cases hneg : whole a < 0
  · rw [if_pos hneg]
    omega
  · rw [if_neg hneg]
    omega

/-- On whole numbers whose sum stays below `2 ^ 53` the sum of doubles is the
exact sum. -/
theorem doubles_add_whole (a b : Int) (h : (a + b).natAbs < 2 ^ 53) :
    Arith.doubles.add (whole a) (whole b) = whole (a + b) := by
  show fround (whole a + whole b) = _
  have : whole a + whole b = whole (a + b) := by
    unfold whole
    ring
  rw [this, fround_whole _ h]

/-- On whole numbers whose difference stays below `2 ^ 53` the difference of
doubles is the exact difference. -/
theorem doubles_sub_whole (a b : Int) (h : (a - b).natAbs < 2 ^ 53) :
    Arith.doubles.sub (whole a) (whole b) = whole (a - b) := by
  show fround (whole a - whole b) = _
  have : whole a - whole b = whole (a - b) := by
    unfold whole
    ring
  rw [this, fround_whole _ h]

theorem IsWhole.dvd {a : Int} (h : IsWhole a) : (2 : Int) ^ 100 ∣ a :=
  Int.dvd_of_emod_eq_zero h

theorem IsWhole.of_dvd {a : Int} (h : (2 : Int) ^ 100 ∣ a) : IsWhole a :=
  Int.emod_eq_zero_of_dvd h

theorem IsWhole.zero : IsWhole 0 :=
  IsWhole.of_dvd (dvd_zero _)

theorem IsWhole.add {a b : Int} (ha : IsWhole a) (hb : IsWhole b) : IsWhole (a + b) :=
  IsWhole.of_dvd (dvd_add ha.dvd hb.dvd)

theorem IsWhole.sub {a b : Int} (ha : IsWhole a) (hb : IsWhole b) : IsWhole (a - b) :=
  IsWhole.of_dvd (dvd_sub ha.dvd hb.dvd)

theorem IsWhole.min {a b : Int} (ha : IsWhole a) (hb : IsWhole b) : IsWhole (min a b) := by
  rcases min_choice a b with h | h
  · rw [h]
    exact ha
  · rw [h]
    exact hb

theorem isWhole_whole (a : Int) : IsWhole (whole a) :=
  IsWhole.of_dvd (Dvd.intro_left a rfl)

theorem IsWhole.sum {α : Type} (f : α → Int) (l : List α) (h : ∀ x ∈ l, IsWhole (f x)) :
    IsWhole (l.map f).sum := by
  induction l with
  | nil => exact IsWhole.zero
  | cons x l ih =>
    rw [List.map_cons, List.sum_cons]
    exact IsWhole.add (h x (List.mem_cons_self _ _))
      (ih (fun y hy => h y (List.mem_cons_of_mem _ hy)))

/-- A whole number below `2 ^ 53` in size is a double: rounding leaves it as
it is. -/
theorem fround_of_isWhole {x : Int} (h : IsWhole x) (hb : x.natAbs < safeSize) :
    fround x = x := by
  have hx : x = whole (x / 2 ^ 100) := (Int.ediv_mul_cancel h.dvd).symm
  have hn : (x / 2 ^ 100).natAbs < 2 ^ 53 := by
    have h1 := natAbs_whole (x / 2 ^ 100)
    rw [← hx] at h1
    have h2 : safeSize = 2 ^ 53 * 2 ^ 100 := by
      unfold safeSize
      norm_num
    rw [h1, h2] at hb
    exact Nat.lt_of_mul_lt_mul_right hb
  rw [hx]
  exact fround_whole _ hn

theorem doubles_add_exact {a b : Int} (ha : IsWhole a) (hb : IsWhole b)
    (h : (a + b).natAbs < safeSize) : Arith.doubles.add a b = a + b := by
  show fround (a + b) = a + b
  exact fround_of_isWhole (IsWhole.add ha hb) h

theorem doubles_sub_exact {a b : Int} (ha : IsWhole a) (hb : IsWhole b)
    (h : (a - b).natAbs < safeSize) : Arith.doubles.sub a b = a - b := by
  show fround (a - b) = a - b
  exact fround_of_isWhole (IsWhole.sub ha hb) h

theorem natAbs_sum_le {α : Type} (f : α → Int) (l : List α) :
    Int.natAbs (l.map f).sum ≤ (l.map (fun x => (f x).natAbs)).sum := by
  induction l with
  | nil => simp
  | cons x l ih =>
    simp only [List.map_cons, List.sum_cons]
    omega

/-- A running sum of doubles over whole numbers whose sizes add up to less
than `2 ^ 53` is the exact sum. -/
theorem foldl_doubles_add {α : Type} (f : α → Int) (l : List α) (a : Int) (ha : IsWhole a)
    (hf : ∀ x ∈ l, IsWhole (f x))
    (hb : a.natAbs + (l.map (fun x => (f x).natAbs)).sum < safeSize) :
    l.foldl (fun b x => Arith.doubles.add b (f x)) a = a + (l.map f).sum := by
  induction l generalizing a with
  | nil => simp
  | cons x l ih =>
    simp only [List.map_cons, List.sum_cons] at hb
    rw [List.foldl_cons, doubles_add_exact ha (hf x (List.mem_cons_self _ _)) (by omega),
      ih (a + f x) (IsWhole.add ha (hf x (List.mem_cons_self _ _)))
        (fun y hy => hf y (List.mem_cons_of_mem _ hy)) (by omega),
      List.map_cons, List.sum_cons, Int.add_assoc]

/-! ## On whole numbers the sums of doubles are the exact sums -/

theorem settleCreditWith_exact (date : Option Nat) (method : String) (now : Nat)
    (acc : Store × Int) (credit : Rec CreditData) :
    settleCreditWith Arith.exact date method now acc credit
      = settleCredit date method now acc credit :=
  rfl

theorem savePaymentWith_exact (st : Store) (customerId : Nat) (form : PaymentForm) (now : Nat) :
    savePaymentWith Arith.exact st customerId form now = savePayment st customerId form now :=
  rfl

theorem adjustStockWith_exact (sign : Int) (now : Nat) (products : List (Rec ProductData))
    (items : List Item) :
    adjustStockWith Arith.exact sign now products items = adjustStock sign now products items :=
  rfl

theorem settleCreditWith_doubles (date : Option Nat) (method : String) (now : Nat)
    (acc : Store × Int) (credit : Rec CreditData)
    (ha : IsWhole acc.2) (hc : IsWhole credit.val.remainingAmount)
    (hb : acc.2.natAbs + credit.val.remainingAmount.natAbs < safeSize) :
    settleCreditWith Arith.doubles date method now acc credit
      = settleCredit date method now acc credit := by
  unfold settleCreditWith settleCredit
  by_cases h0 : acc.2 ≤ 0
  · simp only [h0, if_true]
  · have h1 : Arith.doubles.sub credit.val.remainingAmount (min acc.2 credit.val.remainingAmount)
        = credit.val.remainingAmount - min acc.2 credit.val.remainingAmount :=
      doubles_sub_exact hc (IsWhole.min ha hc) (by omega)
    have h2 : Arith.doubles.sub acc.2 (min acc.2 credit.val.remainingAmount)
        = acc.2 - min acc.2 credit.val.remainingAmount :=
      doubles_sub_exact ha (IsWhole.min ha hc) (by omega)
    simp only [h0, if_false, h1, h2]

theorem settle_fold_doubles (date : Option Nat) (method : String) (now : Nat)
    (cs : List (Rec CreditData)) (acc : Store × Int)
    (ha : IsWhole acc.2) (hc : ∀ c ∈ cs, IsWhole c.val.remainingAmount)
    (hb : acc.2.natAbs + (cs.map (fun c => c.val.remainingAmount.natAbs)).sum < safeSize) :
    cs.foldl (settleCreditWith Arith.doubles date method now) acc
      = cs.foldl (settleCredit date method now) acc := by
  induction cs generalizing acc with
  | nil => rfl
  | cons c cs ih =>
    simp only [List.map_cons, List.sum_cons] at hb
    have hc0 := hc c (List.mem_cons_self _ _)
    rw [List.foldl_cons, List.foldl_cons, settleCreditWith_doubles date method now acc c ha hc0
      (by omega)]
    have hamt : (settleCredit date method now acc c).2
        = if acc.2 ≤ 0 then acc.2 else acc.2 - min acc.2 c.val.remainingAmount := by
      rw [settleCredit_amount]
      rfl
    apply ih
    · rw [hamt]
      split
      · exact ha
      · exact IsWhole.sub ha (IsWhole.min ha hc0)
    · exact fun d hd => hc d (List.mem_cons_of_mem _ hd)
    · rw [hamt]
      split <;> omega

/-- On whole numbers whose sizes add up to less than `2 ^ 53`, `savePayment`
run on doubles does what it does with exact differences. -/
theorem savePaymentWith_doubles (st : Store) (customerId : Nat) (form : PaymentForm)
    (now : Nat) (amount : Int) (ha : form.amount = some amount)
    (h : WholeDebts st customerId amount) :
    savePaymentWith Arith.doubles st customerId form now
      = savePayment st customerId form now := by
  unfold savePaymentWith savePayment
  simp only [ha]
  by_cases h0 : amount ≤ 0
  · simp only [h0, if_true]
  · simp only [h0, if_false]
    have hfold := settle_fold_doubles form.date form.method now (pendingCredits st customerId)
      (st, amount) h.1 h.2.1 h.2.2
    unfold pendingCredits at hfold
    rw [hfold]

theorem getById_map {α : Type} (f : Rec α → Rec α) (hf : ∀ r, (f r).id = r.id)
    (l : List (Rec α)) (i : Nat) : getById (l.map f) i = (getById l i).map f := by
  unfold getById
  induction l with
  | nil => rfl
  | cons x xs ih =>
    rw [List.map_cons, List.find?_cons, List.find?_cons, hf x]
    cases x.id == some i with
    | true => rfl
    | false => exact ih

theorem replaceFirst_map {α β : Type} (f : α → β) (p : α → Bool) (q : β → Bool)
    (hpq : ∀ x, q (f x) = p x) (y : α) (l : List α) :
    replaceFirst q (f y) (l.map f) = (replaceFirst p y l).map f := by
  induction l with
  | nil => rfl
  | cons x xs ih =>
    rw [List.map_cons]
    unfold replaceFirst
    rw [hpq x]
    cases p x with
    | true => simp
    | false => simp [ih]

theorem adjustStock_cons (sign : Int) (now : Nat) (products : List (Rec ProductData))
    (item : Item) (rest : List Item) :
    adjustStock sign now products (item :: rest)
      = adjustStock sign now (adjustStock sign now products [item]) rest :=
  rfl

theorem adjustStockWith_cons (ar : Arith) (sign : Int) (now : Nat)
    (products : List (Rec ProductData)) (item : Item) (rest : List Item) :
    adjustStockWith ar sign now products (item :: rest)
      = adjustStockWith ar sign now (adjustStockWith ar sign now products [item]) rest :=
  rfl

theorem adjustStock_single (sign : Int) (now : Nat) (products : List (Rec ProductData))
    (item : Item) :
    adjustStock sign now products [item]
      = match item.productId with
        | none => products
        | some pid =>
          match getById products pid with
          | none => products
          | some product =>
            replaceFirst (fun r => r.id == some pid)
              { product with
                updatedAt := some now
                val := { product.val with
                  currentStock := product.val.currentStock + sign * item.quantity } }
              products := by
  unfold adjustStock
  simp only [List.foldl_cons, List.foldl_nil]
  cases hp : item.productId with
  | none => rfl
  | some pid =>
    simp only
    cases hg : getById products pid with
    | none => rfl
    | some product =>
      simp only
      have hid : product.id = some pid := getById_id hg
      unfold save
      simp only [hid]

/-- One pass of a stock loop moves no stock level by more than the quantities
of the items. -/
theorem adjustStock_bound (sign : Int) (hsign : sign = 1 ∨ sign = -1) (now : Nat)
    (items : List Item) (products : List (Rec ProductData)) :
    ∀ q ∈ adjustStock sign now products items, ∃ p ∈ products,
      q.val.currentStock.natAbs
        ≤ p.val.currentStock.natAbs + (items.map (fun item => item.quantity.natAbs)).sum := by
  induction items generalizing products with
  | nil =>
    intro q hq
    exact ⟨q, hq, by simp⟩
  | cons item rest ih =>
    intro q hq
    rw [adjustStock_cons] at hq
    obtain ⟨p1, hp1, hq1⟩ := ih _ q hq
    rw [List.map_cons, List.sum_cons]
    have hstep : ∃ p ∈ products,
        p1.val.currentStock.natAbs ≤ p.val.currentStock.natAbs + item.quantity.natAbs := by
      rw [adjustStock_single] at hp1
      cases hp : item.productId with
      | none =>
        rw [hp] at hp1
        exact ⟨p1, hp1, by omega⟩
      | some pid =>
        rw [hp] at hp1
        simp only at hp1
        cases hg : getById products pid with
        | none =>
          rw [hg] at hp1
          exact ⟨p1, hp1, by omega⟩
        | some product =>
          rw [hg] at hp1
          simp only at hp1
          rcases mem_replaceFirst hp1 with h | h
          · refine ⟨product, getById_mem hg, ?_⟩
            rw [h]
            show (product.val.currentStock + sign * item.quantity).natAbs ≤ _
            rcases hsign with hs | hs
            · subst hs
              omega
            · subst hs
              omega
          · exact ⟨p1, h, by omega⟩
    obtain ⟨p, hp, hle⟩ := hstep
    exact ⟨p, hp, by omega⟩

theorem adjustStockWith_single_whole (sign : Int) (hsign : sign = 1 ∨ sign = -1) (now : Nat)
    (item : Item) (products : List (Rec ProductData))
    (hb : ∀ p ∈ products, p.val.currentStock.natAbs + item.quantity.natAbs < 2 ^ 53) :
    adjustStockWith Arith.doubles sign now (products.map wholeProduct) [wholeItem item]
      = (adjustStock sign now products [item]).map wholeProduct := by
  rw [adjustStock_single]
  unfold adjustStockWith
  simp only [List.foldl_cons, List.foldl_nil]
  have hpid : (wholeItem item).productId = item.productId := rfl
  rw [hpid]
  cases hp : item.productId with
  | none => rfl
  | some pid =>
    simp only
    rw [getById_map wholeProduct (fun _ => rfl)]
    cases hg : getById products pid with
    | none => rfl
    | some product =>
      simp only [Option.map_some']
      have hid0 : product.id = some pid := getById_id hg
      have hid : (wholeProduct product).id = some pid := hid0
      have hsum : Arith.doubles.add (wholeProduct product).val.currentStock
          (sign * (wholeItem item).quantity)
          = whole (product.val.currentStock + sign * item.quantity) := by
        have h1 : sign * (wholeItem item).quantity = whole (sign * item.quantity) := by
          show sign * whole item.quantity = whole (sign * item.quantity)
          unfold whole
          ring
        rw [h1]
        apply doubles_add_whole
        have := hb product (getById_mem hg)
        rcases hsign with hs | hs
        · subst hs
          omega
        · subst hs
          omega
      show (save (products.map wholeProduct)
          { wholeProduct product with
            val := { (wholeProduct product).val with
              currentStock := Arith.doubles.add (wholeProduct product).val.currentStock
                (sign * (wholeItem item).quantity) } } now 0).1 = _
      rw [hsum, save_existing _ _ _ now 0 pid hid]
      exact replaceFirst_map wholeProduct (fun r => r.id == some pid) (fun r => r.id == some pid)
        (fun _ => rfl)
        { product with
          updatedAt := some now
          val := { product.val with
            currentStock := product.val.currentStock + sign * item.quantity } }
        products

/-- Run on doubles that are whole numbers, none of the sums reaching `2 ^ 53`
in size, a stock loop leaves the doubles of the stock levels it leaves with
exact sums. -/
theorem adjustStockWith_doubles_whole (sign : Int) (hsign : sign = 1 ∨ sign = -1) (now : Nat)
    (items : List Item) (products : List (Rec ProductData))
    (hb : ∀ p ∈ products,
      p.val.currentStock.natAbs + (items.map (fun item => item.quantity.natAbs)).sum < 2 ^ 53) :
    adjustStockWith Arith.doubles sign now (products.map wholeProduct) (items.map wholeItem)
      = (adjustStock sign now products items).map wholeProduct := by
  induction items generalizing products with
  | nil => rfl
  | cons item rest ih =>
    simp only [List.map_cons, List.sum_cons] at hb
    rw [List.map_cons, adjustStockWith_cons, adjustStock_cons,
      adjustStockWith_single_whole sign hsign now item products
        (fun p hp => by have := hb p hp; omega)]
    apply ih
    intro q hq
    obtain ⟨p, hp, hle⟩ := adjustStock_bound sign hsign now [item] products q hq
    have := hb p hp
    simp only [List.map_cons, List.map_nil, List.sum_cons, List.sum_nil] at hle
    omega

/-! ## Lemmas on `generateImprovedStatement` -/

theorem insertByDate_perm (a : Transaction) (l : List Transaction) :
    (insertByDate a l).Perm (a :: l) := by
  induction l with
  | nil => exact List.Perm.refl _
  | cons b l ih =>
    unfold insertByDate
    split
    · exact (List.Perm.cons b ih).trans (List.Perm.swap a b l)
    · exact List.Perm.refl _

theorem sortByDate_perm (l : List Transaction) : (sortByDate l).Perm l := by
  induction l with
  | nil => exact List.Perm.refl _
  | cons a l ih =>
    show (insertByDate a (sortByDate l)).Perm (a :: l)
    exact (insertByDate_perm a _).trans (List.Perm.cons a ih)

theorem dateWithin_of_before {d : Option Nat} {s e : Int} (h : dateBefore d s = true) :
    dateWithin d s e = false := by
  cases d with
  | none => rfl
  | some x =>
    simp only [dateBefore, decide_eq_true_eq] at h
    simp only [dateWithin, Bool.and_eq_false_imp, decide_eq_true_eq, decide_eq_false_iff_not]
    intro hs
    omega

theorem classify_fold (ar : Arith) (s e : Int) (l : List Transaction)
    (acc : Int × List Transaction) :
    l.foldl (classify ar s e) acc
      = ((l.filter (fun tx => dateBefore tx.date s)).foldl
            (fun b tx => ar.add b (ar.sub tx.debit tx.credit)) acc.1,
          acc.2 ++ l.filter (fun tx => dateWithin tx.date s e)) := by
  induction l generalizing acc with
  | nil => simp
  | cons tx l ih =>
    rw [List.foldl_cons, ih]
    unfold classify
    by_cases hb : dateBefore tx.date s = true
    · have hw : dateWithin tx.date s e = false := dateWithin_of_before hb
      simp only [hb, if_true, List.filter_cons, hw, Bool.false_eq_true, if_false,
        List.foldl_cons]
    · have hb1 : dateBefore tx.date s = false := by simpa using hb
      by_cases hw : dateWithin tx.date s e = true
      · simp only [hb1, Bool.false_eq_true, if_false, hw, if_true, List.filter_cons,
          List.append_assoc, List.singleton_append]
      · have hw1 : dateWithin tx.date s e = false := by simpa using hw
        simp only [hb1, Bool.false_eq_true, if_false, hw1, List.filter_cons]

/-- The statement over the sorted list of all transactions, whatever the
arithmetic: the opening balance is the running sum of `debit - credit` over
the transactions before the period, in sorted order. -/
theorem generateImprovedStatement_run (ar : Arith) (offset : Int) (st : Store)
    (customerId : Nat) (startDate endDate : Nat) :
    generateImprovedStatement ar offset st customerId startDate endDate
      = { summary :=
            { openingBalance :=
                ((sortByDate (allTransactions st customerId)).filter
                  (fun tx => dateBefore tx.date (startOfDay offset startDate))).foldl
                    (fun b tx => ar.add b (ar.sub tx.debit tx.credit)) 0
              totalDebits :=
                ((sortByDate (allTransactions st customerId)).filter
                  (fun tx => dateWithin tx.date (startOfDay offset startDate)
                    (endOfDay offset endDate))).foldl (fun sum tx => ar.add sum tx.debit) 0
              totalCredits :=
                ((sortByDate (allTransactions st customerId)).filter
                  (fun tx => dateWithin tx.date (startOfDay offset startDate)
                    (endOfDay offset endDate))).foldl (fun sum tx => ar.add sum tx.credit) 0
              closingBalance :=
                ar.sub
                  (ar.add
                    (((sortByDate (allTransactions st customerId)).filter
                      (fun tx => dateBefore tx.date (startOfDay offset startDate))).foldl
                        (fun b tx => ar.add b (ar.sub tx.debit tx.credit)) 0)
                    (((sortByDate (allTransactions st customerId)).filter
                      (fun tx => dateWithin tx.date (startOfDay offset startDate)
                        (endOfDay offset endDate))).foldl (fun sum tx => ar.add sum tx.debit) 0))
                  (((sortByDate (allTransactions st customerId)).filter
                    (fun tx => dateWithin tx.date (startOfDay offset startDate)
                      (endOfDay offset endDate))).foldl (fun sum tx => ar.add sum tx.credit) 0) }
          transactions :=
            (sortByDate (allTransactions st customerId)).filter
              (fun tx => dateWithin tx.date (startOfDay offset startDate)
                (endOfDay offset endDate)) } := by
  unfold generateImprovedStatement
  simp only [classify_fold, List.nil_append]

theorem foldl_add_eq_sum {α : Type} (f : α → Int) (l : List α) (a : Int) :
    l.foldl (fun sum x => sum + f x) a = a + (l.map f).sum := by
  induction l generalizing a with
  | nil => simp
  | cons x l ih =>
    rw [List.foldl_cons, ih, List.map_cons, List.sum_cons, Int.add_assoc]

theorem foldl_exact_add {α : Type} (f : α → Int) (l : List α) (a : Int) :
    l.foldl (fun sum x => Arith.exact.add sum (f x)) a = a + (l.map f).sum :=
  foldl_add_eq_sum f l a

theorem foldl_exact_balance (l : List Transaction) (a : Int) :
    l.foldl (fun b tx => Arith.exact.add b (Arith.exact.sub tx.debit tx.credit)) a
      = a + (l.map (fun tx => tx.debit - tx.credit)).sum :=
  foldl_add_eq_sum (fun tx => tx.debit - tx.credit) l a

/-- The statement in closed form for exact sums, over the sorted list of all
transactions. -/
theorem generateImprovedStatement_eq (offset : Int) (st : Store) (customerId : Nat)
    (startDate endDate : Nat) :
    generateImprovedStatement Arith.exact offset st customerId startDate endDate
      = { summary :=
            { openingBalance :=
                (((sortByDate (allTransactions st customerId)).filter
                  (fun tx => dateBefore tx.date (startOfDay offset startDate))).map
                    (fun tx => tx.debit - tx.credit)).sum
              totalDebits :=
                (((sortByDate (allTransactions st customerId)).filter
                  (fun tx => dateWithin tx.date (startOfDay offset startDate)
                    (endOfDay offset endDate))).map (fun tx => tx.debit)).sum
              totalCredits :=
                (((sortByDate (allTransactions st customerId)).filter
                  (fun tx => dateWithin tx.date (startOfDay offset startDate)
                    (endOfDay offset endDate))).map (fun tx => tx.credit)).sum
              closingBalance :=
                (((sortByDate (allTransactions st customerId)).filter
                  (fun tx => dateBefore tx.date (startOfDay offset startDate))).map
                    (fun tx => tx.debit - tx.credit)).sum
                + (((sortByDate (allTransactions st customerId)).filter
                  (fun tx => dateWithin tx.date (startOfDay offset startDate)
                    (endOfDay offset endDate))).map (fun tx => tx.debit)).sum
                - (((sortByDate (allTransactions st customerId)).filter
                  (fun tx => dateWithin tx.date (startOfDay offset startDate)
                    (endOfDay offset endDate))).map (fun tx => tx.credit)).sum }
          transactions :=
            (sortByDate (allTransactions st customerId)).filter
              (fun tx => dateWithin tx.date (startOfDay offset startDate)
                (endOfDay offset endDate)) } := by
  rw [generateImprovedStatement_run]
  simp only [foldl_exact_add, foldl_exact_balance, Int.zero_add]
  rfl

theorem sum_filter_perm {α : Type} (p : α → Bool) (f : α → Int) {l l1 : List α}
    (h : l.Perm l1) : ((l.filter p).map f).sum = ((l1.filter p).map f).sum :=
  ((h.filter p).map f).sum_eq

theorem sum_filter_payments (p : Transaction → Bool) (g : Transaction → Int)
    (credits : List (Rec CreditData)) :
    ((((credits.map (fun cred => cred.val.payments.map (paymentTransaction cred))).flatten).filter
        p).map g).sum
      = (credits.map (fun cred =>
          ((cred.val.payments.filter (fun pay => p (paymentTransaction cred pay))).map
            (fun pay => g (paymentTransaction cred pay))).sum)).sum := by
  induction credits with
  | nil => rfl
  | cons c cs ih =>
    rw [List.map_cons, List.flatten_cons, List.filter_append, List.map_append, List.sum_append,
      ih, List.map_cons, List.sum_cons, List.filter_map, List.map_map]
    rfl

theorem sum_filter_all (st : Store) (customerId : Nat) (p : Transaction → Bool)
    (g : Transaction → Int) :
    (((allTransactions st customerId).filter p).map g).sum
      = (((customerInvoices st customerId).filter (fun inv => p (invoiceTransaction inv))).map
          (fun inv => g (invoiceTransaction inv))).sum
        + ((customerCredits st customerId).map (fun cred =>
            ((cred.val.payments.filter (fun pay => p (paymentTransaction cred pay))).map
              (fun pay => g (paymentTransaction cred pay))).sum)).sum := by
  unfold allTransactions
  rw [List.filter_append, List.map_append, List.sum_append, sum_filter_payments,
    List.filter_map, List.map_map]
  rfl

theorem filter_payments (p : Transaction → Bool) (credits : List (Rec CreditData)) :
    ((credits.map (fun cred => cred.val.payments.map (paymentTransaction cred))).flatten).filter p
      = (credits.map (fun cred =>
          (cred.val.payments.filter (fun pay => p (paymentTransaction cred pay))).map
            (paymentTransaction cred))).flatten := by
  induction credits with
  | nil => rfl
  | cons c cs ih =>
    rw [List.map_cons, List.flatten_cons, List.filter_append, ih, List.map_cons,
      List.flatten_cons, List.filter_map]
    rfl

theorem filter_all (st : Store) (customerId : Nat) (p : Transaction → Bool) :
    (allTransactions st customerId).filter p
      = ((customerInvoices st customerId).filter (fun inv => p (invoiceTransaction inv))).map
          invoiceTransaction
        ++ ((customerCredits st customerId).map (fun cred =>
            (cred.val.payments.filter (fun pay => p (paymentTransaction cred pay))).map
              (paymentTransaction cred))).flatten := by
  unfold allTransactions
  rw [List.filter_append, filter_payments, List.filter_map]
  rfl

theorem sum_before_next (a b : Int) (hle : a ≤ b + 1) (l : List Transaction) :
    ((l.filter (fun tx => dateBefore tx.date a)).map (fun tx => tx.debit - tx.credit)).sum
      + ((l.filter (fun tx => dateWithin tx.date a b)).map (fun tx => tx.debit)).sum
      - ((l.filter (fun tx => dateWithin tx.date a b)).map (fun tx => tx.credit)).sum
    = ((l.filter (fun tx => dateBefore tx.date (b + 1))).map
        (fun tx => tx.debit - tx.credit)).sum := by
  induction l with
  | nil => rfl
  | cons tx l ih =>
    have hcases : (dateBefore tx.date a = true ∧ dateWithin tx.date a b = false
          ∧ dateBefore tx.date (b + 1) = true) ∨
        (dateBefore tx.date a = false ∧ dateWithin tx.date a b = true
          ∧ dateBefore tx.date (b + 1) = true) ∨
        (dateBefore tx.date a = false ∧ dateWithin tx.date a b = false
          ∧ dateBefore tx.date (b + 1) = false) := by
      cases tx.date with
      | none => exact Or.inr (Or.inr ⟨rfl, rfl, rfl⟩)
      | some x =>
        simp only [dateBefore, dateWithin, decide_eq_true_eq, decide_eq_false_iff_not,
          Bool.and_eq_true, Bool.and_eq_false_imp]
        omega
    rcases hcases with ⟨h1, h2, h3⟩ | ⟨h1, h2, h3⟩ | ⟨h1, h2, h3⟩
    · simp only [List.filter_cons, h1, h2, h3, if_true, Bool.false_eq_true, if_false,
        List.map_cons, List.sum_cons]
      omega
    · simp only [List.filter_cons, h1, h2, h3, if_true, Bool.false_eq_true, if_false,
        List.map_cons, List.sum_cons]
      omega
    · simp only [List.filter_cons, h1, h2, h3, Bool.false_eq_true, if_false]
      exact ih

theorem insertByDate_sorted (a : Transaction) (l : List Transaction)
    (ha : a.date ≠ none) (hl : ∀ x ∈ l, x.date ≠ none)
    (hs : l.Pairwise InDateOrder) : (insertByDate a l).Pairwise InDateOrder := by
  induction l with
  | nil => simp [insertByDate]
  | cons b bs ih =>
    rw [List.pairwise_cons] at hs
    obtain ⟨s, hsa⟩ := Option.ne_none_iff_exists'.1 ha
    obtain ⟨t, htb⟩ := Option.ne_none_iff_exists'.1 (hl b (List.mem_cons_self _ _))
    unfold insertByDate
    by_cases hab : datedAfter a b = true
    · rw [if_pos hab]
      have hts : t < s := by simpa [datedAfter, hsa, htb] using hab
      rw [List.pairwise_cons]
      refine ⟨?_, ih (fun x hx => hl x (List.mem_cons_of_mem _ hx)) hs.2⟩
      intro x hx
      have hx1 := (insertByDate_perm a bs).mem_iff.1 hx
      rw [List.mem_cons] at hx1
      rcases hx1 with hxa | hxa
      · exact ⟨t, s, htb, by rw [hxa]; exact hsa, le_of_lt hts⟩
      · exact hs.1 x hxa
    · rw [if_neg hab]
      have hst : s ≤ t := by
        have : ¬ t < s := by simpa [datedAfter, hsa, htb] using hab
        omega
      rw [List.pairwise_cons]
      refine ⟨?_, List.pairwise_cons.2 hs⟩
      intro x hx
      rcases List.mem_cons.1 hx with hxb | hxb
      · exact ⟨s, t, hsa, by rw [hxb]; exact htb, hst⟩
      · obtain ⟨t1, u, ht1, hu, htu⟩ := hs.1 x hxb
        rw [htb] at ht1
        injection ht1 with ht1
        exact ⟨s, u, hsa, hu, by omega⟩

theorem sortByDate_sorted (l : List Transaction) (hl : ∀ x ∈ l, x.date ≠ none) :
    (sortByDate l).Pairwise InDateOrder := by
  induction l with
  | nil => simp [sortByDate]
  | cons b bs ih =>
    simp only [sortByDate, List.foldr_cons]
    exact insertByDate_sorted b _ (hl b (List.mem_cons_self _ _))
      (fun x hx => hl x (List.mem_cons_of_mem _ ((sortByDate_perm bs).mem_iff.1 hx)))
      (ih (fun x hx => hl x (List.mem_cons_of_mem _ hx)))

theorem insertByDate_stable (d : Option Nat) (a : Transaction) (l : List Transaction) :
    (insertByDate a l).filter (fun tx => tx.date == d)
      = (a :: l).filter (fun tx => tx.date == d) := by
  induction l with
  | nil => rfl
  | cons b bs ih =>
    unfold insertByDate
    by_cases hab : datedAfter a b = true
    · rw [if_pos hab]
      have hne : a.date ≠ b.date := by
        intro h
        unfold datedAfter at hab
        rw [h] at hab
        cases hb : b.date with
        | none => rw [hb] at hab; simp at hab
        | some y => rw [hb] at hab; simp at hab
      rw [List.filter_cons, ih]
      by_cases h1 : a.date = d
      · have h2 : ¬ b.date = d := fun h => hne (h1.trans h.symm)
        simp [List.filter_cons, h1, h2]
      · simp [List.filter_cons, h1]
    · rw [if_neg hab]

theorem sortByDate_stable (d : Option Nat) (l : List Transaction) :
    (sortByDate l).filter (fun tx => tx.date == d) = l.filter (fun tx => tx.date == d) := by
  induction l with
  | nil => rfl
  | cons a l ih =>
    show (insertByDate a (sortByDate l)).filter _ = _
    rw [insertByDate_stable, List.filter_cons, ih, List.filter_cons]

/-! ## Lemmas for the closing balance over a covering range -/

theorem find_id_of_nodup {α : Type} {l : List (Rec α)} {x : Rec α}
    (hn : (l.map (fun r => r.id)).Nodup) (hx : x ∈ l) :
    l.find? (fun r => r.id == x.id) = some x := by
  induction l with
  | nil => cases hx
  | cons y ys ih =>
    rw [List.map_cons, List.nodup_cons] at hn
    rw [List.find?_cons]
    rcases List.mem_cons.1 hx with h | h
    · subst h
      simp
    · have hy : ¬ y.id = x.id := by
        intro hy
        exact hn.1 (List.mem_map.2 ⟨x, h, hy.symm⟩)
      have hyb : (y.id == x.id) = false := by simpa using hy
      rw [hyb]
      exact ih hn.2 h

theorem sum_map_congr {α : Type} (f g : α → Int) (l : List α) (h : ∀ x ∈ l, f x = g x) :
    (l.map f).sum = (l.map g).sum := by
  rw [List.map_congr_left h]

theorem sum_map_sub {α : Type} (f g : α → Int) (l : List α) :
    (l.map (fun x => f x - g x)).sum = (l.map f).sum - (l.map g).sum := by
  induction l with
  | nil => rfl
  | cons x l ih =>
    simp only [List.map_cons, List.sum_cons, ih]
    omega

/-- When the invoices and credit entries of two lists are matched one to one
by id and link, with `amount = total` on matched pairs, the totals and the
amounts have the same sum. -/
theorem sum_total_eq_sum_amount (invoices : List (Rec InvoiceData))
    (credits : List (Rec CreditData))
    (hids : (invoices.map (fun r => r.id)).Nodup)
    (hlinks : (credits.map (fun c => c.val.invoiceId)).Nodup)
    (hinv : ∀ inv ∈ invoices, ∃ cr ∈ credits,
      cr.val.invoiceId = inv.id ∧ cr.val.amount = inv.val.total)
    (hcred : ∀ cr ∈ credits, ∃ inv ∈ invoices, cr.val.invoiceId = inv.id) :
    (invoices.map (fun inv => inv.val.total)).sum
      = (credits.map (fun cr => cr.val.amount)).sum := by
  have hperm : (invoices.map (fun r => r.id)).Perm (credits.map (fun c => c.val.invoiceId)) := by
    rw [List.perm_ext_iff_of_nodup hids hlinks]
    intro a
    constructor
    · intro ha
      obtain ⟨inv, hi, hia⟩ := List.mem_map.1 ha
      obtain ⟨cr, hc, hl, _⟩ := hinv inv hi
      exact List.mem_map.2 ⟨cr, hc, by rw [hl]; exact hia⟩
    · intro ha
      obtain ⟨cr, hc, hca⟩ := List.mem_map.1 ha
      obtain ⟨inv, hi, hl⟩ := hcred cr hc
      exact List.mem_map.2 ⟨inv, hi, by rw [← hl]; exact hca⟩
  have h1 : (invoices.map (fun inv => inv.val.total)).sum
      = ((invoices.map (fun r => r.id)).map (fun v =>
          ((invoices.find? (fun r => r.id == v)).map (fun r => r.val.total)).getD 0)).sum := by
    rw [List.map_map]
    apply sum_map_congr
    intro inv hi
    show inv.val.total = ((invoices.find? (fun r => r.id == inv.id)).map
      (fun r => r.val.total)).getD 0
    rw [find_id_of_nodup hids hi]
    rfl
  have h2 : (credits.map (fun cr => cr.val.amount)).sum
      = ((credits.map (fun c => c.val.invoiceId)).map (fun v =>
          ((invoices.find? (fun r => r.id == v)).map (fun r => r.val.total)).getD 0)).sum := by
    rw [List.map_map]
    apply sum_map_congr
    intro cr hc
    obtain ⟨inv, hi, hl⟩ := hcred cr hc
    obtain ⟨cr1, hc1, hl1, ha1⟩ := hinv inv hi
    have hcc : cr = cr1 :=
      List.inj_on_of_nodup_map hlinks hc hc1 (by rw [hl, hl1])
    show cr.val.amount = ((invoices.find? (fun r => r.id == cr.val.invoiceId)).map
      (fun r => r.val.total)).getD 0
    rw [hl, find_id_of_nodup hids hi, hcc, ha1]
    rfl
  rw [h1, h2]
  exact (hperm.map _).sum_eq

theorem statement_closing_covered (offset : Int) (st : Store) (customerId : Nat)
    (startDate endDate : Nat)
    (hcover : ∀ tx ∈ allTransactions st customerId,
      dateWithin tx.date (startOfDay offset startDate) (endOfDay offset endDate) = true) :
    (generateImprovedStatement Arith.exact offset st customerId startDate endDate).summary.closingBalance
      = ((customerInvoices st customerId).map (fun inv => inv.val.total)).sum
        - ((customerCredits st customerId).map
            (fun cr => paymentsTotal cr.val.payments)).sum := by
  rw [generateImprovedStatement_eq]
  show _ + _ - _ = _
  rw [sum_filter_perm _ _ (sortByDate_perm _), sum_filter_perm _ _ (sortByDate_perm _),
    sum_filter_perm _ _ (sortByDate_perm _)]
  have hall : (allTransactions st customerId).filter
      (fun tx => dateWithin tx.date (startOfDay offset startDate) (endOfDay offset endDate))
      = (allTransactions st customerId).filter (fun _ => true) := by
    apply List.filter_congr
    intro tx htx
    exact hcover tx htx
  have hnone : (allTransactions st customerId).filter
      (fun tx => dateBefore tx.date (startOfDay offset startDate)) = [] := by
    rw [List.filter_eq_nil_iff]
    intro tx htx hb
    have := dateWithin_of_before (e := endOfDay offset endDate) hb
    rw [hcover tx htx] at this
    cases this
  rw [hall, hnone, sum_filter_all, sum_filter_all]
  simp only [List.filter_true, List.map_nil, List.sum_nil, Int.zero_add]
  have h1 : ((customerCredits st customerId).map (fun cred =>
      (cred.val.payments.map (fun pay => (paymentTransaction cred pay).debit)).sum)).sum = 0 := by
    induction customerCredits st customerId with
    | nil => rfl
    | cons c cs ih =>
      rw [List.map_cons, List.sum_cons, ih]
      have : ∀ l : List Payment, (l.map (fun pay => (paymentTransaction c pay).debit)).sum = 0 := by
        intro l
        induction l with
        | nil => rfl
        | cons q l ihl =>
          rw [List.map_cons, List.sum_cons, ihl]
          rfl
      rw [this]
      rfl
  have h2 : ((customerInvoices st customerId).map
      (fun inv => (invoiceTransaction inv).credit)).sum = 0 := by
    induction customerInvoices st customerId with
    | nil => rfl
    | cons c cs ih =>
      rw [List.map_cons, List.sum_cons, ih]
      rfl
  rw [h1, h2]
  have h3 : ((customerInvoices st customerId).map
      (fun inv => (invoiceTransaction inv).debit)).sum
      = ((customerInvoices st customerId).map (fun inv => inv.val.total)).sum := rfl
  have h4 : ((customerCredits st customerId).map (fun cred =>
      (cred.val.payments.map (fun pay => (paymentTransaction cred pay).credit)).sum)).sum
      = ((customerCredits st customerId).map
          (fun cr => paymentsTotal cr.val.payments)).sum := rfl
  rw [h3, h4]
  omega

/-- In every reachable store the ids of a customer's invoices and the invoice
ids of a customer's credit entries are pairwise distinct. -/
theorem Reachable.customer_keys {st : Store} (h : Reachable st) (customerId : Nat) :
    ((customerInvoices st customerId).map (fun r => r.id)).Nodup ∧
    ((customerCredits st customerId).map (fun c => c.val.invoiceId)).Nodup :=
  ⟨h.distinct.ids_nodup.sublist ((List.filter_sublist _).map _),
    h.wf.credits.links_nodup.sublist ((List.filter_sublist _).map _)⟩

/-! ## The statement on whole numbers -/

theorem sum_filter_disjoint_le {α : Type} (g : α → Nat) (p q : α → Bool)
    (hpq : ∀ x, p x = true → q x = false) (l : List α) :
    ((l.filter p).map g).sum + ((l.filter q).map g).sum ≤ (l.map g).sum := by
  induction l with
  | nil => simp
  | cons x l ih =>
    by_cases hp : p x = true
    · have hq := hpq x hp
      simp only [List.filter_cons, hp, hq, if_true, Bool.false_eq_true, if_false, List.map_cons,
        List.sum_cons]
      omega
    · have hp1 : p x = false := by simpa using hp
      by_cases hq : q x = true
      · simp only [List.filter_cons, hp1, hq, if_true, Bool.false_eq_true, if_false,
          List.map_cons, List.sum_cons]
        omega
      · have hq1 : q x = false := by simpa using hq
        simp only [List.filter_cons, hp1, hq1, Bool.false_eq_true, if_false, List.map_cons,
          List.sum_cons]
        omega

theorem foldl_doubles_balance (l : List Transaction) (a : Int) (ha : IsWhole a)
    (hl : ∀ tx ∈ l, IsWhole tx.debit ∧ IsWhole tx.credit)
    (hb : a.natAbs + (l.map (fun tx => tx.debit.natAbs + tx.credit.natAbs)).sum < safeSize) :
    l.foldl (fun b tx => Arith.doubles.add b (Arith.doubles.sub tx.debit tx.credit)) a
      = a + (l.map (fun tx => tx.debit - tx.credit)).sum := by
  induction l generalizing a with
  | nil => simp
  | cons x l ih =>
    simp only [List.map_cons, List.sum_cons] at hb
    have hx := hl x (List.mem_cons_self _ _)
    rw [List.foldl_cons, doubles_sub_exact hx.1 hx.2 (by omega),
      doubles_add_exact ha (IsWhole.sub hx.1 hx.2) (by omega),
      ih (a + (x.debit - x.credit)) (IsWhole.add ha (IsWhole.sub hx.1 hx.2))
        (fun y hy => hl y (List.mem_cons_of_mem _ hy)) (by omega),
      List.map_cons, List.sum_cons, Int.add_assoc]

theorem sum_natAbs_debit_credit (l : List Transaction) :
    (l.map (fun tx => tx.debit.natAbs)).sum + (l.map (fun tx => tx.credit.natAbs)).sum
      = (l.map (fun tx => tx.debit.natAbs + tx.credit.natAbs)).sum := by
  induction l with
  | nil => rfl
  | cons x l ih =>
    simp only [List.map_cons, List.sum_cons]
    omega

theorem natAbs_balance_le (l : List Transaction) :
    Int.natAbs (l.map (fun tx => tx.debit - tx.credit)).sum
      ≤ (l.map (fun tx => tx.debit.natAbs + tx.credit.natAbs)).sum := by
  induction l with
  | nil => simp
  | cons x l ih =>
    simp only [List.map_cons, List.sum_cons]
    omega

/-- The sums of a statement over whole amounts whose sizes add up to less than
`2 ^ 53`: each sum of doubles is the exact sum. -/
theorem statement_sums_doubles (before within : List Transaction)
    (hB : ∀ tx ∈ before, IsWhole tx.debit ∧ IsWhole tx.credit)
    (hW : ∀ tx ∈ within, IsWhole tx.debit ∧ IsWhole tx.credit)
    (hsum : (before.map (fun tx => tx.debit.natAbs + tx.credit.natAbs)).sum
      + (within.map (fun tx => tx.debit.natAbs + tx.credit.natAbs)).sum < safeSize) :
    before.foldl (fun b tx => Arith.doubles.add b (Arith.doubles.sub tx.debit tx.credit)) 0
      = (before.map (fun tx => tx.debit - tx.credit)).sum ∧
    within.foldl (fun sum tx => Arith.doubles.add sum tx.debit) 0
      = (within.map (fun tx => tx.debit)).sum ∧
    within.foldl (fun sum tx => Arith.doubles.add sum tx.credit) 0
      = (within.map (fun tx => tx.credit)).sum ∧
    Arith.doubles.sub
        (Arith.doubles.add (before.map (fun tx => tx.debit - tx.credit)).sum
          (within.map (fun tx => tx.debit)).sum)
        (within.map (fun tx => tx.credit)).sum
      = (before.map (fun tx => tx.debit - tx.credit)).sum
        + (within.map (fun tx => tx.debit)).sum - (within.map (fun tx => tx.credit)).sum := by
  have hsplit := sum_natAbs_debit_credit within
  have hO := natAbs_balance_le before
  have hD := natAbs_sum_le (fun tx : Transaction => tx.debit) within
  have hC := natAbs_sum_le (fun tx : Transaction => tx.credit) within
  have hwO : IsWhole (before.map (fun tx => tx.debit - tx.credit)).sum :=
    IsWhole.sum _ _ (fun tx htx => IsWhole.sub (hB tx htx).1 (hB tx htx).2)
  have hwD : IsWhole (within.map (fun tx => tx.debit)).sum :=
    IsWhole.sum _ _ (fun tx htx => (hW tx htx).1)
  have hwC : IsWhole (within.map (fun tx => tx.credit)).sum :=
    IsWhole.sum _ _ (fun tx htx => (hW tx htx).2)
  refine ⟨?_, ?_, ?_, ?_⟩
  · rw [foldl_doubles_balance before 0 IsWhole.zero hB (by simp only [Int.natAbs_zero]; omega),
      Int.zero_add]
  · rw [foldl_doubles_add (fun tx : Transaction => tx.debit) within 0 IsWhole.zero
      (fun tx htx => (hW tx htx).1) (by simp only [Int.natAbs_zero]; omega), Int.zero_add]
  · rw [foldl_doubles_add (fun tx : Transaction => tx.credit) within 0 IsWhole.zero
      (fun tx htx => (hW tx htx).2) (by simp only [Int.natAbs_zero]; omega), Int.zero_add]
  · rw [doubles_add_exact hwO hwD (by omega),
      doubles_sub_exact (IsWhole.add hwO hwD) hwC (by omega)]

/-- On whole amounts whose sizes add up to less than `2 ^ 53`, the statement
computed on doubles is the statement computed with exact sums. -/
theorem generateImprovedStatement_doubles (offset : Int) (st : Store) (customerId : Nat)
    (startDate endDate : Nat) (h : WholeAmounts st customerId) :
    generateImprovedStatement Arith.doubles offset st customerId startDate endDate
      = generateImprovedStatement Arith.exact offset st customerId startDate endDate := by
  rw [generateImprovedStatement_eq, generateImprovedStatement_run]
  have hmem : ∀ (p : Transaction → Bool),
      ∀ tx ∈ (sortByDate (allTransactions st customerId)).filter p,
        IsWhole tx.debit ∧ IsWhole tx.credit := by
    intro p tx htx
    exact h.1 tx ((sortByDate_perm _).mem_iff.1 (List.mem_of_mem_filter htx))
  have hsum : (((sortByDate (allTransactions st customerId)).filter
        (fun tx => dateBefore tx.date (startOfDay offset startDate))).map
          (fun tx => tx.debit.natAbs + tx.credit.natAbs)).sum
      + (((sortByDate (allTransactions st customerId)).filter
        (fun tx => dateWithin tx.date (startOfDay offset startDate)
          (endOfDay offset endDate))).map
          (fun tx => tx.debit.natAbs + tx.credit.natAbs)).sum < safeSize := by
    have h1 := sum_filter_disjoint_le (fun tx : Transaction => tx.debit.natAbs + tx.credit.natAbs)
      (fun tx => dateBefore tx.date (startOfDay offset startDate))
      (fun tx => dateWithin tx.date (startOfDay offset startDate) (endOfDay offset endDate))
      (fun tx hb => dateWithin_of_before hb) (sortByDate (allTransactions st customerId))
    have h2 : ((sortByDate (allTransactions st customerId)).map
        (fun tx => tx.debit.natAbs + tx.credit.natAbs)).sum
        = ((allTransactions st customerId).map
          (fun tx => tx.debit.natAbs + tx.credit.natAbs)).sum :=
      ((sortByDate_perm _).map _).sum_eq
    have h3 := h.2
    omega
  obtain ⟨h1, h2, h3, h4⟩ := statement_sums_doubles _ _
    (hmem (fun tx => dateBefore tx.date (startOfDay offset startDate)))
    (hmem (fun tx => dateWithin tx.date (startOfDay offset startDate) (endOfDay offset endDate)))
    hsum
  rw [h1, h2, h3, h4]

theorem wholeDebtsStore_wf : StoreWF wholeDebtsStore where
  credits :=
    { ids := by
        intro r hr
        simp only [wholeDebtsStore, List.mem_cons, List.mem_singleton, List.not_mem_nil,
          or_false] at hr
        rcases hr with h | h
        · exact ⟨2, by rw [h]; rfl, by decide⟩
        · exact ⟨4, by rw [h]; rfl, by decide⟩
      ids_nodup := by decide
      links := by
        intro r hr
        simp only [wholeDebtsStore, List.mem_cons, List.mem_singleton, List.not_mem_nil,
          or_false] at hr
        rcases hr with h | h
        · exact ⟨1, by rw [h]; rfl, by decide⟩
        · exact ⟨3, by rw [h]; rfl, by decide⟩
      links_nodup := by decide }
  invoices := by
    intro r hr
    simp only [wholeDebtsStore, List.mem_cons, List.mem_singleton, List.not_mem_nil,
      or_false] at hr
    rcases hr with h | h
    · exact ⟨1, by rw [h]; rfl, by decide⟩
    · exact ⟨3, by rw [h]; rfl, by decide⟩

/-! ## Lemmas on `importData` -/

theorem getItem_setItem_same (ls : LocalStorage) (k : String) (v : Json) :
    getItem (setItem ls k v) k = some v := by
  induction ls with
  | nil => simp [setItem, getItem]
  | cons e l ih =>
    obtain ⟨k1, v1⟩ := e
    unfold setItem
    by_cases h : k1 = k
    · rw [if_pos h]
      simp [getItem]
    · rw [if_neg h]
      unfold getItem
      rw [if_neg h]
      exact ih

theorem getItem_setItem_other (ls : LocalStorage) (k j : String) (v : Json) (h : j ≠ k)
    (hk : getItem ls k ≠ none) : getItem (setItem ls k v) j = getItem ls j := by
  induction ls with
  | nil => exact absurd rfl hk
  | cons e l ih =>
    obtain ⟨k1, v1⟩ := e
    unfold setItem
    by_cases h1 : k1 = k
    · rw [if_pos h1]
      unfold getItem
      rw [if_neg (fun hkj => h hkj.symm), if_neg (fun hkj => h (by rw [← hkj, h1]))]
    · rw [if_neg h1]
      unfold getItem
      by_cases h2 : k1 = j
      · rw [if_pos h2, if_pos h2]
      · rw [if_neg h2, if_neg h2]
        apply ih
        unfold getItem at hk
        rw [if_neg h1] at hk
        exact hk

theorem importKeys_getItem_other (accepts : String → Json → Bool) (fields : List (String × Json))
    (ls : LocalStorage) (j : String) (h : ∀ f ∈ fields, storageKey f.1 ≠ j) :
    getItem (importKeys accepts ls fields).2 j = getItem ls j := by
  induction fields generalizing ls with
  | nil => rfl
  | cons f rest ih =>
    obtain ⟨key, value⟩ := f
    have hrest : ∀ f ∈ rest, storageKey f.1 ≠ j := fun f hf => h f (List.mem_cons_of_mem _ hf)
    unfold importKeys
    split
    · rename_i hw
      split
      · rw [ih _ hrest]
        apply getItem_setItem_other
        · exact fun hj => h (key, value) (List.mem_cons_self _ _) hj.symm
        · intro hn
          have := hw.2
          unfold hasOwnProperty at this
          rw [hn] at this
          cases this
      · rfl
    · exact ih _ hrest

theorem importKeys_has (accepts : String → Json → Bool) (fields : List (String × Json))
    (ls : LocalStorage) (j : String) :
    hasOwnProperty (importKeys accepts ls fields).2 j = hasOwnProperty ls j := by
  induction fields generalizing ls with
  | nil => rfl
  | cons f rest ih =>
    obtain ⟨key, value⟩ := f
    unfold importKeys
    split
    · rename_i hw
      split
      · rw [ih]
        unfold hasOwnProperty
        by_cases hj : j = storageKey key
        · rw [hj, getItem_setItem_same]
          have := hw.2
          unfold hasOwnProperty at this
          rw [this]
          rfl
        · rw [getItem_setItem_other _ _ _ _ hj]
          intro hn
          have := hw.2
          unfold hasOwnProperty at this
          rw [hn] at this
          cases this
      · rfl
    · exact ih _

theorem importKeys_cons (accepts : String → Json → Bool) (ls : LocalStorage) (key : String)
    (value : Json) (rest : List (String × Json)) :
    importKeys accepts ls ((key, value) :: rest)
      = if key ≠ "exportDate" ∧ hasOwnProperty ls (storageKey key) = true then
          if accepts (storageKey key) value = true then
            importKeys accepts (setItem ls (storageKey key) value) rest
          else (false, ls)
        else importKeys accepts ls rest := by
  rw [importKeys]

theorem importKeys_append (accepts : String → Json → Bool) (pre post : List (String × Json))
    (ls : LocalStorage) :
    importKeys accepts ls (pre ++ post)
      = if (importKeys accepts ls pre).1 = true then
          importKeys accepts (importKeys accepts ls pre).2 post
        else importKeys accepts ls pre := by
  induction pre generalizing ls with
  | nil => rfl
  | cons f rest ih =>
    obtain ⟨key, value⟩ := f
    rw [List.cons_append, importKeys_cons, importKeys_cons]
    by_cases h1 : key ≠ "exportDate" ∧ hasOwnProperty ls (storageKey key) = true
    · rw [if_pos h1, if_pos h1]
      by_cases h2 : accepts (storageKey key) value = true
      · rw [if_pos h2, if_pos h2]
        exact ih _
      · rw [if_neg h2, if_neg h2]
        rfl
    · rw [if_neg h1, if_neg h1]
      exact ih _

theorem importKeys_accepted (accepts : String → Json → Bool) (fields : List (String × Json))
    (ls : LocalStorage) (h : ∀ f ∈ fields, accepts (storageKey f.1) f.2 = true) :
    (importKeys accepts ls fields).1 = true := by
  induction fields generalizing ls with
  | nil => rfl
  | cons f rest ih =>
    obtain ⟨key, value⟩ := f
    have hrest : ∀ f ∈ rest, accepts (storageKey f.1) f.2 = true :=
      fun f hf => h f (List.mem_cons_of_mem _ hf)
    unfold importKeys
    split
    · rw [if_pos (h (key, value) (List.mem_cons_self _ _))]
      exact ih _ hrest
    · exact ih _ hrest

/-! ## Theorems -/

set_option maxRecDepth 100000

/-- C1 does not hold of the code: after a pending invoice of total 1000 is
created and a payment of 400 is recorded with `savePayment`, the store is
reachable, the credit entry of the invoice carries the payment of 400, and
the invoice is still pending with `remainingAmount` 1000 instead of 600. -/
theorem savePayment_leaves_invoice_remainingAmount :
    FormReachable partlyPaidStore ∧
    partlyPaidStore.invoices.map
        (fun r => (r.id, r.val.status, r.val.total, r.val.remainingAmount))
      = [(some 1, Status.pending, 1000, some 1000)] ∧
    partlyPaidStore.credits.map
        (fun c => (c.val.invoiceId, c.val.remainingAmount, c.val.payments.map (fun p => p.amount)))
      = [(some 1, 600, [400])] ∧
    ¬ PendingInvoicesBalanced partlyPaidStore := by
  refine ⟨?_, by decide, by decide, ?_⟩
  · exact FormReachable.savePayment 7 _ 300 pendingInvoiceStore_formReachable (by decide)
  · intro h
    have h1 := h ⟨some 1, some 100, none,
      { invoiceNumber := { pfx := "INV", number := 1000 }, customerId := 7
        invoiceDate := some 10, dueDate := none, paymentDate := none, paymentMethod := none
        items := [{ productId := some 5, quantity := 1, rate := 1000, amount := 1000 }]
        subtotal := some 1000, tax := some 0, total := 1000, status := .pending, notes := ""
        remainingAmount := some 1000, convertedFrom := none }⟩ (by decide) rfl
    revert h1
    decide

/-- C2 does not hold of the code: after a pending invoice of total 1000 is
created and settled in full by a payment of 1000 with `savePayment`, the
store is reachable, the credit entry is paid with nothing remaining, and the
invoice is stored with status paid and `remainingAmount` 1000 instead of 0. -/
theorem savePayment_paid_invoice_keeps_remainingAmount :
    FormReachable fullyPaidStore ∧
    fullyPaidStore.credits.map (fun c => (c.val.invoiceId, c.val.status, c.val.remainingAmount))
      = [(some 1, Status.paid, 0)] ∧
    fullyPaidStore.invoices.map (fun r => (r.id, r.val.status, r.val.remainingAmount))
      = [(some 1, Status.paid, some 1000)] ∧
    ¬ PaidInvoicesCleared fullyPaidStore := by
  refine ⟨?_, by decide, by decide, ?_⟩
  · exact FormReachable.savePayment 7 _ 300 pendingInvoiceStore_formReachable (by decide)
  · intro h
    have h1 := h ⟨some 1, some 100, some 300,
      { invoiceNumber := { pfx := "INV", number := 1000 }, customerId := 7
        invoiceDate := some 10, dueDate := none, paymentDate := some 200
        paymentMethod := some "cash"
        items := [{ productId := some 5, quantity := 1, rate := 1000, amount := 1000 }]
        subtotal := some 1000, tax := some 0, total := 1000, status := .paid, notes := ""
        remainingAmount := some 1000, convertedFrom := none }⟩ (by decide) rfl
    revert h1
    decide

/-- C3 does not hold of the code: after a pending invoice of total 1000 is
created and then edited so that its total is 2000 (nothing received), the
store is reachable and the credit entry has `amount` 1000, no payments and
`remainingAmount` 2000. -/
theorem saveInvoice_edit_keeps_credit_amount :
    FormReachable repricedStore ∧
    repricedStore.credits.map
        (fun c => (c.val.invoiceId, c.val.amount, c.val.remainingAmount, c.val.payments))
      = [(some 1, 1000, 2000, [])] ∧
    ¬ CreditsBalanced repricedStore := by
  refine ⟨?_, by decide, ?_⟩
  · exact FormReachable.saveInvoice (some 1) _ 400 pendingInvoiceStore_formReachable
      (by decide) (by decide)
  · intro h
    have h1 := h ⟨some 2, some 100, some 400,
      { customerId := 7, invoiceId := some 1, amount := 1000, remainingAmount := 2000
        dueDate := none, status := .pending, notes := "From invoice #INV-1000"
        payments := [] }⟩ (by decide)
    revert h1
    decide

/-- C4 does not hold of the code: after an invoice of total 100 is created
as paid and then re-saved as pending with total 200 (100 shown as received),
the store is reachable and the credit entry has `remainingAmount` 100 and
still status paid. -/
theorem saveInvoice_reopened_credit_stays_paid :
    FormReachable reopenedStore ∧
    reopenedStore.invoices.map (fun r => (r.id, r.val.status, r.val.remainingAmount))
      = [(some 1, Status.pending, some 100)] ∧
    reopenedStore.credits.map (fun c => (c.val.invoiceId, c.val.status, c.val.remainingAmount))
      = [(some 1, Status.paid, 100)] ∧
    ¬ CreditStatusMatches reopenedStore := by
  refine ⟨?_, by decide, by decide, ?_⟩
  · exact FormReachable.saveInvoice (some 1) _ 400
      (FormReachable.saveInvoice none (sampleForm 100 0 0 .paid) 100 FormReachable.init
        (by decide) (by decide))
      (by decide) (by decide)
  · intro h
    have h1 := h ⟨some 2, some 100, some 400,
      { customerId := 7, invoiceId := some 1, amount := 100, remainingAmount := 100
        dueDate := none, status := .paid, notes := "From paid invoice #INV-1000"
        payments := [{ amount := 100, date := some 20, method := "cash" }] }⟩ (by decide)
    revert h1
    decide

/-- C5: in every store reachable from the freshly initialised store by
`saveInvoice`, `savePayment`, `deleteInvoice` and `convertToInvoice` calls
(and `saveQuotation` calls, whatever the arguments and outcomes), for every
invoice id at most one credit entry has that `invoiceId`. -/
theorem reachable_oneCreditPerInvoice (st : Store) (h : Reachable st) :
    OneCreditPerInvoice st :=
  oneCredit_of_wf h.wf

theorem reachable_oneCreditPerInvoice_witness :
    Reachable twoInvoiceStore ∧ twoInvoiceStore.credits.length = 2 ∧
      OneCreditPerInvoice twoInvoiceStore :=
  ⟨twoInvoiceStore_reachable, by decide,
    reachable_oneCreditPerInvoice twoInvoiceStore twoInvoiceStore_reachable⟩

/-- C6 does not hold of the code for quantities with a fractional part: the
two stock loops of `saveInvoice` add and subtract doubles, and the difference
does not undo the sum.  With a stock of 0.5 and an invoice for 0.2 units that
is saved again with its items unchanged, the stock becomes
`(0.5 + 0.2) - 0.2 = 0.49999999999999994`.  Whole numbers are rounded as
well once a sum reaches `2 ^ 53` in size: `2 ^ 53 + 1` gives `2 ^ 53`. -/
theorem saveInvoice_edit_stock_rounded :
    Arith.doubles.add (whole (2 ^ 53)) (whole 1) = whole (2 ^ 53) ∧
    stockOf fractionalProducts 1 = some (decimal 1 2) ∧
    quantityOf 1 fractionalItems = decimal 2 10 ∧
    stockOf (adjustStockWith Arith.doubles 1 200 fractionalProducts fractionalItems) 1
      = some (decimal 7 10) ∧
    stockOf
        (adjustStockWith Arith.doubles (-1) 200
          (adjustStockWith Arith.doubles 1 200 fractionalProducts fractionalItems)
          fractionalItems) 1
      = some (decimal 49999999999999994 100000000000000000) ∧
    decimal 49999999999999994 100000000000000000 ≠ decimal 1 2 ∧
    stockOf
        (adjustStockWith Arith.doubles (-1) 200
          (adjustStockWith Arith.doubles 1 200 fractionalProducts fractionalItems)
          fractionalItems) 1
      ≠ stockOf fractionalProducts 1 := by
  decide

/-- C6 as amended, for whole-number stock levels and quantities: for an
existing invoice with stored item list A, an accepted `saveInvoice` edit
stores the item list B built from the form rows, and for every product id the
stock of the product stored under it is the stock before plus the quantities
of the items of A that reference it minus the quantities of the items of B
that reference it; when B = A the stock is unchanged.  These are the stock
levels the code computes: when for every product the sizes of its stock and of
the quantities of A and of B add up to less than `2 ^ 53`, the two stock loops
run on the doubles of these numbers leave the doubles of the products that
`saveInvoice` leaves. -/
theorem saveInvoice_edit_stock (st : Store) (i : Nat) (ex : Rec InvoiceData)
    (form : InvoiceForm) (now : Nat)
    (hex : getById st.invoices i = some ex)
    (hok : (saveInvoice st (some i) form now).1 = .ok) :
    ∃ saved, getById (saveInvoice st (some i) form now).2.invoices i = some saved ∧
      saved.val.items = form.rows.map rowItem ∧
      (∀ pid, stockOf (saveInvoice st (some i) form now).2.products pid
        = (stockOf st.products pid).map
            (fun s => s + quantityOf pid ex.val.items - quantityOf pid saved.val.items)) ∧
      (saved.val.items = ex.val.items →
        ∀ pid, stockOf (saveInvoice st (some i) form now).2.products pid
          = stockOf st.products pid) ∧
      ((∀ p ∈ st.products,
          p.val.currentStock.natAbs
            + (ex.val.items.map (fun item => item.quantity.natAbs)).sum
            + (saved.val.items.map (fun item => item.quantity.natAbs)).sum < 2 ^ 53) →
        adjustStockWith Arith.doubles (-1) now
            (adjustStockWith Arith.doubles 1 now (st.products.map wholeProduct)
              (ex.val.items.map wholeItem))
            (saved.val.items.map wholeItem)
          = (saveInvoice st (some i) form now).2.products.map wholeProduct) := by
  obtain ⟨_, customerId, _, hw⟩ := saveInvoice_ok hok
  rcases hw with ⟨hnone, _⟩ | ⟨i1, ex1, hi1, hex1, hw⟩
  · cases hnone
  · injection hi1 with hi1
    subst hi1
    rw [hex] at hex1
    injection hex1 with hex1
    subst hex1
    rw [hw]
    have hstock : ∀ pid,
        stockOf (writeInvoice st (some i) (some ex) customerId form now).products pid
          = (stockOf st.products pid).map
              (fun s => s + quantityOf pid ex.val.items
                - quantityOf pid (form.rows.map rowItem)) := by
      intro pid
      show stockOf (adjustStock (-1) now (adjustStock 1 now st.products ex.val.items)
        (calculateInvoiceTotal form.rows).1) pid = _
      rw [adjustStock_stockOf, adjustStock_stockOf, calculateInvoiceTotal_items]
      cases stockOf st.products pid with
      | none => rfl
      | some s =>
        simp only [Option.map_some']
        congr 1
        ring
    refine ⟨_, getById_save_existing now st.nextId rfl hex, ?_, ?_, ?_, ?_⟩
    · exact calculateInvoiceTotal_items form.rows
    · intro pid
      rw [hstock pid]
      show _ = (stockOf st.products pid).map
        (fun s => s + quantityOf pid ex.val.items
          - quantityOf pid (calculateInvoiceTotal form.rows).1)
      rw [calculateInvoiceTotal_items]
    · intro hsame pid
      have hsame1 : form.rows.map rowItem = ex.val.items := by
        rw [← calculateInvoiceTotal_items]
        exact hsame
      rw [hstock pid, hsame1]
      cases stockOf st.products pid with
      | none => rfl
      | some s => simp
    · intro hb
      show adjustStockWith Arith.doubles (-1) now
          (adjustStockWith Arith.doubles 1 now (st.products.map wholeProduct)
            (ex.val.items.map wholeItem))
          ((calculateInvoiceTotal form.rows).1.map wholeItem)
        = (adjustStock (-1) now (adjustStock 1 now st.products ex.val.items)
            (calculateInvoiceTotal form.rows).1).map wholeProduct
      have hb1 : ∀ p ∈ st.products,
          p.val.currentStock.natAbs
            + (ex.val.items.map (fun item => item.quantity.natAbs)).sum
            + ((calculateInvoiceTotal form.rows).1.map (fun item => item.quantity.natAbs)).sum
            < 2 ^ 53 := hb
      rw [adjustStockWith_doubles_whole 1 (Or.inl rfl) now ex.val.items st.products
          (fun p hp => by have := hb1 p hp; omega),
        adjustStockWith_doubles_whole (-1) (Or.inr rfl) now (calculateInvoiceTotal form.rows).1
          (adjustStock 1 now st.products ex.val.items)
          (fun q hq => by
            obtain ⟨p, hp, hle⟩ :=
              adjustStock_bound 1 (Or.inl rfl) now ex.val.items st.products q hq
            have := hb1 p hp
            omega)]

theorem saveInvoice_edit_stock_witness :
    stockOf stockedStore.products 1 = some 7 ∧
    stockOf
        (adjustStockWith Arith.doubles (-1) 200
          (adjustStockWith Arith.doubles 1 200 (stockedStore.products.map wholeProduct)
            (stockedItems.map wholeItem))
          (stockedEdit.rows.map (fun row => wholeItem (rowItem row)))) 1
      = some (whole 5) ∧
    stockOf (saveInvoice stockedStore (some 2) stockedEdit 200).2.products 1 = some 5 ∧
    ∃ saved, getById (saveInvoice stockedStore (some 2) stockedEdit 200).2.invoices 2
        = some saved ∧
      saved.val.items = stockedEdit.rows.map rowItem ∧
      (∀ pid, stockOf (saveInvoice stockedStore (some 2) stockedEdit 200).2.products pid
        = (stockOf stockedStore.products pid).map
            (fun s => s + quantityOf pid stockedItems - quantityOf pid saved.val.items)) ∧
      (saved.val.items = stockedItems →
        ∀ pid, stockOf (saveInvoice stockedStore (some 2) stockedEdit 200).2.products pid
          = stockOf stockedStore.products pid) ∧
      ((∀ p ∈ stockedStore.products,
          p.val.currentStock.natAbs
            + (stockedItems.map (fun item => item.quantity.natAbs)).sum
            + (saved.val.items.map (fun item => item.quantity.natAbs)).sum < 2 ^ 53) →
        adjustStockWith Arith.doubles (-1) 200
            (adjustStockWith Arith.doubles 1 200 (stockedStore.products.map wholeProduct)
              (stockedItems.map wholeItem))
            (saved.val.items.map wholeItem)
          = (saveInvoice stockedStore (some 2) stockedEdit 200).2.products.map wholeProduct) :=
  ⟨by decide, by decide, by decide,
    saveInvoice_edit_stock stockedStore 2
      { id := some 2, createdAt := some 100, updatedAt := none
        val :=
          { invoiceNumber := { pfx := "INV", number := 1000 }, customerId := 7
            invoiceDate := some 10, dueDate := none, paymentDate := none, paymentMethod := none
            items := stockedItems
            subtotal := some 300, tax := some 0, total := 300, status := .pending, notes := ""
            remainingAmount := some 300, convertedFrom := none } }
      stockedEdit 200 (by decide) (by decide)⟩

/-- C7: `saveInvoice` shows a validation message and returns exactly when
the customer id is empty, or the item list is empty or has no item with a
product id, or the status is pending and `partialPayment + newPayment` is at
least the total (the sum of quantity × rate over the rows); it saves exactly
when none of these holds and, on edit, the invoice exists.  For a total of
500 and status pending, received 500 is rejected and received 499 is
accepted. -/
theorem saveInvoice_rejects_iff (st : Store) (invoiceId : Option Nat) (form : InvoiceForm)
    (now : Nat) :
    ((∃ msg, (saveInvoice st invoiceId form now).1 = .rejected msg) ↔ RejectCondition form) ∧
    ((saveInvoice st invoiceId form now).1 = .ok ↔
      ¬ RejectCondition form ∧ ∀ i, invoiceId = some i → (getById st.invoices i).isSome) ∧
    (∃ msg, (saveInvoice st invoiceId (sampleForm 500 500 0 .pending) now).1 = .rejected msg) ∧
    (saveInvoice st none (sampleForm 500 499 0 .pending) now).1 = .ok := by
  have key : ∀ (invoiceId : Option Nat) (f : InvoiceForm),
      (RejectCondition f → ∃ msg, (saveInvoice st invoiceId f now).1 = .rejected msg) ∧
      (¬ RejectCondition f → (∀ i, invoiceId = some i → (getById st.invoices i).isSome) →
        (saveInvoice st invoiceId f now).1 = .ok) ∧
      (¬ RejectCondition f → ¬ (∀ i, invoiceId = some i → (getById st.invoices i).isSome) →
        (saveInvoice st invoiceId f now).1 = .threw) := by
    intro invoiceId f
    unfold saveInvoice RejectCondition
    rw [← calculateInvoiceTotal_total]
    cases hc : f.customerId with
    | none => exact ⟨fun _ => ⟨_, rfl⟩, fun h => absurd (Or.inl rfl) h,
        fun h => absurd (Or.inl rfl) h⟩
    | some customerId =>
      simp only
      by_cases h1 : f.rows.length = 0 ∨
          ¬ (f.rows.any (fun item => item.productId.isSome)) = true
      · rw [if_pos h1]
        have hr : f.rows = [] ∨ ∀ row ∈ f.rows, row.productId = none := by
          rcases h1 with h1 | h1
          · exact Or.inl (List.length_eq_zero.1 h1)
          · exact Or.inr ((any_productId_iff _).1 h1)
        have hR : some customerId = none ∨ f.rows = [] ∨
            (∀ row ∈ f.rows, row.productId = none) ∨
            (f.status = .pending ∧
              f.partialPayment + f.newPayment ≥ (calculateInvoiceTotal f.rows).2) := by
          rcases hr with hr | hr
          · exact Or.inr (Or.inl hr)
          · exact Or.inr (Or.inr (Or.inl hr))
        exact ⟨fun _ => ⟨_, rfl⟩, fun h => absurd hR h, fun h => absurd hR h⟩
      · rw [if_neg h1]
        by_cases h2 : f.status = .pending ∧
            f.partialPayment + f.newPayment ≥ (calculateInvoiceTotal f.rows).2
        · rw [if_pos h2]
          exact ⟨fun _ => ⟨_, rfl⟩, fun h => absurd (Or.inr (Or.inr (Or.inr h2))) h,
            fun h => absurd (Or.inr (Or.inr (Or.inr h2))) h⟩
        · rw [if_neg h2]
          have hnot : ¬ (some customerId = none ∨ f.rows = [] ∨
              (∀ row ∈ f.rows, row.productId = none) ∨
              (f.status = .pending ∧
                f.partialPayment + f.newPayment ≥ (calculateInvoiceTotal f.rows).2)) := by
            rintro (hh | hh | hh | hh)
            · cases hh
            · exact h1 (Or.inl (by rw [hh]; rfl))
            · exact h1 (Or.inr ((any_productId_iff _).2 hh))
            · exact h2 hh
          refine ⟨fun h => absurd h hnot, ?_, ?_⟩
          · intro _ hex
            cases invoiceId with
            | none => rfl
            | some i =>
              simp only
              cases hg : getById st.invoices i with
              | none =>
                have := hex i rfl
                rw [hg] at this
                cases this
              | some ex => rfl
          · intro _ hex
            cases invoiceId with
            | none => exact absurd (fun i hi => by cases hi) hex
            | some i =>
              simp only
              cases hg : getById st.invoices i with
              | none => rfl
              | some ex =>
                refine absurd (fun k hk => ?_) hex
                injection hk with hk
                rw [← hk, hg]
                rfl
  refine ⟨⟨?_, (key invoiceId form).1⟩, ⟨?_, fun h => (key invoiceId form).2.1 h.1 h.2⟩, ?_, ?_⟩
  · rintro ⟨msg, hmsg⟩
    by_contra hR
    by_cases hex : ∀ i, invoiceId = some i → (getById st.invoices i).isSome
    · rw [(key invoiceId form).2.1 hR hex] at hmsg
      cases hmsg
    · rw [(key invoiceId form).2.2 hR hex] at hmsg
      cases hmsg
  · intro hok
    have hR : ¬ RejectCondition form := by
      intro hR
      obtain ⟨msg, hmsg⟩ := (key invoiceId form).1 hR
      rw [hok] at hmsg
      cases hmsg
    refine ⟨hR, ?_⟩
    by_contra hex
    rw [(key invoiceId form).2.2 hR hex] at hok
    cases hok
  · exact (key invoiceId _).1 (Or.inr (Or.inr (Or.inr ⟨rfl, by decide⟩)))
  · have hR : ¬ RejectCondition (sampleForm 500 499 0 .pending) := by
      unfold RejectCondition
      decide
    exact (key none (sampleForm 500 499 0 .pending)).2.1 hR (by intro i hi; cases hi)

/-- C8: whenever `saveInvoice` returns with a validation message, the store
it leaves is the store it was given: no product, invoice or credit entry is
created or changed and no counter is advanced. -/
theorem saveInvoice_rejected_store (st : Store) (invoiceId : Option Nat)
    (form : InvoiceForm) (now : Nat) (msg : String)
    (h : (saveInvoice st invoiceId form now).1 = .rejected msg) :
    (saveInvoice st invoiceId form now).2 = st := by
  unfold saveInvoice at h ⊢
  cases hc : form.customerId with
  | none => rfl
  | some customerId =>
    simp only [hc] at h ⊢
    split
    · rfl
    · split
      · rfl
      · rename_i h1 h2
        rw [if_neg h1, if_neg h2] at h
        cases invoiceId with
        | none => cases h
        | some i =>
          simp only at h ⊢
          cases hg : getById st.invoices i with
          | none => rfl
          | some ex =>
            rw [hg] at h
            cases h

theorem saveInvoice_rejected_store_witness :
    (saveInvoice pendingInvoiceStore (some 1) (sampleForm 500 500 0 .pending) 400).1
        = .rejected "For Pending status, Amount Received must be less than the total amount." ∧
    (saveInvoice pendingInvoiceStore (some 1) (sampleForm 500 500 0 .pending) 400).2
        = pendingInvoiceStore :=
  ⟨by decide, saveInvoice_rejected_store pendingInvoiceStore (some 1)
    (sampleForm 500 500 0 .pending) 400
    "For Pending status, Amount Received must be less than the total amount." (by decide)⟩

/-- C9: after an accepted `saveInvoice` the stored invoice (pushed under a
new id on create, found under the given id on edit) has
`total = subtotal = sum over its items of quantity × rate`, and
`remainingAmount = total - (partialPayment + newPayment)` when its status is
pending and `remainingAmount = 0` when it is paid. -/
theorem saveInvoice_stored_amounts (st : Store) (invoiceId : Option Nat) (form : InvoiceForm)
    (now : Nat) (hok : (saveInvoice st invoiceId form now).1 = .ok) :
    ∃ saved, saved ∈ (saveInvoice st invoiceId form now).2.invoices ∧
      (invoiceId = none →
        (saveInvoice st invoiceId form now).2.invoices = st.invoices ++ [saved] ∧
        saved.id = some st.nextId) ∧
      (∀ i, invoiceId = some i →
        getById (saveInvoice st invoiceId form now).2.invoices i = some saved) ∧
      saved.val.items = form.rows.map rowItem ∧
      saved.val.total = (saved.val.items.map (fun item => item.quantity * item.rate)).sum ∧
      saved.val.subtotal = some saved.val.total ∧
      saved.val.status = form.status ∧
      (saved.val.status = .pending →
        saved.val.remainingAmount
          = some (saved.val.total - (form.partialPayment + form.newPayment))) ∧
      (saved.val.status = .paid → saved.val.remainingAmount = some 0) := by
  obtain ⟨_, customerId, _, hw⟩ := saveInvoice_ok hok
  rcases hw with ⟨hnone, hw⟩ | ⟨i, ex, hi, hex, hw⟩
  · subst hnone
    rw [hw]
    have hinv : (writeInvoice st none none customerId form now).invoices
        = st.invoices ++ [{ buildInvoice st none none customerId form now with
            id := some st.nextId, createdAt := some now }] := by
      show (save st.invoices (buildInvoice st none none customerId form now) now st.nextId).1 = _
      rw [save_new _ _ _ _ rfl]
    refine ⟨{ buildInvoice st none none customerId form now with
        id := some st.nextId, createdAt := some now }, ?_, fun _ => ⟨hinv, rfl⟩,
      (fun i hi => by cases hi), buildInvoice_amounts st none none customerId form now _ rfl⟩
    rw [hinv]
    exact List.mem_append_right _ (List.mem_singleton_self _)
  · subst hi
    rw [hw]
    have hget : getById (writeInvoice st (some i) (some ex) customerId form now).invoices i
        = some { buildInvoice st (some i) (some ex) customerId form now with
            updatedAt := some now } :=
      getById_save_existing now st.nextId rfl hex
    refine ⟨_, getById_mem hget, (fun h => by cases h), ?_,
      buildInvoice_amounts st (some i) (some ex) customerId form now _ rfl⟩
    intro k hk
    injection hk with hk
    subst hk
    exact hget

theorem saveInvoice_stored_amounts_witness :
    ∃ saved, saved ∈ (saveInvoice pendingInvoiceStore (some 1)
        (sampleForm 2000 0 300 .pending) 400).2.invoices ∧
      ((some 1 : Option Nat) = none →
        (saveInvoice pendingInvoiceStore (some 1) (sampleForm 2000 0 300 .pending) 400).2.invoices
          = pendingInvoiceStore.invoices ++ [saved] ∧
        saved.id = some pendingInvoiceStore.nextId) ∧
      (∀ i, some 1 = some i →
        getById (saveInvoice pendingInvoiceStore (some 1)
          (sampleForm 2000 0 300 .pending) 400).2.invoices i = some saved) ∧
      saved.val.items = (sampleForm 2000 0 300 .pending).rows.map rowItem ∧
      saved.val.total = (saved.val.items.map (fun item => item.quantity * item.rate)).sum ∧
      saved.val.subtotal = some saved.val.total ∧
      saved.val.status = (sampleForm 2000 0 300 .pending).status ∧
      (saved.val.status = .pending →
        saved.val.remainingAmount
          = some (saved.val.total - ((sampleForm 2000 0 300 .pending).partialPayment
              + (sampleForm 2000 0 300 .pending).newPayment))) ∧
      (saved.val.status = .paid → saved.val.remainingAmount = some 0) :=
  saveInvoice_stored_amounts pendingInvoiceStore (some 1) (sampleForm 2000 0 300 .pending) 400
    (by decide)

/-- C10 does not hold as stated: `saveInvoice` subtracts `partialPayment` only
when it is positive.  A new pending invoice of total 1000 saved with
`partialPayment = -5` is accepted, and its one credit entry is pushed with
`remainingAmount = 1000` and no payment, where `total - partialPayment` is
1005. -/
theorem saveInvoice_ignores_negative_advance :
    (saveInvoice InvoiceDB.init none (sampleForm 1000 (-5) 0 .pending) 100).1 = .ok ∧
    (saveInvoice InvoiceDB.init none (sampleForm 1000 (-5) 0 .pending) 100).2.invoices.map
        (fun r => (r.id, r.val.total, r.val.status))
      = [(some 1, 1000, Status.pending)] ∧
    (saveInvoice InvoiceDB.init none (sampleForm 1000 (-5) 0 .pending) 100).2.credits.map
        (fun c => (c.val.invoiceId, c.val.amount, c.val.remainingAmount, c.val.status,
          c.val.payments))
      = [(some 1, 1000, 1000, Status.pending, [])] ∧
    ¬ (∀ c ∈ (saveInvoice InvoiceDB.init none (sampleForm 1000 (-5) 0 .pending) 100).2.credits,
        c.val.remainingAmount = 1000 - (sampleForm 1000 (-5) 0 .pending).partialPayment) := by
  decide

/-- C10 as amended: an accepted `saveInvoice` call that creates a new invoice
with status pending, in a store where no credit entry is linked to the id the
invoice gets (so in every reachable store), pushes exactly one credit entry:
its `invoiceId` is the new invoice's id, its `customerId` the invoice's, its
`amount` the total, its status pending; when `partialPayment > 0` its
`remainingAmount` is `total - partialPayment` and its payments are one
`advance` entry of amount `partialPayment` dated at the invoice date;
otherwise its `remainingAmount` is the total and it has no payment. -/
theorem saveInvoice_new_pending_credit (st : Store) (form : InvoiceForm) (now : Nat)
    (hok : (saveInvoice st none form now).1 = .ok)
    (hst : form.status = .pending)
    (hfresh : ∀ c ∈ st.credits, c.val.invoiceId ≠ some st.nextId) :
    ∃ inv credit,
      (saveInvoice st none form now).2.invoices = st.invoices ++ [inv] ∧
      inv.id = some st.nextId ∧
      form.customerId = some inv.val.customerId ∧
      inv.val.total = (form.rows.map (fun r => r.quantity * r.rate)).sum ∧
      (saveInvoice st none form now).2.credits = st.credits ++ [credit] ∧
      credit.val.invoiceId = inv.id ∧
      credit.val.customerId = inv.val.customerId ∧
      credit.val.amount = inv.val.total ∧
      credit.val.status = .pending ∧
      credit.val.remainingAmount
        = (if form.partialPayment > 0 then inv.val.total - form.partialPayment
           else inv.val.total) ∧
      credit.val.payments =
        if form.partialPayment > 0 then
          [{ amount := form.partialPayment, date := inv.val.invoiceDate, method := "advance" }]
        else [] := by
  obtain ⟨_, customerId, hcust, hw⟩ := saveInvoice_ok hok
  rcases hw with ⟨_, hw⟩ | ⟨i, ex, hi, _, _⟩
  · rw [hw]
    have hfind : st.credits.find? (fun c => c.val.invoiceId == some st.nextId) = none := by
      rw [List.find?_eq_none]
      intro c hc hce
      exact hfresh c hc (by simpa using hce)
    have hstatus : (buildInvoice st none none customerId form now).val.status = .pending := hst
    have htotal : (buildInvoice st none none customerId form now).val.total
        = (form.rows.map (fun r => r.quantity * r.rate)).sum :=
      calculateInvoiceTotal_total form.rows
    refine ⟨{ buildInvoice st none none customerId form now with
        id := some st.nextId, createdAt := some now }, ?_⟩
    unfold writeInvoice
    simp only [save_new _ _ _ _ (rfl : (buildInvoice st none none customerId form now).id = none)]
    unfold reconcileCredit
    simp only [hfind, hstatus]
    by_cases hpos : form.partialPayment > 0
    · simp only [if_pos hpos]
      rw [save_new _ _ _ _ rfl]
      exact ⟨_, trivial, trivial, hcust, htotal, rfl, rfl, rfl, rfl, rfl, rfl, rfl⟩
    · simp only [if_neg hpos]
      rw [save_new _ _ _ _ rfl]
      exact ⟨_, trivial, trivial, hcust, htotal, rfl, rfl, rfl, rfl, rfl, rfl, rfl⟩
  · cases hi

theorem saveInvoice_new_pending_credit_witness :
    pendingInvoiceStore.credits.map
        (fun c => (c.val.invoiceId, c.val.amount, c.val.remainingAmount, c.val.status,
          c.val.payments))
      = [(some 1, 1000, 1000, Status.pending, [])] ∧
    (saveInvoice InvoiceDB.init none (sampleForm 1000 200 0 .pending) 100).2.credits.map
        (fun c => (c.val.invoiceId, c.val.amount, c.val.remainingAmount, c.val.status,
          c.val.payments))
      = [(some 1, 1000, 800, Status.pending,
          [{ amount := 200, date := some 10, method := "advance" }])] ∧
    ∃ inv credit,
      (saveInvoice InvoiceDB.init none (sampleForm 1000 0 0 .pending) 100).2.invoices
        = InvoiceDB.init.invoices ++ [inv] ∧
      inv.id = some InvoiceDB.init.nextId ∧
      (sampleForm 1000 0 0 .pending).customerId = some inv.val.customerId ∧
      inv.val.total
        = ((sampleForm 1000 0 0 .pending).rows.map (fun r => r.quantity * r.rate)).sum ∧
      (saveInvoice InvoiceDB.init none (sampleForm 1000 0 0 .pending) 100).2.credits
        = InvoiceDB.init.credits ++ [credit] ∧
      credit.val.invoiceId = inv.id ∧
      credit.val.customerId = inv.val.customerId ∧
      credit.val.amount = inv.val.total ∧
      credit.val.status = .pending ∧
      credit.val.remainingAmount
        = (if (sampleForm 1000 0 0 .pending).partialPayment > 0 then
             inv.val.total - (sampleForm 1000 0 0 .pending).partialPayment
           else inv.val.total) ∧
      credit.val.payments =
        if (sampleForm 1000 0 0 .pending).partialPayment > 0 then
          [{ amount := (sampleForm 1000 0 0 .pending).partialPayment, date := inv.val.invoiceDate,
             method := "advance" }]
        else [] :=
  ⟨by decide, by decide,
    saveInvoice_new_pending_credit InvoiceDB.init (sampleForm 1000 0 0 .pending) 100
      (by decide) rfl (Reachable.fresh_link Reachable.init)⟩

/-- C11 does not hold of the code: after a pending invoice of total 1000 is
created and then edited to total 2000 and saved as paid, the store is
reachable, the invoice is stored paid with total 2000, and its credit entry
is paid with nothing remaining but its single payment entry has amount 1000,
the total of the first save. -/
theorem saveInvoice_paid_edit_settles_old_amount :
    FormReachable repricedPaidStore ∧
    repricedPaidStore.invoices.map
        (fun r => (r.id, r.val.status, r.val.total, r.val.paymentDate, r.val.paymentMethod))
      = [(some 1, Status.paid, 2000, some 20, some "cash")] ∧
    repricedPaidStore.credits.map
        (fun c => (c.val.invoiceId, c.val.status, c.val.remainingAmount, c.val.payments))
      = [(some 1, Status.paid, 0, [{ amount := 1000, date := some 20, method := "cash" }])] ∧
    ¬ (∀ inv ∈ repricedPaidStore.invoices, ∀ c ∈ repricedPaidStore.credits,
        c.val.invoiceId = inv.id →
        c.val.payments.map (fun p => p.amount) = [inv.val.total]) := by
  refine ⟨?_, by decide, by decide, by decide⟩
  exact FormReachable.saveInvoice (some 1) _ 400 pendingInvoiceStore_formReachable
    (by decide) (by decide)

/-- C12 does not hold of the code for amounts with a fractional part: the
amount left is a double that is rounded after every entry.  With pending
credit entries of 0.1, 0.2 and 1 (in the order of creation) a payment of 0.6
leaves `(0.6 - 0.1) - 0.2 = 0.3` for the third entry, which is stored with
remaining amount `1 - 0.3 = 0.7` and a payment of 0.3; the claimed allocation
`min 1 (max 0 (0.6 - (0.1 + 0.2)))` is another number, taken exactly as well
as in doubles (0.29999999999999993).  Whole numbers are rounded as well once
a sum reaches `2 ^ 53` in size: `2 ^ 53 + 1` gives `2 ^ 53`. -/
theorem savePayment_allocation_rounded :
    Arith.doubles.add (whole (2 ^ 53)) (whole 1) = whole (2 ^ 53) ∧
    (pendingCredits fractionalDebtsStore 7).map (fun c => (c.id, c.val.remainingAmount))
      = [(some 2, decimal 1 10), (some 4, decimal 2 10), (some 6, whole 1)] ∧
    (savePaymentWith Arith.doubles fractionalDebtsStore 7 fractionalPayment (day 4)).2.credits.map
        (fun c => (c.id, c.val.remainingAmount, c.val.status,
          c.val.payments.map (fun p => p.amount)))
      = [(some 2, 0, Status.paid, [decimal 1 10]), (some 4, 0, Status.paid, [decimal 2 10]),
          (some 6, decimal 7 10, Status.pending, [decimal 3 10])] ∧
    min (whole 1) (max 0 (decimal 6 10
        - (remainingAmounts [creditRecord 2 1 1000 (day 1) (decimal 1 10) (decimal 1 10) [],
            creditRecord 4 3 1001 (day 2) (decimal 2 10) (decimal 2 10) []]).sum))
      ≠ decimal 3 10 ∧
    min (whole 1) (max 0 (Arith.doubles.sub (decimal 6 10)
        (Arith.doubles.add (decimal 1 10) (decimal 2 10))))
      = decimal 29999999999999993 100000000000000000 ∧
    decimal 29999999999999993 100000000000000000 ≠ decimal 3 10 ∧
    ¬ (∀ pre c post, pendingCredits fractionalDebtsStore 7 = pre ++ c :: post →
        ∃ i c1, c.id = some i ∧
          getById (savePaymentWith Arith.doubles fractionalDebtsStore 7 fractionalPayment
            (day 4)).2.credits i = some c1 ∧
          c1.val.remainingAmount
            = c.val.remainingAmount
              - min c.val.remainingAmount
                  (max 0 (decimal 6 10 - (remainingAmounts pre).sum))) := by
  refine ⟨by decide, by decide, by decide, by decide, by decide, by decide, ?_⟩
  intro h
  obtain ⟨i, c1, hi, hget, hrem⟩ := h
    [creditRecord 2 1 1000 (day 1) (decimal 1 10) (decimal 1 10) [],
      creditRecord 4 3 1001 (day 2) (decimal 2 10) (decimal 2 10) []]
    (creditRecord 6 5 1002 (day 3) (whole 1) (whole 1) []) [] (by decide)
  have hi6 : i = 6 := by
    have h1 : (creditRecord 6 5 1002 (day 3) (whole 1) (whole 1) []).id = some 6 := rfl
    rw [h1] at hi
    exact (Option.some.inj hi).symm
  subst hi6
  have hget1 : (getById (savePaymentWith Arith.doubles fractionalDebtsStore 7 fractionalPayment
      (day 4)).2.credits 6).map (fun c => c.val.remainingAmount) = some (decimal 7 10) := by
    decide
  rw [hget] at hget1
  have hc1 : c1.val.remainingAmount = decimal 7 10 := Option.some.inj hget1
  rw [hc1] at hrem
  revert hrem
  decide

/-- C12 as amended: in a well-formed store (ids distinct, as in every
reachable store) whose credit entries carry their creation time, for a payment
amount `P > 0` `savePayment` goes over the customer's pending credit entries
in ascending order of `createdAt`; if `P` and their remaining amounts `r1..rn`
are whole numbers whose sizes add up to less than `2 ^ 53` and `r1..rn` are
all ≥ 0, then after the call the entry in position `i` is stored with
`remainingAmount = ri - ai`, `ai = min ri (max 0 (P - (r1 + … + r(i-1))))`,
and, when money was left on reaching it, with one appended payment of amount
`ai` carrying the date and method of the payment form (no payment is appended
otherwise). -/
theorem savePayment_allocates_oldest_first (st : Store) (customerId : Nat)
    (form : PaymentForm) (now : Nat) (amount : Int)
    (hwf : StoreWF st) (hstamp : ∀ c ∈ st.credits, c.createdAt ≠ none)
    (ha : form.amount = some amount) (hpos : 0 < amount)
    (hr : ∀ c ∈ pendingCredits st customerId, 0 ≤ c.val.remainingAmount)
    (hwhole : WholeDebts st customerId amount) :
    (pendingCredits st customerId).Perm
      (st.credits.filter
        (fun c => c.val.customerId == customerId && c.val.status == .pending)) ∧
    (pendingCredits st customerId).Pairwise EarlierOrSame ∧
    ∀ pre c post, pendingCredits st customerId = pre ++ c :: post →
      ∃ i c1, c.id = some i ∧
        getById (savePaymentWith Arith.doubles st customerId form now).2.credits i = some c1 ∧
        c1.val.remainingAmount
          = c.val.remainingAmount
            - min c.val.remainingAmount (max 0 (amount - (remainingAmounts pre).sum)) ∧
        c1.val.payments
          = c.val.payments ++
            (if 0 < amount - (remainingAmounts pre).sum then
              [{ amount :=
                   min c.val.remainingAmount (max 0 (amount - (remainingAmounts pre).sum))
                 date := form.date, method := form.method }]
             else []) := by
  rw [savePaymentWith_doubles st customerId form now amount ha hwhole]
  refine ⟨sortByCreatedAt_perm _, ?_, ?_⟩
  · exact sortByCreatedAt_sorted _ (fun x hx => hstamp x (List.mem_of_mem_filter hx))
  · intro pre c post hsplit
    obtain ⟨i, hi, hget⟩ :=
      savePayment_credit hwf customerId form now amount ha hpos pre c post hsplit
    have hpre : ∀ r ∈ remainingAmounts pre, 0 ≤ r := by
      intro r hr1
      obtain ⟨d, hd, hdr⟩ := List.mem_map.1 hr1
      rw [← hdr]
      exact hr d (by rw [hsplit]; simp [hd])
    have hc : 0 ≤ c.val.remainingAmount := hr c (by rw [hsplit]; simp)
    rw [amountLeft_closed amount _ (le_of_lt hpos) hpre] at hget
    refine ⟨i, _, hi, hget, ?_, ?_⟩
    · unfold creditAfterLoop
      by_cases h0 : max 0 (amount - (remainingAmounts pre).sum) ≤ 0
      · rw [if_pos h0]
        omega
      · rw [if_neg h0]
        show c.val.remainingAmount
          - min (max 0 (amount - (remainingAmounts pre).sum)) c.val.remainingAmount = _
        rw [min_comm]
    · unfold creditAfterLoop
      by_cases h0 : max 0 (amount - (remainingAmounts pre).sum) ≤ 0
      · rw [if_pos h0, if_neg (by omega), List.append_nil]
      · rw [if_neg h0, if_pos (by omega)]
        show c.val.payments ++
          [{ amount := min (max 0 (amount - (remainingAmounts pre).sum)) c.val.remainingAmount
             date := form.date, method := form.method }] = _
        rw [min_comm]

theorem savePayment_allocates_oldest_first_witness :
    WholeDebts wholeDebtsStore 7 (whole 120) ∧
    (pendingCredits wholeDebtsStore 7).map (fun c => (c.createdAt, c.val.remainingAmount))
      = [(some (day 1), whole 100), (some (day 2), whole 50)] ∧
    (savePaymentWith Arith.doubles wholeDebtsStore 7 wholePayment (day 3)).2.credits.map
        (fun c => (c.val.remainingAmount, c.val.status, c.val.payments.map (fun p => p.amount)))
      = [(0, Status.paid, [whole 100]), (whole 30, Status.pending, [whole 20])] ∧
    ((pendingCredits wholeDebtsStore 7).Perm
      (wholeDebtsStore.credits.filter
        (fun c => c.val.customerId == 7 && c.val.status == .pending)) ∧
    (pendingCredits wholeDebtsStore 7).Pairwise EarlierOrSame ∧
    ∀ pre c post, pendingCredits wholeDebtsStore 7 = pre ++ c :: post →
      ∃ i c1, c.id = some i ∧
        getById (savePaymentWith Arith.doubles wholeDebtsStore 7 wholePayment (day 3)).2.credits i
          = some c1 ∧
        c1.val.remainingAmount
          = c.val.remainingAmount
            - min c.val.remainingAmount (max 0 (whole 120 - (remainingAmounts pre).sum)) ∧
        c1.val.payments
          = c.val.payments ++
            (if 0 < whole 120 - (remainingAmounts pre).sum then
              [{ amount :=
                   min c.val.remainingAmount (max 0 (whole 120 - (remainingAmounts pre).sum))
                 date := wholePayment.date, method := wholePayment.method }]
             else [])) :=
  ⟨by decide, by decide, by decide,
    savePayment_allocates_oldest_first wholeDebtsStore 7 wholePayment (day 3) (whole 120)
      wholeDebtsStore_wf (by decide) rfl (by decide) (by decide) (by decide)⟩

/-- C13 does not hold as stated: customer 8 has a pending credit entry with
remaining amount -5, customer 7 has no credit entry at all (so all of
customer 7's pending entries have a remaining amount ≥ 0), and after
`savePayment` for customer 7 the store still holds the entry with remaining
amount -5. -/
theorem savePayment_keeps_negative_remaining :
    FormReachable negativeDebtStore ∧
    (∀ c ∈ negativeDebtStore.credits,
      c.val.customerId = 7 → c.val.status = .pending → 0 ≤ c.val.remainingAmount) ∧
    (savePayment negativeDebtStore 7 payment10 300).1 = .ok ∧
    (savePayment negativeDebtStore 7 payment10 300).2.credits.map
        (fun c => (c.val.customerId, c.val.status, c.val.remainingAmount))
      = [(8, Status.pending, -5)] ∧
    ¬ (∀ c ∈ (savePayment negativeDebtStore 7 payment10 300).2.credits,
        0 ≤ c.val.remainingAmount) := by
  refine ⟨?_, by decide, by decide, by decide, by decide⟩
  exact FormReachable.saveInvoice none _ 100 FormReachable.init (by decide) (by decide)

/-- C13 as amended: in a well-formed store in which the customer's pending
credit entries have a remaining amount ≥ 0, after `savePayment` (whatever
the amount) the credits collection holds the same entries under the same
ids, no entry's remaining amount is larger than before the call, and every
entry whose remaining amount was ≥ 0 before still has a remaining
amount ≥ 0. -/
theorem savePayment_remaining_safe (st : Store) (customerId : Nat) (form : PaymentForm)
    (now : Nat) (hwf : StoreWF st)
    (hr : ∀ c ∈ st.credits,
      c.val.customerId = customerId → c.val.status = .pending → 0 ≤ c.val.remainingAmount) :
    (savePayment st customerId form now).2.credits.map (fun c => c.id)
      = st.credits.map (fun c => c.id) ∧
    ∀ c1 ∈ (savePayment st customerId form now).2.credits,
      ∃ c ∈ st.credits, c.id = c1.id ∧
        c1.val.remainingAmount ≤ c.val.remainingAmount ∧
        (0 ≤ c.val.remainingAmount → 0 ≤ c1.val.remainingAmount) := by
  have hkeys := savePayment_keys hwf customerId form now
  refine ⟨?_, ?_⟩
  · have := congrArg (List.map Prod.fst) hkeys
    simpa [List.map_map, Function.comp_def, creditKey] using this
  · intro c1 hc1
    obtain ⟨c, hc, hid, _⟩ := mem_of_keys hkeys hc1
    refine ⟨c, hc, hid, ?_⟩
    have hwf1 : StoreWF (savePayment st customerId form now).2 :=
      savePayment_wf customerId form now hwf
    by_cases hok : ∃ amount, form.amount = some amount ∧ 0 < amount
    · obtain ⟨amount, ha, hpos⟩ := hok
      obtain ⟨i, hi, hcases⟩ :=
        savePayment_credit_cases hwf customerId form now amount ha hpos c hc
      have hget1 : getById (savePayment st customerId form now).2.credits i = some c1 :=
        getById_of_mem hwf1.credits.ids_nodup hc1 (by rw [← hid, hi])
      rcases hcases with ⟨_, hget⟩ | ⟨pre, post, hsplit, hget⟩
      · rw [hget1] at hget
        injection hget with hget
        subst hget
        exact ⟨le_refl _, fun h => h⟩
      · rw [hget1] at hget
        injection hget with hget
        have hmem := mem_pendingCredits (show c ∈ pendingCredits st customerId by
          rw [hsplit]; simp)
        have hc0 : 0 ≤ c.val.remainingAmount := hr c hc hmem.2.1 hmem.2.2
        rw [hget, creditAfterLoop_remaining]
        split <;> constructor <;> omega
    · have hrej : savePayment st customerId form now
          = (.rejected "Please enter a valid amount.", st) :=
        savePayment_rejected_eq st customerId form now (by
          intro a h
          by_contra hn
          exact hok ⟨a, h, by omega⟩)
      rw [hrej] at hc1
      have hcc : c1 = c :=
        List.inj_on_of_nodup_map hwf.credits.ids_nodup hc1 hc (show c1.id = c.id from hid.symm)
      subst hcc
      exact ⟨le_refl _, fun h => h⟩

theorem savePayment_remaining_safe_witness :
    (savePayment twoDebtsStore 7 payment120 400).2.credits.map (fun c => c.id)
      = twoDebtsStore.credits.map (fun c => c.id) ∧
    ∀ c1 ∈ (savePayment twoDebtsStore 7 payment120 400).2.credits,
      ∃ c ∈ twoDebtsStore.credits, c.id = c1.id ∧
        c1.val.remainingAmount ≤ c.val.remainingAmount ∧
        (0 ≤ c.val.remainingAmount → 0 ≤ c1.val.remainingAmount) :=
  savePayment_remaining_safe twoDebtsStore 7 payment120 400 twoDebtsStore_reachable.wf
    (by decide)

/-- C14: for an accepted `savePayment` call on a well-formed store and a
pending credit entry `c` of the customer, reached by the loop with
`amountToSettle = A`: if money was left (`0 < A`) and the entry is stored
with a remaining amount ≤ 0, it is stored with status paid, and if it has an
`invoiceId` whose invoice exists and is pending, that invoice is stored with
status paid and the payment's date and method; if the entry is left with a
remaining amount > 0, it keeps status pending and the invoice under its
`invoiceId` is unchanged.  Invoices that no pending entry of the customer is
linked to are unchanged as well. -/
theorem savePayment_settles (st : Store) (customerId : Nat) (form : PaymentForm) (now : Nat)
    (amount : Int) (hwf : StoreWF st) (ha : form.amount = some amount) (hpos : 0 < amount) :
    (∀ pre c post, pendingCredits st customerId = pre ++ c :: post →
      ∃ i c1, c.id = some i ∧
        getById (savePayment st customerId form now).2.credits i = some c1 ∧
        (0 < amountLeft amount (remainingAmounts pre) → c1.val.remainingAmount ≤ 0 →
          c1.val.status = .paid ∧
          ∀ k inv, c.val.invoiceId = some k → getById st.invoices k = some inv →
            inv.val.status = .pending →
            getById (savePayment st customerId form now).2.invoices k
              = some (paidInvoice form.date form.method now inv)) ∧
        (0 < c1.val.remainingAmount →
          c1.val.status = .pending ∧
          ∀ k, c.val.invoiceId = some k →
            getById (savePayment st customerId form now).2.invoices k
              = getById st.invoices k)) ∧
    (∀ k, (∀ c ∈ pendingCredits st customerId, c.val.invoiceId ≠ some k) →
      getById (savePayment st customerId form now).2.invoices k = getById st.invoices k) := by
  refine ⟨?_, ?_⟩
  · intro pre c post hsplit
    obtain ⟨i, hi, hget⟩ :=
      savePayment_credit hwf customerId form now amount ha hpos pre c post hsplit
    have hcmem := mem_pendingCredits (show c ∈ pendingCredits st customerId by
      rw [hsplit]; simp)
    have hlinks := nodup_map_split (fun d : Rec CreditData => d.val.invoiceId) pre c post (by
      rw [← hsplit]
      exact pendingCredits_nodup_map st customerId _ hwf.credits.links_nodup)
    have hinv : ∀ k, c.val.invoiceId = some k →
        getById (savePayment st customerId form now).2.invoices k
          = if Settles (amountLeft amount (remainingAmounts pre)) c then
              (getById st.invoices k).map (invoiceAfterSettle form.date form.method now)
            else getById st.invoices k := by
      intro k hk
      rw [savePayment_ok_eq st customerId form now amount ha hpos, hsplit]
      exact settle_fold_invoice form.date form.method now pre c post (st, amount) k hk
        (fun d hd => by rw [← hk]; exact hlinks.1 d hd)
        (fun d hd => by rw [← hk]; exact hlinks.2 d hd)
    refine ⟨i, _, hi, hget, ?_, ?_⟩
    · intro hA hrem
      have hA1 : ¬ amountLeft amount (remainingAmounts pre) ≤ 0 := not_le.2 hA
      have hrem1 : c.val.remainingAmount
          - min (amountLeft amount (remainingAmounts pre)) c.val.remainingAmount ≤ 0 := by
        rw [creditAfterLoop_remaining, if_neg hA1] at hrem
        exact hrem
      refine ⟨?_, ?_⟩
      · unfold creditAfterLoop
        rw [if_neg hA1]
        show (if c.val.remainingAmount
            - min (amountLeft amount (remainingAmounts pre)) c.val.remainingAmount ≤ 0
          then Status.paid else c.val.status) = Status.paid
        rw [if_pos hrem1]
      · intro k inv hk hgk hpend
        rw [hinv k hk, if_pos ⟨hA, hrem1⟩, hgk]
        simp [invoiceAfterSettle, hpend]
    · intro hrem
      have hns : ¬ Settles (amountLeft amount (remainingAmounts pre)) c := by
        intro hs
        rw [creditAfterLoop_remaining, if_neg (not_le.2 hs.1)] at hrem
        exact absurd hs.2 (not_le.2 hrem)
      refine ⟨?_, ?_⟩
      · unfold creditAfterLoop
        by_cases hA : amountLeft amount (remainingAmounts pre) ≤ 0
        · rw [if_pos hA]
          exact hcmem.2.2
        · rw [if_neg hA]
          rw [creditAfterLoop_remaining, if_neg hA] at hrem
          show (if c.val.remainingAmount
              - min (amountLeft amount (remainingAmounts pre)) c.val.remainingAmount ≤ 0
            then Status.paid else c.val.status) = Status.pending
          rw [if_neg (not_le.2 hrem)]
          exact hcmem.2.2
      · intro k hk
        rw [hinv k hk, if_neg hns]
  · intro k hk
    rw [savePayment_ok_eq st customerId form now amount ha hpos]
    exact settle_fold_invoice_other form.date form.method now _ (st, amount) k hk

theorem savePayment_settles_witness :
    (savePayment pendingInvoiceStore 7 payment1000 300).2.credits.map
        (fun c => (c.val.invoiceId, c.val.status, c.val.remainingAmount))
      = [(some 1, Status.paid, 0)] ∧
    (savePayment pendingInvoiceStore 7 payment1000 300).2.invoices.map
        (fun r => (r.id, r.val.status, r.val.paymentDate, r.val.paymentMethod))
      = [(some 1, Status.paid, some 200, some "cash")] ∧
    ((∀ pre c post, pendingCredits pendingInvoiceStore 7 = pre ++ c :: post →
      ∃ i c1, c.id = some i ∧
        getById (savePayment pendingInvoiceStore 7 payment1000 300).2.credits i = some c1 ∧
        (0 < amountLeft 1000 (remainingAmounts pre) → c1.val.remainingAmount ≤ 0 →
          c1.val.status = .paid ∧
          ∀ k inv, c.val.invoiceId = some k → getById pendingInvoiceStore.invoices k = some inv →
            inv.val.status = .pending →
            getById (savePayment pendingInvoiceStore 7 payment1000 300).2.invoices k
              = some (paidInvoice payment1000.date payment1000.method 300 inv)) ∧
        (0 < c1.val.remainingAmount →
          c1.val.status = .pending ∧
          ∀ k, c.val.invoiceId = some k →
            getById (savePayment pendingInvoiceStore 7 payment1000 300).2.invoices k
              = getById pendingInvoiceStore.invoices k)) ∧
    (∀ k, (∀ c ∈ pendingCredits pendingInvoiceStore 7, c.val.invoiceId ≠ some k) →
      getById (savePayment pendingInvoiceStore 7 payment1000 300).2.invoices k
        = getById pendingInvoiceStore.invoices k)) :=
  ⟨by decide, by decide,
    savePayment_settles pendingInvoiceStore 7 payment1000 300 1000
      (Reachable.saveInvoice none _ 100 Reachable.init).wf rfl (by decide)⟩

/-- C15 does not hold as stated: customer 7 has pending credit entries with
remaining amounts 20 and -5 (in the order of creation), 15 in total; a
payment of 20 appends one payment entry of amount 20, not of
`min 20 15 = 15`.  Nor does it hold for amounts with a fractional part: with
pending credit entries of 0.1, 0.2 and 1 a payment of 0.6 appends payments of
0.1, 0.2 and `(0.6 - 0.1) - 0.2 = 0.3`, which add up to another number than
`min 0.6 1.3 = 0.6`, exactly as well as in doubles (0.6000000000000001);
whole numbers are rounded as well once a sum reaches `2 ^ 53` in size
(`2 ^ 53 + 1` gives `2 ^ 53`). -/
theorem savePayment_allocates_more_than_outstanding :
    Arith.doubles.add (whole (2 ^ 53)) (whole 1) = whole (2 ^ 53) ∧
    FormReachable mixedDebtStore ∧
    (pendingCredits mixedDebtStore 7).map (fun c => (c.createdAt, c.val.remainingAmount))
      = [(some 100, 20), (some 200, -5)] ∧
    outstandingTotal mixedDebtStore 7 = 15 ∧
    (savePayment mixedDebtStore 7 payment20 400).2.credits.map
        (fun c => (c.val.remainingAmount, c.val.payments.map (fun p => p.amount)))
      = [(0, [20]), (-5, [])] ∧
    appendedTotal mixedDebtStore (savePayment mixedDebtStore 7 payment20 400).2 7 = 20 ∧
    ¬ (appendedTotal mixedDebtStore (savePayment mixedDebtStore 7 payment20 400).2 7
        = min 20 (outstandingTotal mixedDebtStore 7)) ∧
    (pendingCredits fractionalDebtsStore 7).map (fun c => c.val.remainingAmount)
      = [decimal 1 10, decimal 2 10, whole 1] ∧
    (savePaymentWith Arith.doubles fractionalDebtsStore 7 fractionalPayment (day 4)).2.credits.map
        (fun c => (c.val.remainingAmount, c.val.payments.map (fun p => p.amount)))
      = [(0, [decimal 1 10]), (0, [decimal 2 10]), (decimal 7 10, [decimal 3 10])] ∧
    min (decimal 6 10) (outstandingTotal fractionalDebtsStore 7) = decimal 6 10 ∧
    [decimal 1 10, decimal 2 10, decimal 3 10].foldl Arith.doubles.add 0
      = decimal 6000000000000001 10000000000000000 ∧
    decimal 6000000000000001 10000000000000000 ≠ decimal 6 10 ∧
    ¬ (appendedTotal fractionalDebtsStore
          (savePaymentWith Arith.doubles fractionalDebtsStore 7 fractionalPayment (day 4)).2 7
        = min (decimal 6 10) (outstandingTotal fractionalDebtsStore 7)) := by
  refine ⟨by decide, ?_, by decide, by decide, by decide, by decide, by decide, by decide,
    by decide, by decide, by decide, by decide, by decide⟩
  exact FormReachable.saveInvoice none _ 200
    (FormReachable.saveInvoice none _ 100 FormReachable.init (by decide) (by decide))
    (by decide) (by decide)

/-- C15 as amended: in a well-formed store in which the pending credit
entries of the customer have a remaining amount ≥ 0, for a payment amount
`P > 0`, `P` and these remaining amounts being whole numbers whose sizes add
up to less than `2 ^ 53`, the payment entries that `savePayment` appends to
them (each stored payment history is the former one with entries appended) sum
to `min P (total remaining amount of these entries before the call)`, and so
does the total decrease of `remainingAmount` over all credit entries of the
customer; with `P` larger than the outstanding total the store after the
call is the same for every such `P`, so that the excess is recorded
nowhere. -/
theorem savePayment_total_allocated (st : Store) (customerId : Nat) (form : PaymentForm)
    (now : Nat) (amount : Int) (hwf : StoreWF st)
    (ha : form.amount = some amount) (hpos : 0 < amount)
    (hr : ∀ c ∈ pendingCredits st customerId, 0 ≤ c.val.remainingAmount)
    (hwhole : WholeDebts st customerId amount) :
    appendedTotal st (savePaymentWith Arith.doubles st customerId form now).2 customerId
      = min amount (outstandingTotal st customerId) ∧
    remainingDecrease st (savePaymentWith Arith.doubles st customerId form now).2 customerId
      = min amount (outstandingTotal st customerId) ∧
    (∀ c ∈ pendingCredits st customerId, ∃ appended,
      (creditAfter (savePaymentWith Arith.doubles st customerId form now).2 c).val.payments
        = c.val.payments ++ appended) ∧
    (∀ amount2, outstandingTotal st customerId < amount →
      outstandingTotal st customerId < amount2 → WholeDebts st customerId amount2 →
      (savePaymentWith Arith.doubles st customerId { form with amount := some amount2 } now).2
        = (savePaymentWith Arith.doubles st customerId form now).2) := by
  rw [savePaymentWith_doubles st customerId form now amount ha hwhole]
  have hafter := creditAfter_pending hwf customerId form now amount ha hpos
  have hrs : ∀ r ∈ remainingAmounts (pendingCredits st customerId), 0 ≤ r := by
    intro r hr1
    obtain ⟨d, hd, hdr⟩ := List.mem_map.1 hr1
    rw [← hdr]
    exact hr d hd
  have htotal : amountLeft amount (remainingAmounts ([] : List (Rec CreditData)))
      - amountLeft amount (remainingAmounts ([] ++ pendingCredits st customerId))
        = min amount (outstandingTotal st customerId) := by
    rw [List.nil_append, amountLeft_closed amount _ (le_of_lt hpos) hrs]
    unfold outstandingTotal
    have hsum : 0 ≤ (remainingAmounts (pendingCredits st customerId)).sum :=
      List.sum_nonneg hrs
    simp only [remainingAmounts, List.map_nil, amountLeft]
    simp only [remainingAmounts] at hsum
    omega
  refine ⟨?_, ?_, ?_, ?_⟩
  · unfold appendedTotal
    rw [loop_sum _ amount (pendingCredits st customerId) [] (by
      intro pre c post hsplit
      rw [List.nil_append, hafter pre c post hsplit]
      unfold creditAfterLoop
      split
      · omega
      · show paymentsTotal (c.val.payments ++ [_]) - paymentsTotal c.val.payments = _
        rw [paymentsTotal_append]
        dsimp only
        omega)]
    exact htotal
  · unfold remainingDecrease
    rw [sum_filter_pending _ customerId st.credits (by
      intro c hc hcust hst
      obtain ⟨i, hi, hcases⟩ :=
        savePayment_credit_cases hwf customerId form now amount ha hpos c hc
      rcases hcases with ⟨_, hget⟩ | ⟨pre, post, hsplit, _⟩
      · rw [creditAfter_of_getById hi hget]
        omega
      · exact absurd (mem_pendingCredits (show c ∈ pendingCredits st customerId by
          rw [hsplit]; simp)).2.2 hst)]
    have hperm := ((sortByCreatedAt_perm (st.credits.filter
      (fun c => c.val.customerId == customerId && c.val.status == .pending))).map
      (fun c => c.val.remainingAmount
        - (creditAfter (savePayment st customerId form now).2 c).val.remainingAmount)).sum_eq
    rw [← hperm]
    show ((pendingCredits st customerId).map _).sum = _
    rw [loop_sum _ amount (pendingCredits st customerId) [] (by
      intro pre c post hsplit
      rw [List.nil_append, hafter pre c post hsplit, creditAfterLoop_remaining]
      split <;> omega)]
    exact htotal
  · intro c hc
    obtain ⟨pre, post, hsplit⟩ := List.append_of_mem hc
    rw [hafter pre c post hsplit]
    unfold creditAfterLoop
    split
    · exact ⟨[], (List.append_nil _).symm⟩
    · exact ⟨_, rfl⟩
  · intro amount2 h1 h2 hwhole2
    rw [savePaymentWith_doubles st customerId { form with amount := some amount2 } now amount2
      rfl hwhole2]
    have hpos2 : 0 < amount2 := by
      have hsum : 0 ≤ outstandingTotal st customerId := List.sum_nonneg hrs
      omega
    rw [savePayment_ok_eq st customerId form now amount ha hpos,
      savePayment_ok_eq st customerId { form with amount := some amount2 } now amount2 rfl hpos2]
    exact settle_fold_excess form.date form.method now _ st amount2 amount hr h2 h1

theorem savePayment_total_allocated_witness :
    outstandingTotal wholeDebtsStore 7 = whole 150 ∧
    appendedTotal wholeDebtsStore
        (savePaymentWith Arith.doubles wholeDebtsStore 7 wholePayment (day 3)).2 7 = whole 120 ∧
    appendedTotal wholeDebtsStore
        (savePaymentWith Arith.doubles wholeDebtsStore 7 wholePayment (day 3)).2 7
      = min (whole 120) (outstandingTotal wholeDebtsStore 7) :=
  ⟨by decide, by decide,
    (savePayment_total_allocated wholeDebtsStore 7 wholePayment (day 3) (whole 120)
      wholeDebtsStore_wf rfl (by decide) (by decide) (by decide)).1⟩

/-- C16: when the amount of the payment form is missing, zero or negative,
`savePayment` returns with the validation message and the store it leaves is
the store it was given, so that no credit entry and no invoice changes. -/
theorem savePayment_rejects_nonpositive (st : Store) (customerId : Nat) (form : PaymentForm)
    (now : Nat) (h : form.amount = none ∨ ∃ amount, form.amount = some amount ∧ amount ≤ 0) :
    (savePayment st customerId form now).1 = .rejected "Please enter a valid amount." ∧
    (savePayment st customerId form now).2 = st := by
  have hrej := savePayment_rejected_eq st customerId form now (by
    intro a ha
    rcases h with h | ⟨b, hb, hle⟩
    · rw [h] at ha
      cases ha
    · rw [hb] at ha
      injection ha with ha
      omega)
  rw [hrej]
  exact ⟨rfl, rfl⟩

theorem savePayment_rejects_nonpositive_witness :
    ((savePayment twoDebtsStore 7 { amount := none, date := some 300, method := "cash" } 400).1
        = .rejected "Please enter a valid amount." ∧
      (savePayment twoDebtsStore 7 { amount := none, date := some 300, method := "cash" } 400).2
        = twoDebtsStore) ∧
    ((savePayment twoDebtsStore 7 { amount := some 0, date := some 300, method := "cash" } 400).1
        = .rejected "Please enter a valid amount." ∧
      (savePayment twoDebtsStore 7 { amount := some 0, date := some 300, method := "cash" } 400).2
        = twoDebtsStore) ∧
    ((savePayment twoDebtsStore 7 { amount := some (-5), date := some 300, method := "cash" }
          400).1
        = .rejected "Please enter a valid amount." ∧
      (savePayment twoDebtsStore 7 { amount := some (-5), date := some 300, method := "cash" }
          400).2
        = twoDebtsStore) :=
  ⟨savePayment_rejects_nonpositive twoDebtsStore 7 _ 400 (Or.inl rfl),
    savePayment_rejects_nonpositive twoDebtsStore 7 _ 400 (Or.inr ⟨0, rfl, by decide⟩),
    savePayment_rejects_nonpositive twoDebtsStore 7 _ 400 (Or.inr ⟨-5, rfl, by decide⟩)⟩

/-- C17: in a store whose credit entries have distinct ids and that has at
most one credit entry per invoice, a confirmed `deleteInvoice` leaves the
invoices without the ones of the given id and the credits without the ones
linked to the given id, every other invoice and credit entry staying as and
where it was (also when the removed entry carried payments); products (so
every `currentStock`), customers, quotations, settings and counters are
unchanged. -/
theorem deleteInvoice_removes (st : Store) (invoiceId : Nat)
    (hids : (st.credits.map (fun c => c.id)).Nodup) (hone : OneCreditPerInvoice st) :
    (deleteInvoice st invoiceId true).1 = .ok ∧
    (deleteInvoice st invoiceId true).2.invoices
      = st.invoices.filter (fun r => r.id != some invoiceId) ∧
    (deleteInvoice st invoiceId true).2.credits
      = st.credits.filter (fun c => c.val.invoiceId != some invoiceId) ∧
    (∀ r ∈ (deleteInvoice st invoiceId true).2.invoices, r.id ≠ some invoiceId) ∧
    (∀ c ∈ (deleteInvoice st invoiceId true).2.credits, c.val.invoiceId ≠ some invoiceId) ∧
    (deleteInvoice st invoiceId true).2.products = st.products ∧
    (deleteInvoice st invoiceId true).2.customers = st.customers ∧
    (deleteInvoice st invoiceId true).2.quotations = st.quotations ∧
    (deleteInvoice st invoiceId true).2.counters = st.counters ∧
    (deleteInvoice st invoiceId true).2.settings = st.settings := by
  have hcredits : (deleteInvoice st invoiceId true).2.credits
      = st.credits.filter (fun c => c.val.invoiceId != some invoiceId) := by
    show (match st.credits.find? (fun c => c.val.invoiceId == some invoiceId) with
      | some credit => delete st.credits credit.id
      | none => st.credits) = _
    cases hf : st.credits.find? (fun c => c.val.invoiceId == some invoiceId) with
    | none =>
      simp only
      rw [List.filter_eq_self.2]
      intro c hc
      have := List.find?_eq_none.1 hf c hc
      simpa using this
    | some credit =>
      simp only
      unfold delete
      apply List.filter_congr
      intro c hc
      have hcm : credit ∈ st.credits := List.mem_of_find?_eq_some hf
      have hcl0 := List.find?_some hf
      have hcl : credit.val.invoiceId = some invoiceId := by simpa using hcl0
      by_cases hid : c.id = credit.id
      · have hcc : c = credit := List.inj_on_of_nodup_map hids hc hcm hid
        subst hcc
        simp [hcl]
      · have hlink : ¬ c.val.invoiceId = some invoiceId := by
          intro hl
          apply hid
          have := eq_of_filter_length_le_one _ _ (hone invoiceId) hc hcm
            (by simpa using hl) (by simpa using hcl)
          rw [this]
        have h1 : (c.id != credit.id) = true := bne_iff_ne.2 hid
        have h2 : (c.val.invoiceId != some invoiceId) = true := bne_iff_ne.2 hlink
        rw [h1, h2]
  refine ⟨rfl, rfl, hcredits, ?_, ?_, rfl, rfl, rfl, rfl, rfl⟩
  · intro r hr
    have hr1 : r ∈ st.invoices.filter (fun r => r.id != some invoiceId) := hr
    have := (List.mem_filter.1 hr1).2
    simpa using this
  · intro c hc
    rw [hcredits] at hc
    have := (List.mem_filter.1 hc).2
    simpa using this

theorem deleteInvoice_removes_witness :
    partlyPaidStore.credits.map (fun c => (c.val.invoiceId, c.val.payments.map (fun p => p.amount)))
      = [(some 1, [400])] ∧
    (deleteInvoice twoInvoiceStore 1 true).2.invoices.map (fun r => r.id) = [some 3] ∧
    (deleteInvoice twoInvoiceStore 1 true).2.credits.map (fun c => c.val.invoiceId) = [some 3] ∧
    ((deleteInvoice twoInvoiceStore 1 true).1 = .ok ∧
    (deleteInvoice twoInvoiceStore 1 true).2.invoices
      = twoInvoiceStore.invoices.filter (fun r => r.id != some 1) ∧
    (deleteInvoice twoInvoiceStore 1 true).2.credits
      = twoInvoiceStore.credits.filter (fun c => c.val.invoiceId != some 1) ∧
    (∀ r ∈ (deleteInvoice twoInvoiceStore 1 true).2.invoices, r.id ≠ some 1) ∧
    (∀ c ∈ (deleteInvoice twoInvoiceStore 1 true).2.credits, c.val.invoiceId ≠ some 1) ∧
    (deleteInvoice twoInvoiceStore 1 true).2.products = twoInvoiceStore.products ∧
    (deleteInvoice twoInvoiceStore 1 true).2.customers = twoInvoiceStore.customers ∧
    (deleteInvoice twoInvoiceStore 1 true).2.quotations = twoInvoiceStore.quotations ∧
    (deleteInvoice twoInvoiceStore 1 true).2.counters = twoInvoiceStore.counters ∧
    (deleteInvoice twoInvoiceStore 1 true).2.settings = twoInvoiceStore.settings) :=
  ⟨by decide, by decide, by decide,
    deleteInvoice_removes twoInvoiceStore 1 (by decide)
      (oneCredit_of_wf twoInvoiceStore_reachable.wf)⟩

/-- C18 does not hold as stated: after a quotation is created and converted,
the store is reachable and holds a pending invoice (id 2, converted from
quotation 1) while the credits collection is empty, so that no credit entry
has the invoice's id as `invoiceId`. -/
theorem converted_invoice_has_no_credit :
    Reachable convertedStore ∧
    convertedStore.invoices.map (fun r => (r.id, r.val.status, r.val.convertedFrom))
      = [(some 2, Status.pending, some 1)] ∧
    convertedStore.credits = [] ∧
    ¬ (∀ inv ∈ convertedStore.invoices,
        (convertedStore.credits.filter (fun c => c.val.invoiceId == inv.id)).length = 1) := by
  exact ⟨convertedStore_reachable, by decide, by decide, by decide⟩

/-- C18 as amended: in every store reachable by `saveInvoice`, `savePayment`,
`deleteInvoice`, `convertToInvoice` (and `saveQuotation`) calls, every invoice
that was written by `saveInvoice`, that is every invoice without the
`convertedFrom` mark that `convertToInvoice` puts on the invoice it creates,
has exactly one credit entry whose `invoiceId` is its id. -/
theorem reachable_saved_invoice_has_one_credit (st : Store) (h : Reachable st) :
    ∀ inv ∈ st.invoices, inv.val.convertedFrom = none →
      (st.credits.filter (fun c => c.val.invoiceId == inv.id)).length = 1 := by
  intro inv hinv hconv
  have hle := filter_link_length_le_one h.wf.credits.links_nodup inv.id
  obtain ⟨c, hc, hcl⟩ := List.mem_map.1 (h.linked inv hinv hconv)
  have hmem : c ∈ st.credits.filter (fun c => c.val.invoiceId == inv.id) :=
    List.mem_filter.2 ⟨hc, by simpa using hcl⟩
  have hpos := List.length_pos_of_mem hmem
  omega

theorem reachable_saved_invoice_has_one_credit_witness :
    twoInvoiceStore.invoices.map (fun r => (r.id, r.val.convertedFrom))
      = [(some 1, none), (some 3, none)] ∧
    ∀ inv ∈ twoInvoiceStore.invoices, inv.val.convertedFrom = none →
      (twoInvoiceStore.credits.filter (fun c => c.val.invoiceId == inv.id)).length = 1 :=
  ⟨by decide, reachable_saved_invoice_has_one_credit twoInvoiceStore twoInvoiceStore_reachable⟩

/-- C19: for a quotation id under which a quotation is stored, a confirmed
`convertToInvoice` pushes exactly one invoice, under a new id, whose
`customerId`, items and total are the quotation's and whose status is
pending, stores the quotation with status converted (the other quotations
staying as they are), and leaves products (so every `currentStock`), credits
and customers unchanged; an unconfirmed call leaves the store unchanged; for
a quotation id that is absent the store is left unchanged. -/
theorem convertToInvoice_effect (st : Store) (quotationId : Nat) (now : Nat) :
    match getById st.quotations quotationId with
    | some quotation =>
      (convertToInvoice st quotationId true now).1 = .ok ∧
      (∃ inv, (convertToInvoice st quotationId true now).2.invoices = st.invoices ++ [inv] ∧
        inv.id = some st.nextId ∧
        inv.val.customerId = quotation.val.customerId ∧
        inv.val.items = quotation.val.items ∧
        inv.val.total = quotation.val.total ∧
        inv.val.status = .pending ∧
        inv.val.convertedFrom = some quotationId) ∧
      getById (convertToInvoice st quotationId true now).2.quotations quotationId
        = some { quotation with
            updatedAt := some now, val := { quotation.val with status := .converted } } ∧
      (∀ j, j ≠ quotationId →
        getById (convertToInvoice st quotationId true now).2.quotations j
          = getById st.quotations j) ∧
      (convertToInvoice st quotationId true now).2.products = st.products ∧
      (convertToInvoice st quotationId true now).2.credits = st.credits ∧
      (convertToInvoice st quotationId true now).2.customers = st.customers ∧
      convertToInvoice st quotationId false now = (.cancelled, st)
    | none => ∀ confirmed, convertToInvoice st quotationId confirmed now = (.notFound, st) := by
  cases hg : getById st.quotations quotationId with
  | none =>
    simp only
    intro confirmed
    unfold convertToInvoice
    rw [hg]
  | some quotation =>
    simp only
    have hid : quotation.id = some quotationId := getById_id hg
    unfold convertToInvoice
    simp only [hg, if_true, save_fresh]
    refine ⟨trivial, ⟨_, rfl, rfl, rfl, rfl, rfl, rfl, rfl⟩, ?_, ?_, trivial, trivial, trivial,
      by simp⟩
    · exact getById_save_existing now (st.nextId + 1) hid hg
    · intro j hj
      exact getById_save_other st.quotations _ now (st.nextId + 1) quotationId j hid hj

/-- C20 does not hold of the code: after a quotation is created and
converted, its status is converted; an accepted `saveQuotation` edit of it
then stores it with status pending, and a second confirmed
`convertToInvoice` on it pushes a second invoice converted from it. -/
theorem converted_quotation_reopens :
    Reachable convertedStore ∧
    convertedStore.quotations.map (fun q => (q.id, q.val.status))
      = [(some 1, QuotationStatus.converted)] ∧
    (saveQuotation convertedStore (some 1) sampleQuotation 300).1 = .ok ∧
    (saveQuotation convertedStore (some 1) sampleQuotation 300).2.quotations.map
        (fun q => (q.id, q.val.status))
      = [(some 1, QuotationStatus.pending)] ∧
    (convertToInvoice convertedStore 1 true 300).1 = .ok ∧
    (convertToInvoice convertedStore 1 true 300).2.invoices.map
        (fun r => (r.id, r.val.convertedFrom))
      = [(some 2, some 1), (some 3, some 1)] := by
  exact ⟨convertedStore_reachable, by decide, by decide, by decide, by decide, by decide⟩

/-- C20 as amended: for a stored quotation whose status is converted, an
accepted `saveQuotation` edit of it stores it with status pending (so not
with the status it had) and leaves the invoices collection as it is, and a
confirmed `convertToInvoice` call on it stores it with status converted and
pushes one further invoice converted from it. -/
theorem converted_quotation_not_terminal (st : Store) (quotationId : Nat)
    (quotation : Rec QuotationData)
    (hg : getById st.quotations quotationId = some quotation)
    (hconv : quotation.val.status = .converted) :
    (∀ form now, (saveQuotation st (some quotationId) form now).1 = .ok →
      ∃ q1, getById (saveQuotation st (some quotationId) form now).2.quotations quotationId
          = some q1 ∧
        q1.val.status = .pending ∧ q1.val.status ≠ quotation.val.status ∧
        (saveQuotation st (some quotationId) form now).2.invoices = st.invoices) ∧
    (∀ now, (convertToInvoice st quotationId true now).1 = .ok ∧
      ∃ q1 inv,
        getById (convertToInvoice st quotationId true now).2.quotations quotationId = some q1 ∧
        q1.val.status = .converted ∧
        (convertToInvoice st quotationId true now).2.invoices = st.invoices ++ [inv] ∧
        inv.val.convertedFrom = some quotationId ∧
        inv.val.items = quotation.val.items) := by
  have hid : quotation.id = some quotationId := getById_id hg
  refine ⟨?_, ?_⟩
  · intro form now hok
    obtain ⟨customerId, _, hw⟩ := saveQuotation_ok hok
    rcases hw with ⟨hnone, _⟩ | ⟨i, ex, hi, hex, hw⟩
    · cases hnone
    · injection hi with hi
      subst hi
      rw [hw]
      refine ⟨_, getById_save_existing now st.nextId rfl hex, rfl, ?_, rfl⟩
      rw [hconv]
      show QuotationStatus.pending ≠ QuotationStatus.converted
      decide
  · intro now
    unfold convertToInvoice
    simp only [hg, if_true, save_fresh]
    exact ⟨trivial, _, _, getById_save_existing now (st.nextId + 1) hid hg, rfl, rfl, rfl, rfl⟩

theorem converted_quotation_not_terminal_witness :
    (∀ form now, (saveQuotation convertedStore (some 1) form now).1 = .ok →
      ∃ q1, getById (saveQuotation convertedStore (some 1) form now).2.quotations 1 = some q1 ∧
        q1.val.status = .pending ∧ q1.val.status ≠ QuotationStatus.converted ∧
        (saveQuotation convertedStore (some 1) form now).2.invoices = convertedStore.invoices) ∧
    (∀ now, (convertToInvoice convertedStore 1 true now).1 = .ok ∧
      ∃ q1 inv,
        getById (convertToInvoice convertedStore 1 true now).2.quotations 1 = some q1 ∧
        q1.val.status = .converted ∧
        (convertToInvoice convertedStore 1 true now).2.invoices
          = convertedStore.invoices ++ [inv] ∧
        inv.val.convertedFrom = some 1 ∧
        inv.val.items = [{ productId := some 5, quantity := 2, rate := 300, amount := 600 }]) :=
  converted_quotation_not_terminal convertedStore 1
    { id := some 1, createdAt := some 100, updatedAt := some 200
      val := { quotationNumber := { pfx := "QUO", number := 2000 }, customerId := 7
               validUntil := none
               items := [{ productId := some 5, quantity := 2, rate := 300, amount := 600 }]
               total := 600, status := .converted, notes := "" } }
    (by decide) rfl

/-- C21 does not hold of the code for amounts with a fractional part: the
opening balance is a running sum of doubles, rounded at every step.  After an
invoice of 3258.31 (day 1), a payment of 2570.12 (day 2) and an invoice of
470.20 (day 3), the statement from day 10 on has the opening balance
`(3258.31 - 2570.12) + 470.20 = 1158.39`; the sum of the invoice totals before
the period minus the sum of the payments before it is another number, taken
exactly as well as taken as `(3258.31 + 470.20) - 2570.12` in doubles, which
is 1158.3899999999999.  Whole numbers are rounded as well once a sum reaches
`2 ^ 53` in size: `2 ^ 53 + 1` gives `2 ^ 53`. -/
theorem statement_opening_rounded :
    Arith.doubles.add (whole (2 ^ 53)) (whole 1) = whole (2 ^ 53) ∧
    (generateImprovedStatement Arith.doubles 0 fractionalLedgerStore 7 (day 10)
        (day 10)).summary.openingBalance = decimal 115839 100 ∧
    (generateImprovedStatement Arith.doubles 0 fractionalLedgerStore 7 (day 10)
        (day 10)).summary.openingBalance
      ≠ (((customerInvoices fractionalLedgerStore 7).filter
            (fun inv => dateBefore (invoiceDateOf inv) (startOfDay 0 (day 10)))).map
          (fun inv => inv.val.total)).sum
        - ((customerCredits fractionalLedgerStore 7).map (fun cred =>
            ((cred.val.payments.filter
                (fun pay => dateBefore pay.date (startOfDay 0 (day 10)))).map
              (fun pay => pay.amount)).sum)).sum ∧
    Arith.doubles.sub (Arith.doubles.add (decimal 325831 100) (decimal 47020 100))
        (decimal 257012 100) = decimal 11583899999999999 10000000000000 ∧
    decimal 11583899999999999 10000000000000 ≠ decimal 115839 100 := by
  decide

/-- C21 as amended: for every store, customer, date range and offset of local
time, with `s` the start of the local day of `startDate` (the one instant of
local midnight with `s ≤ startDate < s + 1 day`, a day having 86400000 ms)
and `e` the last millisecond of the local day of `endDate`, a date being
before an instant or within two instants as the numbers are and an invalid
date being neither: the transactions `generateImprovedStatement` returns are,
up to order, the transactions of the customer's invoices dated within `[s, e]`
and of the payments dated within `[s, e]` on the customer's credit entries,
and `closingBalance` is `openingBalance + totalDebits - totalCredits` as the
code adds doubles.  When the customer's invoice totals and payment amounts
are whole numbers whose sizes add up to less than `2 ^ 53`, `openingBalance`
is the sum of the totals of the customer's invoices dated before `s` minus the
sum of the amounts of the payments dated before `s` on the customer's credit
entries, `totalDebits` and `totalCredits` are the sums of the debits and of
the credits of the returned transactions, and `closingBalance` is
`openingBalance` plus the first sum minus the second. -/
theorem generateImprovedStatement_balances (offset : Int) (st : Store) (customerId : Nat)
    (startDate endDate : Nat) :
    (msPerDay = 86400000 ∧
      (startOfDay offset startDate + offset) % msPerDay = 0 ∧
      startOfDay offset startDate ≤ startDate ∧
      (startDate : Int) < startOfDay offset startDate + msPerDay ∧
      endOfDay offset endDate = startOfDay offset endDate + (msPerDay - 1) ∧
      (∀ (d : Nat) (t : Int), dateBefore (some d) t = true ↔ (d : Int) < t) ∧
      (∀ (d : Nat) (t u : Int), dateWithin (some d) t u = true ↔ t ≤ (d : Int) ∧ (d : Int) ≤ u) ∧
      (∀ t u : Int, dateBefore none t = false ∧ dateWithin none t u = false)) ∧
    (generateImprovedStatement Arith.doubles offset st customerId startDate
        endDate).transactions.Perm
      (((customerInvoices st customerId).filter
          (fun inv => dateWithin (invoiceDateOf inv) (startOfDay offset startDate)
            (endOfDay offset endDate))).map invoiceTransaction
        ++ ((customerCredits st customerId).map (fun cred =>
            (cred.val.payments.filter
              (fun pay => dateWithin pay.date (startOfDay offset startDate)
                (endOfDay offset endDate))).map (paymentTransaction cred))).flatten) ∧
    (generateImprovedStatement Arith.doubles offset st customerId startDate
        endDate).summary.closingBalance
      = Arith.doubles.sub
          (Arith.doubles.add
            (generateImprovedStatement Arith.doubles offset st customerId startDate
              endDate).summary.openingBalance
            (generateImprovedStatement Arith.doubles offset st customerId startDate
              endDate).summary.totalDebits)
          (generateImprovedStatement Arith.doubles offset st customerId startDate
            endDate).summary.totalCredits ∧
    (WholeAmounts st customerId →
      (generateImprovedStatement Arith.doubles offset st customerId startDate
          endDate).summary.openingBalance
        = (((customerInvoices st customerId).filter
              (fun inv => dateBefore (invoiceDateOf inv) (startOfDay offset startDate))).map
            (fun inv => inv.val.total)).sum
          - ((customerCredits st customerId).map (fun cred =>
              ((cred.val.payments.filter
                  (fun pay => dateBefore pay.date (startOfDay offset startDate))).map
                (fun pay => pay.amount)).sum)).sum ∧
      (generateImprovedStatement Arith.doubles offset st customerId startDate
          endDate).summary.totalDebits
        = ((generateImprovedStatement Arith.doubles offset st customerId startDate
            endDate).transactions.map (fun tx => tx.debit)).sum ∧
      (generateImprovedStatement Arith.doubles offset st customerId startDate
          endDate).summary.totalCredits
        = ((generateImprovedStatement Arith.doubles offset st customerId startDate
            endDate).transactions.map (fun tx => tx.credit)).sum ∧
      (generateImprovedStatement Arith.doubles offset st customerId startDate
          endDate).summary.closingBalance
        = (generateImprovedStatement Arith.doubles offset st customerId startDate
            endDate).summary.openingBalance
          + ((generateImprovedStatement Arith.doubles offset st customerId startDate
              endDate).transactions.map (fun tx => tx.debit)).sum
          - ((generateImprovedStatement Arith.doubles offset st customerId startDate
              endDate).transactions.map (fun tx => tx.credit)).sum) := by
  refine ⟨⟨rfl, ?_, ?_, ?_, ?_, ?_, ?_, ?_⟩, ?_, rfl, ?_⟩
  · unfold startOfDay msPerDay
    omega
  · unfold startOfDay msPerDay
    omega
  · unfold startOfDay msPerDay
    omega
  · unfold startOfDay endOfDay msPerDay
    omega
  · intro d t
    simp [dateBefore]
  · intro d t u
    simp [dateWithin]
  · intro t u
    exact ⟨rfl, rfl⟩
  · rw [generateImprovedStatement_run]
    show ((sortByDate (allTransactions st customerId)).filter
        (fun tx => dateWithin tx.date (startOfDay offset startDate)
          (endOfDay offset endDate))).Perm _
    have hp := (sortByDate_perm (allTransactions st customerId)).filter
      (fun tx => dateWithin tx.date (startOfDay offset startDate) (endOfDay offset endDate))
    rw [filter_all] at hp
    exact hp
  · intro hwhole
    rw [generateImprovedStatement_doubles offset st customerId startDate endDate hwhole,
      generateImprovedStatement_eq]
    refine ⟨?_, rfl, rfl, rfl⟩
    show (((sortByDate (allTransactions st customerId)).filter
        (fun tx => dateBefore tx.date (startOfDay offset startDate))).map
          (fun tx => tx.debit - tx.credit)).sum = _
    rw [sum_filter_perm _ _ (sortByDate_perm _), sum_filter_all]
    have h1 : (((customerInvoices st customerId).filter
          (fun inv => dateBefore (invoiceTransaction inv).date
            (startOfDay offset startDate))).map
        (fun inv => (invoiceTransaction inv).debit - (invoiceTransaction inv).credit)).sum
        = (((customerInvoices st customerId).filter
            (fun inv => dateBefore (invoiceDateOf inv) (startOfDay offset startDate))).map
          (fun inv => inv.val.total)).sum := by
      congr 1
      apply List.map_congr_left
      intro inv _
      show inv.val.total - 0 = inv.val.total
      omega
    have h2 : ((customerCredits st customerId).map (fun cred =>
          ((cred.val.payments.filter
              (fun pay => dateBefore (paymentTransaction cred pay).date
                (startOfDay offset startDate))).map
            (fun pay => (paymentTransaction cred pay).debit
              - (paymentTransaction cred pay).credit)).sum)).sum
        = - ((customerCredits st customerId).map (fun cred =>
            ((cred.val.payments.filter
                (fun pay => dateBefore pay.date (startOfDay offset startDate))).map
              (fun pay => pay.amount)).sum)).sum := by
      induction customerCredits st customerId with
      | nil => rfl
      | cons c cs ih =>
        rw [List.map_cons, List.sum_cons, ih, List.map_cons, List.sum_cons]
        have h3 : ∀ l : List Payment,
            (l.map (fun pay => (paymentTransaction c pay).debit
              - (paymentTransaction c pay).credit)).sum
            = - (l.map (fun pay => pay.amount)).sum := by
          intro l
          induction l with
          | nil => rfl
          | cons q l ihl =>
            rw [List.map_cons, List.sum_cons, ihl, List.map_cons, List.sum_cons]
            show (0 - q.amount) + _ = _
            omega
        have h4 := h3 (c.val.payments.filter
          (fun pay => dateBefore pay.date (startOfDay offset startDate)))
        have h5 : (c.val.payments.filter
            (fun pay => dateBefore (paymentTransaction c pay).date
              (startOfDay offset startDate)))
            = c.val.payments.filter
              (fun pay => dateBefore pay.date (startOfDay offset startDate)) :=
          rfl
        rw [h5, h4]
        omega
    rw [h1, h2]
    omega

theorem generateImprovedStatement_balances_witness :
    WholeAmounts wholeLedgerStore 7 ∧
    (generateImprovedStatement Arith.doubles 19800000 wholeLedgerStore 7 (day 2)
        (day 2)).summary = { openingBalance := whole 1000, totalDebits := 0
                             totalCredits := whole 400, closingBalance := whole 600 } ∧
    (generateImprovedStatement Arith.doubles 19800000 wholeLedgerStore 7 (day 2)
        (day 2)).summary.openingBalance
      = (((customerInvoices wholeLedgerStore 7).filter
            (fun inv => dateBefore (invoiceDateOf inv) (startOfDay 19800000 (day 2)))).map
          (fun inv => inv.val.total)).sum
        - ((customerCredits wholeLedgerStore 7).map (fun cred =>
            ((cred.val.payments.filter
                (fun pay => dateBefore pay.date (startOfDay 19800000 (day 2)))).map
              (fun pay => pay.amount)).sum)).sum :=
  ⟨by decide, by decide,
    ((generateImprovedStatement_balances 19800000 wholeLedgerStore 7 (day 2) (day 2)).2.2.2
      (by decide)).1⟩

/-- C22 does not hold of the code for amounts with a fractional part: the
closing balance adds the sums of the period to the opening balance, the next
opening balance is a running sum over the same transactions in date order, and
the two round differently.  After an invoice of 3258.31 (day 1), a payment
of 2570.12 (day 2) and an invoice of 470.20 (day 3), the statement for days
0 to 9 closes with `(0 + (3258.31 + 470.20)) - 2570.12 = 1158.3899999999999`
and the statement from day 10, the day after, opens with 1158.39.  Whole
numbers are rounded as well once a sum reaches `2 ^ 53` in size:
`2 ^ 53 + 1` gives `2 ^ 53`. -/
theorem statement_continuity_rounded :
    Arith.doubles.add (whole (2 ^ 53)) (whole 1) = whole (2 ^ 53) ∧
    startOfDay 0 (day 10) = endOfDay 0 (day 9) + 1 ∧
    (generateImprovedStatement Arith.doubles 0 fractionalLedgerStore 7 (day 0)
        (day 9)).summary.closingBalance = decimal 11583899999999999 10000000000000 ∧
    (generateImprovedStatement Arith.doubles 0 fractionalLedgerStore 7 (day 10)
        (day 10)).summary.openingBalance = decimal 115839 100 ∧
    (generateImprovedStatement Arith.doubles 0 fractionalLedgerStore 7 (day 0)
        (day 9)).summary.closingBalance
      ≠ (generateImprovedStatement Arith.doubles 0 fractionalLedgerStore 7 (day 10)
          (day 10)).summary.openingBalance := by
  decide

/-- C22 as amended: for every store and customer whose invoice totals and
payment amounts are whole numbers with sizes adding up to less than `2 ^ 53`,
every offset of local time and two date ranges `[s1, e1]` (with `s1` not after
`e1`) and `[s2, e2]` such that `s2` lies in the local day after the local day
of `e1`, the start of the day of `s2` is one millisecond after the end of the
day of `e1`, and the closing balance of the statement for `[s1, e1]` is the
opening balance of the statement for `[s2, e2]`. -/
theorem statement_continuity (offset : Int) (st : Store) (customerId : Nat)
    (s1 e1 s2 e2 : Nat) (hrange : s1 ≤ e1)
    (hnext : ((s2 : Int) + offset) / msPerDay = ((e1 : Int) + offset) / msPerDay + 1)
    (hwhole : WholeAmounts st customerId) :
    startOfDay offset s2 = endOfDay offset e1 + 1 ∧
    (generateImprovedStatement Arith.doubles offset st customerId s1 e1).summary.closingBalance
      = (generateImprovedStatement Arith.doubles offset st customerId s2
          e2).summary.openingBalance := by
  have hstart : startOfDay offset s2 = endOfDay offset e1 + 1 := by
    unfold startOfDay endOfDay
    rw [hnext]
    unfold msPerDay
    omega
  have hle : startOfDay offset s1 ≤ endOfDay offset e1 + 1 := by
    unfold startOfDay endOfDay msPerDay
    omega
  refine ⟨hstart, ?_⟩
  rw [generateImprovedStatement_doubles offset st customerId s1 e1 hwhole,
    generateImprovedStatement_doubles offset st customerId s2 e2 hwhole,
    generateImprovedStatement_eq, generateImprovedStatement_eq, hstart]
  exact sum_before_next _ _ hle _

theorem statement_continuity_witness :
    (generateImprovedStatement Arith.doubles 19800000 wholeLedgerStore 7 (day 0)
        (day 2)).summary.closingBalance = whole 600 ∧
    (startOfDay 19800000 (day 3) = endOfDay 19800000 (day 2) + 1 ∧
    (generateImprovedStatement Arith.doubles 19800000 wholeLedgerStore 7 (day 0)
        (day 2)).summary.closingBalance
      = (generateImprovedStatement Arith.doubles 19800000 wholeLedgerStore 7 (day 3)
          (day 4)).summary.openingBalance) :=
  ⟨by decide, statement_continuity 19800000 wholeLedgerStore 7 (day 0) (day 2) (day 3) (day 4)
    (by decide) (by decide) (by decide)⟩

/-- C23 does not hold as stated: after an invoice dated 500, a payment saved
with an empty date and a payment dated 300, the store is reachable and the
statement of the customer over the day that holds these dates lists the
invoice (date 500) before the payment dated 300: the payment without a valid
date is compared as equal to both and keeps them apart in the sort, and is
itself dropped from the result. -/
theorem statement_out_of_order :
    FormReachable undatedPaymentStore ∧
    (allTransactions undatedPaymentStore 7).map (fun tx => (tx.date, tx.debit, tx.credit))
      = [(some 500, 1000, 0), (none, 0, 100), (some 300, 0, 100)] ∧
    (generateImprovedStatement Arith.exact 0 undatedPaymentStore 7 0 0).transactions.map
        (fun tx => (tx.date, tx.debit, tx.credit))
      = [(some 500, 1000, 0), (some 300, 0, 100)] ∧
    ¬ (generateImprovedStatement Arith.exact 0 undatedPaymentStore 7 0 0).transactions.Pairwise
        InDateOrder := by
  refine ⟨?_, by decide, by decide, ?_⟩
  · refine FormReachable.savePayment 7 _ 700
      (FormReachable.savePayment 7 _ 600
        (FormReachable.saveInvoice none _ 100 FormReachable.init (by decide) (by decide))
        (by decide))
      (by decide)
  · intro h
    have hl : (generateImprovedStatement Arith.exact 0 undatedPaymentStore 7 0 0).transactions
        = [{ date := some 500, type := .invoice, id := some 1
             particulars := "Invoice #INV-1000", debit := 1000, credit := 0 },
           { date := some 300, type := .payment, id := some 2
             particulars := "Payment Received (cash)", debit := 0, credit := 100 }] := by
      decide
    rw [hl, List.pairwise_cons] at h
    obtain ⟨x, y, hx, hy, hxy⟩ := h.1 _ (List.mem_singleton_self _)
    injection hx with hx
    injection hy with hy
    omega

/-- C23 as amended: for every store and customer in which every transaction
of the customer has a valid date (every invoice of the customer has an
`invoiceDate` or a `createdAt`, every payment on the customer's credit entries
a date), and every date range, the transactions returned by
`generateImprovedStatement` are in ascending date order, and for every date
the returned transactions of that date are, in this order, the invoices of
that date in store order followed by the payments of that date in
credit-entry order and then payment-list order. -/
theorem statement_sorted_and_stable (ar : Arith) (offset : Int) (st : Store)
    (customerId : Nat) (startDate endDate : Nat)
    (hvalid : ∀ tx ∈ allTransactions st customerId, tx.date ≠ none) :
    (generateImprovedStatement ar offset st customerId startDate endDate).transactions.Pairwise
      InDateOrder ∧
    ∀ d : Nat,
      (generateImprovedStatement ar offset st customerId startDate endDate).transactions.filter
          (fun tx => tx.date == some d)
        = ((customerInvoices st customerId).filter
            (fun inv => dateWithin (invoiceDateOf inv) (startOfDay offset startDate) (endOfDay offset endDate)
              && invoiceDateOf inv == some d)).map invoiceTransaction
          ++ ((customerCredits st customerId).map (fun cred =>
              (cred.val.payments.filter
                (fun pay => dateWithin pay.date (startOfDay offset startDate) (endOfDay offset endDate)
                  && pay.date == some d)).map (paymentTransaction cred))).flatten := by
  rw [generateImprovedStatement_run]
  refine ⟨?_, ?_⟩
  · exact (sortByDate_sorted _ hvalid).sublist (List.filter_sublist _)
  · intro d
    show ((sortByDate (allTransactions st customerId)).filter
        (fun tx => dateWithin tx.date (startOfDay offset startDate) (endOfDay offset endDate))).filter
          (fun tx => tx.date == some d) = _
    rw [List.filter_filter]
    have hcomm : (sortByDate (allTransactions st customerId)).filter
        (fun tx => tx.date == some d
          && dateWithin tx.date (startOfDay offset startDate) (endOfDay offset endDate))
        = ((sortByDate (allTransactions st customerId)).filter
            (fun tx => tx.date == some d)).filter
          (fun tx => dateWithin tx.date (startOfDay offset startDate) (endOfDay offset endDate)) := by
      rw [List.filter_filter]
      congr 1
      funext tx
      exact Bool.and_comm _ _
    rw [hcomm, sortByDate_stable, List.filter_filter, filter_all]
    rfl

theorem statement_sorted_and_stable_witness :
    (generateImprovedStatement Arith.exact 0 twoInvoiceStore 7 0 0).transactions.map
        (fun tx => (tx.date, tx.particulars))
      = [(some 10, "Invoice #INV-1000"), (some 10, "Invoice #INV-1001"),
          (some 200, "Payment Received (cash)")] ∧
    (generateImprovedStatement Arith.exact 0 twoInvoiceStore 7 0 0).transactions.Pairwise InDateOrder :=
  ⟨by decide,
    (statement_sorted_and_stable Arith.exact 0 twoInvoiceStore 7 0 0 (by decide)).1⟩

/-- C24 does not hold as stated: `save` of a record that carries an id (5) into
a collection that holds no record of that id returns the record and stores
nothing (the collection is what it was, also when it is empty), so that
`getById` of the returned record's id is absent. -/
theorem save_unknown_id_stores_nothing :
    (save sampleCustomers strayCustomer 100 2).2.1 = strayCustomer ∧
    strayCustomer.id = some 5 ∧
    (save sampleCustomers strayCustomer 100 2).1 = sampleCustomers ∧
    getById (save sampleCustomers strayCustomer 100 2).1 5 = none ∧
    (save ([] : List (Rec CustomerData)) strayCustomer 100 1).1 = [] := by
  exact ⟨rfl, rfl, by decide, by decide, rfl⟩

/-- C24 as amended: for every collection (none of whose records has the id
that `generateId` produces next) and every record, `save` does the
following.  A record without an id is returned with the new id and the
creation time, is appended, and is what `getById` finds under the new id.
A record with the id of a stored record is returned as it is and replaces the
first stored record of that id, with the update time set and every other
field as given.  A record with an id that no stored record has is returned as
it is and nothing is stored.  In each case `getById` of every other id finds
what it found before. -/
theorem save_getById {α : Type} (items : List (Rec α)) (item : Rec α) (now nextId : Nat)
    (hfresh : ∀ r ∈ items, r.id ≠ some nextId) :
    (item.id = none →
      (save items item now nextId).2.1
        = { item with id := some nextId, createdAt := some now } ∧
      (save items item now nextId).1
        = items ++ [{ item with id := some nextId, createdAt := some now }] ∧
      getById (save items item now nextId).1 nextId
        = some { item with id := some nextId, createdAt := some now } ∧
      ∀ j, j ≠ nextId → getById (save items item now nextId).1 j = getById items j) ∧
    (∀ i, item.id = some i →
      (save items item now nextId).2.1 = item ∧
      (∀ stored, getById items i = some stored →
        getById (save items item now nextId).1 i = some { item with updatedAt := some now } ∧
        (save items item now nextId).1.length = items.length) ∧
      (getById items i = none →
        (save items item now nextId).1 = items ∧
        getById (save items item now nextId).1 i = none) ∧
      ∀ j, j ≠ i → getById (save items item now nextId).1 j = getById items j) := by
  refine ⟨?_, ?_⟩
  · intro hid
    rw [save_new items item now nextId hid]
    exact ⟨rfl, rfl, getById_append_fresh items _ nextId rfl hfresh,
      fun j hj => getById_append_other items _ nextId j rfl hj⟩
  · intro i hid
    have hs : (save items item now nextId).1
        = replaceFirst (fun r => r.id == some i) { item with updatedAt := some now } items := by
      unfold save
      simp only [hid]
    refine ⟨?_, ?_, ?_, ?_⟩
    · unfold save
      simp only [hid]
    · intro stored hstored
      refine ⟨getById_save_existing now nextId hid hstored, ?_⟩
      rw [hs]
      exact length_replaceFirst _ _ _
    · intro hnone
      have hsame : (save items item now nextId).1 = items := by
        rw [hs]
        exact replaceFirst_absent _ _ _ hnone
      exact ⟨hsame, by rw [hsame]; exact hnone⟩
    · intro j hj
      exact getById_save_other items item now nextId i j hid hj

theorem save_getById_witness :
    getById sampleCustomers 1 ≠ none ∧
    getById (save sampleCustomers renamedCustomer 500 2).1 1
      = some { id := some 1, createdAt := some 10, updatedAt := some 500
               val := { name := "B", phone := "2" } } ∧
    (save sampleCustomers renamedCustomer 500 2).1.length = 1 :=
  ⟨by decide,
    (((save_getById sampleCustomers renamedCustomer 500 2 (by decide)).2 1 rfl).2.1
      _ (by rfl))⟩

/-- C25 does not hold of the code: `importData` checks no value.  On the
storage that `init` leaves, a snapshot whose `invoices` value is a text is
imported with result `true` and the text replaces the invoices collection;
and when the browser refuses the write of the second key of a snapshot, the
result is `false` while the first key (the counters) stays overwritten. -/
theorem importData_writes_malformed :
    (importData acceptsAll initialStorage malformedSnapshot).1 = true ∧
    getItem initialStorage "invoices" = some (.arr []) ∧
    getItem (importData acceptsAll initialStorage malformedSnapshot).2 "invoices"
      = some (.str "oops") ∧
    (importData acceptsAll initialStorage malformedSnapshot).2 ≠ initialStorage ∧
    (importData refusesCredits initialStorage smallSnapshot).1 = false ∧
    getItem initialStorage "counters"
      = some (.obj [("invoice", .num 1000), ("quotation", .num 2000)]) ∧
    getItem (importData refusesCredits initialStorage smallSnapshot).2 "counters"
      = some (.obj [("invoice", .num 5), ("quotation", .num 6)]) := by
  refine ⟨rfl, rfl, rfl, ?_, rfl, rfl, rfl⟩
  intro h
  have h1 := congrArg (fun ls => getItem ls "invoices") h
  have h2 : getItem (importData acceptsAll initialStorage malformedSnapshot).2 "invoices"
      = some (.str "oops") := rfl
  have h3 : getItem initialStorage "invoices" = some (.arr []) := rfl
  simp only [h2, h3] at h1
  injection h1 with h1
  cases h1

/-- C25 as amended: `importData` is neither validating nor all-or-nothing.
For a snapshot object with the entry `(k, v)` (`k` not `exportDate`, its
storage key present in the storage) after entries whose writes the browser
takes and before entries for other storage keys: if the browser takes the
write of `v`, the storage key of `k` holds `v` afterwards, whatever `v` is and
whatever happens to the later entries; if it refuses the write, `importData`
returns `false` and leaves the storage as the earlier entries have written
it.  The result is `true` whenever the browser takes every write.  A storage
key that no entry is written to keeps its value, the set of stored keys does
not change, and for the snapshot `null` the result is `false` and the storage
is unchanged. -/
theorem importData_effect (accepts : String → Json → Bool) (ls : LocalStorage)
    (pre : List (String × Json)) (k : String) (v : Json) (post : List (String × Json))
    (hk : k ≠ "exportDate") (hhas : hasOwnProperty ls (storageKey k) = true)
    (hpre : ∀ f ∈ pre, accepts (storageKey f.1) f.2 = true)
    (hpost : ∀ f ∈ post, storageKey f.1 ≠ storageKey k) :
    (accepts (storageKey k) v = true →
      getItem (importData accepts ls (.obj (pre ++ (k, v) :: post))).2 (storageKey k)
        = some v) ∧
    (accepts (storageKey k) v = false →
      importData accepts ls (.obj (pre ++ (k, v) :: post))
        = (false, (importData accepts ls (.obj pre)).2)) ∧
    (accepts (storageKey k) v = true → (∀ f ∈ post, accepts (storageKey f.1) f.2 = true) →
      (importData accepts ls (.obj (pre ++ (k, v) :: post))).1 = true) ∧
    (∀ j, (∀ f ∈ pre ++ (k, v) :: post, storageKey f.1 ≠ j) →
      getItem (importData accepts ls (.obj (pre ++ (k, v) :: post))).2 j = getItem ls j) ∧
    (∀ j, hasOwnProperty (importData accepts ls (.obj (pre ++ (k, v) :: post))).2 j
      = hasOwnProperty ls j) ∧
    importData accepts ls .null = (false, ls) := by
  have hobj : ∀ fields, importData accepts ls (.obj fields) = importKeys accepts ls fields :=
    fun _ => rfl
  have hpre1 := importKeys_accepted accepts pre ls hpre
  have hhas1 : hasOwnProperty (importKeys accepts ls pre).2 (storageKey k) = true := by
    rw [importKeys_has]
    exact hhas
  have hsplit : importKeys accepts ls (pre ++ (k, v) :: post)
      = importKeys accepts (importKeys accepts ls pre).2 ((k, v) :: post) := by
    rw [importKeys_append, if_pos hpre1]
  have hstep : importKeys accepts (importKeys accepts ls pre).2 ((k, v) :: post)
      = if accepts (storageKey k) v = true then
          importKeys accepts (setItem (importKeys accepts ls pre).2 (storageKey k) v) post
        else (false, (importKeys accepts ls pre).2) := by
    show (if k ≠ "exportDate" ∧ hasOwnProperty (importKeys accepts ls pre).2 (storageKey k) = true
      then _ else _) = _
    rw [if_pos ⟨hk, hhas1⟩]
  refine ⟨?_, ?_, ?_, ?_, ?_, rfl⟩
  · intro hacc
    rw [hobj, hsplit, hstep, if_pos hacc, importKeys_getItem_other accepts post _ _ hpost,
      getItem_setItem_same]
  · intro hacc
    rw [hobj, hobj, hsplit, hstep, if_neg (by rw [hacc]; exact Bool.false_ne_true)]
  · intro hacc hall
    rw [hobj]
    apply importKeys_accepted
    intro f hf
    rcases List.mem_append.1 hf with h1 | h1
    · exact hpre f h1
    · rcases List.mem_cons.1 h1 with h2 | h2
      · rw [h2]
        exact hacc
      · exact hall f h2
  · intro j hj
    rw [hobj]
    exact importKeys_getItem_other accepts _ ls j hj
  · intro j
    rw [hobj]
    exact importKeys_has accepts _ ls j

theorem importData_effect_witness :
    (importData refusesCredits initialStorage smallSnapshot).1 = false ∧
    getItem
        (importData refusesCredits initialStorage
          (.obj ([] ++ ("counters", .obj [("invoice", .num 5), ("quotation", .num 6)])
            :: [("credits", .arr [])]))).2
        (storageKey "counters")
      = some (.obj [("invoice", .num 5), ("quotation", .num 6)]) :=
  ⟨rfl,
    (importData_effect refusesCredits initialStorage []
      "counters" (.obj [("invoice", .num 5), ("quotation", .num 6)]) [("credits", .arr [])]
      (by decide) (by decide) (by decide) (by decide)).1 rfl⟩

/-- C26: an accepted `saveInvoice` edit of a stored invoice stores the invoice
with the `invoiceNumber` it had and leaves the counters as they are.  An
accepted `saveInvoice` without id and a confirmed `convertToInvoice` of a
stored quotation append an invoice numbered with the current value of the
invoice counter and advance that counter by one.  No other call moves the
invoice counter: a `saveInvoice` or `convertToInvoice` call with another
outcome leaves the store as it is, and `savePayment`, `deleteInvoice` and
`saveQuotation` keep the invoice counter. -/
theorem saveInvoice_edit_keeps_invoiceNumber (st : Store) (form : InvoiceForm) (now : Nat) :
    (∀ i, (saveInvoice st (some i) form now).1 = .ok →
      ∃ ex inv1, getById st.invoices i = some ex ∧
        getById (saveInvoice st (some i) form now).2.invoices i = some inv1 ∧
        inv1.val.invoiceNumber = ex.val.invoiceNumber ∧
        (saveInvoice st (some i) form now).2.counters = st.counters) ∧
    ((saveInvoice st none form now).1 = .ok →
      ∃ inv1, (saveInvoice st none form now).2.invoices = st.invoices ++ [inv1] ∧
        inv1.val.invoiceNumber
          = { pfx := st.settings.invoicePrefix, number := st.counters.invoice } ∧
        (saveInvoice st none form now).2.counters
          = { st.counters with invoice := st.counters.invoice + 1 }) ∧
    (∀ q quotation, getById st.quotations q = some quotation →
      ∃ inv1, (convertToInvoice st q true now).2.invoices = st.invoices ++ [inv1] ∧
        inv1.val.invoiceNumber
          = { pfx := st.settings.invoicePrefix, number := st.counters.invoice } ∧
        (convertToInvoice st q true now).2.counters
          = { st.counters with invoice := st.counters.invoice + 1 }) ∧
    (∀ invoiceId, (saveInvoice st invoiceId form now).1 ≠ .ok →
      (saveInvoice st invoiceId form now).2 = st) ∧
    (∀ q confirmed, (convertToInvoice st q confirmed now).1 ≠ .ok →
      (convertToInvoice st q confirmed now).2 = st) ∧
    (∀ customerId payment,
      (savePayment st customerId payment now).2.counters = st.counters) ∧
    (∀ invoiceId confirmed,
      (deleteInvoice st invoiceId confirmed).2.counters = st.counters) ∧
    (∀ quotationId quotationForm,
      (saveQuotation st quotationId quotationForm now).2.counters.invoice
        = st.counters.invoice) := by
  refine ⟨?_, ?_, ?_, ?_, ?_, ?_, ?_, ?_⟩
  · intro i hok
    obtain ⟨_, customerId, _, hw⟩ := saveInvoice_ok hok
    rcases hw with ⟨hnone, _⟩ | ⟨j, ex, hj, hex, hw⟩
    · cases hnone
    · injection hj with hj
      subst hj
      rw [hw]
      exact ⟨ex, _, hex, getById_save_existing now st.nextId rfl hex, rfl, rfl⟩
  · intro hok
    obtain ⟨_, customerId, _, hw⟩ := saveInvoice_ok hok
    rcases hw with ⟨_, hw⟩ | ⟨j, ex, hj, _, _⟩
    · rw [hw]
      refine ⟨{ buildInvoice st none none customerId form now with
        id := some st.nextId, createdAt := some now }, ?_, rfl, rfl⟩
      show (save st.invoices (buildInvoice st none none customerId form now) now
        st.nextId).1 = _
      rw [save_new _ _ _ _ rfl]
    · cases hj
  · intro q quotation hg
    unfold convertToInvoice
    simp only [hg, if_true, save_fresh]
    exact ⟨_, rfl, rfl, trivial⟩
  · intro invoiceId h
    exact saveInvoice_not_ok h
  · intro q confirmed h
    exact convertToInvoice_not_ok h
  · intro customerId payment
    exact (savePayment_frame st customerId payment now).2.2.2.1
  · intro invoiceId confirmed
    unfold deleteInvoice
    cases confirmed <;> rfl
  · intro quotationId quotationForm
    exact (saveQuotation_invoices st quotationId quotationForm now).2.1

theorem saveInvoice_edit_keeps_invoiceNumber_witness :
    (saveInvoice pendingInvoiceStore (some 1) (sampleForm 2000 0 0 .pending) 400).1 = .ok ∧
    pendingInvoiceStore.counters.invoice = 1001 ∧
    ∃ ex inv1, getById pendingInvoiceStore.invoices 1 = some ex ∧
      getById (saveInvoice pendingInvoiceStore (some 1)
        (sampleForm 2000 0 0 .pending) 400).2.invoices 1 = some inv1 ∧
      inv1.val.invoiceNumber = ex.val.invoiceNumber ∧
      (saveInvoice pendingInvoiceStore (some 1) (sampleForm 2000 0 0 .pending) 400).2.counters
        = pendingInvoiceStore.counters :=
  ⟨by decide, by decide,
    (saveInvoice_edit_keeps_invoiceNumber pendingInvoiceStore
      (sampleForm 2000 0 0 .pending) 400).1 1 (by decide)⟩

/-- C27 does not hold as stated: after the invoice of customer 7 (total 1000,
nothing paid) is edited so that its customer is customer 8, the store is
reachable, its one invoice has exactly one credit entry, with amount equal to
the invoice's total, and that credit entry satisfies
`remainingAmount = amount - payments`; but the credit entry still belongs to
customer 7, who has no invoice and no transaction: the closing balance of the
statement of customer 7 is 0 while the remaining amounts of the credit entries
of customer 7 sum to 1000.  Nor does it hold for amounts with a fractional
part: with invoices of 1166.19 (370.17 received), 1155.10 (305.63 received)
and 1094.69 (nothing received), each with its one credit entry of the same
amount whose remaining amount is the amount minus the payment as the code
subtracts doubles (796.02, 849.4699999999999 and 1094.69), the statement over
days 0 to 9 closes with `(1166.19 + 1155.10 + 1094.69) - (370.17 + 305.63)`,
which in doubles is 2740.1800000000003, while the remaining amounts add up
to another number, exactly as well as in doubles (2740.18); whole numbers are
rounded as well once a sum reaches `2 ^ 53` in size (`2 ^ 53 + 1` gives
`2 ^ 53`). -/
theorem statement_closing_misses_moved_credit :
    Arith.doubles.add (whole (2 ^ 53)) (whole 1) = whole (2 ^ 53) ∧
    FormReachable movedInvoiceStore ∧
    movedInvoiceStore.invoices.map (fun r => (r.id, r.val.customerId, r.val.total))
      = [(some 1, 8, 1000)] ∧
    movedInvoiceStore.credits.map
        (fun c => (c.val.customerId, c.val.invoiceId, c.val.amount, c.val.remainingAmount,
          c.val.payments))
      = [(7, some 1, 1000, 1000, [])] ∧
    (∀ inv ∈ movedInvoiceStore.invoices,
      (movedInvoiceStore.credits.filter (fun c => c.val.invoiceId == inv.id)).length = 1 ∧
      ∀ c ∈ movedInvoiceStore.credits, c.val.invoiceId = inv.id →
        c.val.amount = inv.val.total) ∧
    (∀ c ∈ movedInvoiceStore.credits,
      c.val.remainingAmount = c.val.amount - paymentsTotal c.val.payments) ∧
    allTransactions movedInvoiceStore 7 = [] ∧
    (generateImprovedStatement Arith.exact 0 movedInvoiceStore 7 0 0).summary.closingBalance = 0 ∧
    ((customerCredits movedInvoiceStore 7).map (fun c => c.val.remainingAmount)).sum = 1000 ∧
    (∀ inv ∈ fractionalBalancesStore.invoices,
      (fractionalBalancesStore.credits.filter (fun c => c.val.invoiceId == inv.id)).length = 1 ∧
      ∀ c ∈ fractionalBalancesStore.credits, c.val.invoiceId = inv.id →
        c.val.customerId = inv.val.customerId ∧ c.val.amount = inv.val.total) ∧
    (∀ c ∈ fractionalBalancesStore.credits,
      c.val.remainingAmount
        = Arith.doubles.sub c.val.amount (c.val.payments.foldl
            (fun sum p => Arith.doubles.add sum p.amount) 0)) ∧
    (fractionalBalancesStore.credits.map (fun c => c.val.remainingAmount))
      = [decimal 79602 100, decimal 8494699999999999 10000000000000, decimal 109469 100] ∧
    (∀ tx ∈ allTransactions fractionalBalancesStore 7,
      dateWithin tx.date (startOfDay 0 (day 0)) (endOfDay 0 (day 9)) = true) ∧
    (generateImprovedStatement Arith.doubles 0 fractionalBalancesStore 7 (day 0)
        (day 9)).summary.closingBalance = decimal 27401800000000003 10000000000000 ∧
    ((customerCredits fractionalBalancesStore 7).map (fun c => c.val.remainingAmount)).foldl
        Arith.doubles.add 0 = decimal 274018 100 ∧
    decimal 27401800000000003 10000000000000 ≠ decimal 274018 100 ∧
    (generateImprovedStatement Arith.doubles 0 fractionalBalancesStore 7 (day 0)
        (day 9)).summary.closingBalance
      ≠ ((customerCredits fractionalBalancesStore 7).map
          (fun c => c.val.remainingAmount)).sum := by
  refine ⟨by decide, ?_, by decide, by decide, by decide, by decide, by decide, by decide,
    by decide, by decide, by decide, by decide, by decide, by decide, by decide, by decide,
    by decide⟩
  exact FormReachable.saveInvoice (some 1) _ 400 pendingInvoiceStore_formReachable
    (by decide) (by decide)

/-- C27 as amended: let the ids of the customer's invoices be pairwise
distinct and the invoice ids of the customer's credit entries be pairwise
distinct (as in every reachable store), and let the customer's invoice totals
and payment amounts be whole numbers whose sizes add up to less than `2 ^ 53`.
If each invoice of the customer has a credit entry of the customer with amount
equal to the invoice's total, each credit entry of the customer is linked to
an invoice of the customer, each credit entry of the customer satisfies
`remainingAmount = amount - sum of its payments`, and the date range covers
every transaction of the customer (whatever the offset of local time), then
the closing balance of the statement is the sum of the remaining amounts of
the customer's credit entries. -/
theorem statement_closing_is_outstanding (offset : Int) (st : Store) (customerId : Nat)
    (startDate endDate : Nat)
    (hids : ((customerInvoices st customerId).map (fun r => r.id)).Nodup)
    (hlinks : ((customerCredits st customerId).map (fun c => c.val.invoiceId)).Nodup)
    (hinv : ∀ inv ∈ customerInvoices st customerId, ∃ cr ∈ customerCredits st customerId,
      cr.val.invoiceId = inv.id ∧ cr.val.amount = inv.val.total)
    (hcred : ∀ cr ∈ customerCredits st customerId, ∃ inv ∈ customerInvoices st customerId,
      cr.val.invoiceId = inv.id)
    (hbal : ∀ cr ∈ customerCredits st customerId,
      cr.val.remainingAmount = cr.val.amount - paymentsTotal cr.val.payments)
    (hcover : ∀ tx ∈ allTransactions st customerId,
      dateWithin tx.date (startOfDay offset startDate) (endOfDay offset endDate) = true)
    (hwhole : WholeAmounts st customerId) :
    (generateImprovedStatement Arith.doubles offset st customerId startDate
        endDate).summary.closingBalance
      = ((customerCredits st customerId).map (fun c => c.val.remainingAmount)).sum := by
  rw [generateImprovedStatement_doubles offset st customerId startDate endDate hwhole,
    statement_closing_covered offset st customerId startDate endDate hcover,
    sum_total_eq_sum_amount _ _ hids hlinks hinv hcred,
    sum_map_congr (fun c : Rec CreditData => c.val.remainingAmount)
      (fun c => c.val.amount - paymentsTotal c.val.payments) _ hbal,
    sum_map_sub]

theorem statement_closing_is_outstanding_witness :
    (generateImprovedStatement Arith.doubles 19800000 wholeLedgerStore 7 (day 0)
        (day 2)).summary.closingBalance = whole 600 ∧
    (generateImprovedStatement Arith.doubles 19800000 wholeLedgerStore 7 (day 0)
        (day 2)).summary.closingBalance
      = ((customerCredits wholeLedgerStore 7).map (fun c => c.val.remainingAmount)).sum :=
  ⟨by decide,
    statement_closing_is_outstanding 19800000 wholeLedgerStore 7 (day 0) (day 2) (by decide)
      (by decide) (by decide) (by decide) (by decide) (by decide) (by decide)⟩

/-- C28: for an accepted `saveInvoice` edit with status pending of an invoice
that has a linked credit entry, the recomputed remaining amount
`total - (partialPayment + newPayment)` is strictly positive, so that the
condition `remainingAmount <= 0` of the branch that marks the credit entry and
the invoice as paid is false; the credit entry is stored with that remaining
amount and with the status it had, and the invoice is stored pending. -/
theorem saveInvoice_pending_edit_keeps_credit_status (st : Store) (i : Nat)
    (form : InvoiceForm) (now : Nat) (linked : Rec CreditData) (k : Nat)
    (hok : (saveInvoice st (some i) form now).1 = .ok)
    (hpending : form.status = .pending)
    (hlinked : st.credits.find? (fun c => c.val.invoiceId == some i) = some linked)
    (hid : linked.id = some k) :
    0 < (calculateInvoiceTotal form.rows).2 - (form.partialPayment + form.newPayment) ∧
    ¬ ((calculateInvoiceTotal form.rows).2 - (form.partialPayment + form.newPayment) ≤ 0) ∧
    (∃ c1, getById (saveInvoice st (some i) form now).2.credits k = some c1 ∧
      c1.val.status = linked.val.status ∧
      c1.val.remainingAmount
        = (calculateInvoiceTotal form.rows).2 - (form.partialPayment + form.newPayment)) ∧
    (∃ inv1, getById (saveInvoice st (some i) form now).2.invoices i = some inv1 ∧
      inv1.val.status = .pending) := by
  obtain ⟨hrej, customerId, _, hw⟩ := saveInvoice_ok hok
  have hpos : 0 < (calculateInvoiceTotal form.rows).2
      - (form.partialPayment + form.newPayment) := by
    by_contra hn
    apply hrej
    refine Or.inr (Or.inr (Or.inr ⟨hpending, ?_⟩))
    rw [← calculateInvoiceTotal_total]
    omega
  rcases hw with ⟨hnone, _⟩ | ⟨j, ex, hj, hex, hw⟩
  · cases hnone
  · injection hj with hj
    subst hj
    refine ⟨hpos, not_le.2 hpos, ?_, ?_⟩
    · rw [hw]
      have hsaved : (save st.invoices
          (buildInvoice st (some i) (some ex) customerId form now) now st.nextId).2.1
          = buildInvoice st (some i) (some ex) customerId form now := rfl
      have hcred : (writeInvoice st (some i) (some ex) customerId form now).credits
          = (reconcileCredit st.credits
              (buildInvoice st (some i) (some ex) customerId form now)
              form.partialPayment form.newPayment now
              (save st.invoices (buildInvoice st (some i) (some ex) customerId form now)
                now st.nextId).2.2).1 := rfl
      rw [hcred]
      have hstat : (buildInvoice st (some i) (some ex) customerId form now).val.status
          = .pending := hpending
      have htot : (buildInvoice st (some i) (some ex) customerId form now).val.total
          = (calculateInvoiceTotal form.rows).2 := rfl
      have hbid : (buildInvoice st (some i) (some ex) customerId form now).id = some i := rfl
      unfold reconcileCredit
      simp only [hstat, hbid, hlinked, htot]
      have hex1 : getById st.credits k = some linked ∨ ∃ other, getById st.credits k = some other := by
        cases hg : getById st.credits k with
        | some other => exact Or.inr ⟨other, rfl⟩
        | none =>
          exfalso
          have hmem : linked ∈ st.credits := List.mem_of_find?_eq_some hlinked
          unfold getById at hg
          rw [List.find?_eq_none] at hg
          have := hg linked hmem
          simp [hid] at this
      have hsome : ∃ other, getById st.credits k = some other := by
        rcases hex1 with h | h
        · exact ⟨linked, h⟩
        · exact h
      obtain ⟨other, hother⟩ := hsome
      refine ⟨_, getById_save_existing now _ hid hother, ?_, rfl⟩
      show (if (calculateInvoiceTotal form.rows).2 - (form.partialPayment + form.newPayment) ≤ 0
        then Status.paid else linked.val.status) = linked.val.status
      rw [if_neg (not_le.2 hpos)]
    · rw [hw]
      exact ⟨_, getById_save_existing now st.nextId rfl hex, hpending⟩

theorem saveInvoice_pending_edit_keeps_credit_status_witness :
    0 < (calculateInvoiceTotal (sampleForm 2000 0 0 .pending).rows).2
      - ((sampleForm 2000 0 0 .pending).partialPayment
          + (sampleForm 2000 0 0 .pending).newPayment) ∧
    ¬ ((calculateInvoiceTotal (sampleForm 2000 0 0 .pending).rows).2
      - ((sampleForm 2000 0 0 .pending).partialPayment
          + (sampleForm 2000 0 0 .pending).newPayment) ≤ 0) ∧
    (∃ c1, getById (saveInvoice pendingInvoiceStore (some 1)
        (sampleForm 2000 0 0 .pending) 400).2.credits 2 = some c1 ∧
      c1.val.status = Status.pending ∧
      c1.val.remainingAmount
        = (calculateInvoiceTotal (sampleForm 2000 0 0 .pending).rows).2
          - ((sampleForm 2000 0 0 .pending).partialPayment
              + (sampleForm 2000 0 0 .pending).newPayment)) ∧
    (∃ inv1, getById (saveInvoice pendingInvoiceStore (some 1)
        (sampleForm 2000 0 0 .pending) 400).2.invoices 1 = some inv1 ∧
      inv1.val.status = .pending) :=
  saveInvoice_pending_edit_keeps_credit_status pendingInvoiceStore 1
    (sampleForm 2000 0 0 .pending) 400
    { id := some 2, createdAt := some 100, updatedAt := none
      val := { customerId := 7, invoiceId := some 1, amount := 1000, remainingAmount := 1000
               dueDate := none, status := .pending, notes := "From invoice #INV-1000"
               payments := [] } }
    2 (by decide) rfl (by decide) rfl

/-- C29: in every store reachable from the initial store (whose settings, and
so the invoice prefix, no operation changes) by `saveInvoice`,
`convertToInvoice` and `deleteInvoice` calls (and `savePayment` and
`saveQuotation` calls as well), the invoice numbers of the stored invoices are
pairwise distinct, they all carry the prefix of the settings, and the counter
value in each of them is smaller than the current value of the invoice
counter. -/
theorem reachable_invoiceNumbers_distinct (st : Store) (h : Reachable st) :
    (st.invoices.map (fun r => r.val.invoiceNumber)).Nodup ∧
    (∀ inv ∈ st.invoices, inv.val.invoiceNumber.pfx = st.settings.invoicePrefix) ∧
    st.settings = InvoiceDB.init.settings ∧
    (∀ inv ∈ st.invoices, inv.val.invoiceNumber.number < st.counters.invoice) := by
  have hd := h.distinct
  refine ⟨?_, hd.pfx_fixed, ?_, hd.numbers_below⟩
  · have hn := hd.numbers_nodup
    have hmap : st.invoices.map (fun r => r.val.invoiceNumber.number)
        = (st.invoices.map (fun r => r.val.invoiceNumber)).map (fun d => d.number) := by
      rw [List.map_map]
      rfl
    rw [hmap] at hn
    exact List.Nodup.of_map _ hn
  · exact h.settings_fixed

theorem reachable_invoiceNumbers_distinct_witness :
    twoInvoiceStore.invoices.map (fun r => r.val.invoiceNumber)
      = [{ pfx := "INV", number := 1000 }, { pfx := "INV", number := 1001 }] ∧
    twoInvoiceStore.counters.invoice = 1002 ∧
    ((twoInvoiceStore.invoices.map (fun r => r.val.invoiceNumber)).Nodup ∧
    (∀ inv ∈ twoInvoiceStore.invoices,
      inv.val.invoiceNumber.pfx = twoInvoiceStore.settings.invoicePrefix) ∧
    twoInvoiceStore.settings = InvoiceDB.init.settings ∧
    (∀ inv ∈ twoInvoiceStore.invoices,
      inv.val.invoiceNumber.number < twoInvoiceStore.counters.invoice)) :=
  ⟨by decide, by decide,
    reachable_invoiceNumbers_distinct twoInvoiceStore twoInvoiceStore_reachable⟩

/-- C30: for every well-formed store (record ids distinct, as in every
reachable store), customer and payment form, `savePayment` leaves every credit
entry of another customer and every paid credit entry stored as it was, adds
and removes no credit entry and no invoice, leaves the invoice under an id
unchanged unless a pending credit entry of the customer linked to that id is
settled by the call (reached with money left and left with nothing
remaining), and leaves products, customers and quotations as they were. -/
theorem savePayment_leaves_others (st : Store) (customerId : Nat) (form : PaymentForm)
    (now : Nat) (hwf : StoreWF st) :
    (∀ c ∈ st.credits, (c.val.customerId ≠ customerId ∨ c.val.status = .paid) →
      ∃ i, c.id = some i ∧
        getById (savePayment st customerId form now).2.credits i = some c) ∧
    (savePayment st customerId form now).2.credits.map (fun c => c.id)
      = st.credits.map (fun c => c.id) ∧
    (∀ k,
      (∀ amount pre c post, form.amount = some amount →
        pendingCredits st customerId = pre ++ c :: post → c.val.invoiceId = some k →
        ¬ Settles (amountLeft amount (remainingAmounts pre)) c) →
      getById (savePayment st customerId form now).2.invoices k = getById st.invoices k) ∧
    (savePayment st customerId form now).2.invoices.map (fun r => r.id)
      = st.invoices.map (fun r => r.id) ∧
    (savePayment st customerId form now).2.products = st.products ∧
    (savePayment st customerId form now).2.customers = st.customers ∧
    (savePayment st customerId form now).2.quotations = st.quotations := by
  obtain ⟨hp, hc, hq, _, _⟩ := savePayment_frame st customerId form now
  refine ⟨?_, ?_, ?_, ?_, hp, hc, hq⟩
  · intro c hcm hother
    obtain ⟨i, hi, _⟩ := hwf.credits.ids c hcm
    refine ⟨i, hi, ?_⟩
    rw [savePayment_credit_other hwf customerId form now i]
    · exact getById_of_mem hwf.credits.ids_nodup hcm hi
    · intro d hd hdi
      have hdm := mem_pendingCredits hd
      have hdc : d = c :=
        List.inj_on_of_nodup_map hwf.credits.ids_nodup hdm.1 hcm (by rw [hdi, hi])
      rw [hdc] at hdm
      rcases hother with h1 | h1
      · exact h1 hdm.2.1
      · rw [h1] at hdm
        exact absurd hdm.2.2 (by decide)
  · have := congrArg (List.map Prod.fst) (savePayment_keys hwf customerId form now)
    simpa [List.map_map, Function.comp_def, creditKey] using this
  · intro k hk
    by_cases hok : ∃ amount, form.amount = some amount ∧ 0 < amount
    · obtain ⟨amount, ha, hpos⟩ := hok
      rw [savePayment_ok_eq st customerId form now amount ha hpos]
      by_cases hl : ∃ c ∈ pendingCredits st customerId, c.val.invoiceId = some k
      · obtain ⟨c, hcm, hck⟩ := hl
        obtain ⟨pre, post, hsplit⟩ := List.append_of_mem hcm
        have hlinks := nodup_map_split (fun d : Rec CreditData => d.val.invoiceId) pre c post (by
          rw [← hsplit]
          exact pendingCredits_nodup_map st customerId _ hwf.credits.links_nodup)
        rw [hsplit, settle_fold_invoice form.date form.method now pre c post (st, amount) k hck
          (fun d hd => by rw [← hck]; exact hlinks.1 d hd)
          (fun d hd => by rw [← hck]; exact hlinks.2 d hd),
          if_neg (hk amount pre c post ha hsplit hck)]
      · exact settle_fold_invoice_other form.date form.method now _ (st, amount) k
          (fun c hcm hck => hl ⟨c, hcm, hck⟩)
    · rw [savePayment_rejected_eq st customerId form now (by
        intro a h
        by_contra hn
        exact hok ⟨a, h, by omega⟩)]
  · have := congrArg (List.map Prod.fst) (savePayment_identity st customerId form now)
    simpa [List.map_map, Function.comp_def] using this

theorem savePayment_leaves_others_witness :
    (savePayment twoDebtsStore 7 payment120 400).2.invoices.map (fun r => (r.id, r.val.status))
      = [(some 1, Status.paid), (some 3, Status.pending)] ∧
    getById (savePayment twoDebtsStore 7 payment120 400).2.invoices 3
      = getById twoDebtsStore.invoices 3 ∧
    (savePayment twoDebtsStore 7 payment120 400).2.products = twoDebtsStore.products :=
  ⟨by decide,
    (savePayment_leaves_others twoDebtsStore 7 payment120 400 twoDebtsStore_reachable.wf).2.2.1
      3 (by
        intro amount pre c post ha hsplit hck
        have hamount : amount = 120 := by
          have h1 : payment120.amount = some 120 := rfl
          rw [h1] at ha
          injection ha with ha
          exact ha.symm
        subst hamount
        have hp : pendingCredits twoDebtsStore 7
            = [{ id := some 2, createdAt := some 100, updatedAt := none
                 val := { customerId := 7, invoiceId := some 1, amount := 100
                          remainingAmount := 100, dueDate := none, status := .pending
                          notes := "From invoice #INV-1000", payments := [] } },
               { id := some 4, createdAt := some 200, updatedAt := none
                 val := { customerId := 7, invoiceId := some 3, amount := 50
                          remainingAmount := 50, dueDate := none, status := .pending
                          notes := "From invoice #INV-1001", payments := [] } }] := by decide
        rw [hp] at hsplit
        match pre, hsplit with
        | [], hsplit =>
          injection hsplit with h1 h2
          rw [← h1] at hck
          cases hck
        | [a], hsplit =>
          injection hsplit with h1 h2
          injection h2 with h2 h3
          rw [← h1, ← h2]
          decide
        | a :: b :: rest, hsplit =>
          injection hsplit with h1 h2
          injection h2 with h2 h3
          cases rest <;> cases h3),
    (savePayment_leaves_others twoDebtsStore 7 payment120 400
      twoDebtsStore_reachable.wf).2.2.2.2.1⟩

end NemaTraders
